import Mathlib

/-!
# RichGSL ODE-solver wrapper: embedding and verified properties

Shallow embedding of `src/RUtils/RichGSL_Source/rc_ode_solver.c`
(`translate_step_type`, `rc_func`, `rc_jac`, `rc_ode_solver`), and of
`translate_step_type` and `rc_ode_solver` of `src/RHex_XS_src/rc_ode_solve.c`
(namespace `RHex_XS_src`).

Modelling conventions.

* C `double` values are rationals (`ℚ`), arithmetic is exact.
* C `int` values are mathematical integers; the counts that size arrays
  (`num_y`) are naturals.
* A Perl scalar (`SV`) is the record of what the accessor macros used by the
  source read from it: `SvPOKp`, `SvNOKp`, `SvIOKp`, `SvNV`, `SvROK`/`SvRV`.
* The Perl return stack is a list whose head is the top of the stack, so a list
  `r` returned by a callback sits on the stack as `r.reverse`.
* `croak` (a non-local exit) is an outcome of its own, carrying the message
  arguments and the buffers as they are at the moment of the exit.
* `gsl_odeiv2_driver_alloc_y_new` and `gsl_odeiv2_driver_apply` belong to the
  external library; they are parameters of the model (`Gsl`).
* Output written with `printf` is not part of the model.
-/

namespace RichGSL

/-! ## Perl values -/

/-- Perl scalar, as seen through the accessors the source applies to it. -/
structure SV where
  /-- Result of `SvPOKp`: the scalar holds a string. -/
  pokp : Bool
  /-- Result of `SvNOKp`: the scalar holds a double. -/
  nokp : Bool
  /-- Result of `SvIOKp`: the scalar holds an integer. -/
  iokp : Bool
  /-- Result of `SvNV`: the scalar read as a double. -/
  nv : ℚ
  /-- Referent of the scalar: `SvROK` holds iff this is `some a`, and then `SvRV` is `a`. -/
  rv : Option Nat
deriving DecidableEq, Repr

/-- Scalar made by `newSVnv(x)`: a double holding `x`. -/
def newSVnv (x : ℚ) : SV :=
  { pokp := false, nokp := true, iokp := false, nv := x, rv := none }

/-- The undefined scalar `&PL_sv_undef`; read as a double it is `0`. -/
def PL_sv_undef : SV :=
  { pokp := false, nokp := false, iokp := false, nv := 0, rv := none }

/-- Perl string scalar; `SvNV` of it would be `x`. -/
def newSVpv (x : ℚ) : SV :=
  { pokp := true, nokp := false, iokp := false, nv := x, rv := none }

/-- Reference scalar made by `newRV_inc` to the object at address `a`. -/
def newRV_inc (a : Nat) : SV :=
  { pokp := false, nokp := false, iokp := false, nv := 0, rv := some a }

/-- String-typed element: the test `SvPOKp(elt)` of the source. -/
def SV.isString (e : SV) : Bool := e.pokp

/-- The test `SvNOKp(elt) || SvIOKp(elt)` of the source. -/
def SV.numFlag (e : SV) : Bool := e.nokp || e.iokp

/-- Pop the top of the return stack (`POPs`). Popping an empty stack does not
occur in the source (the count is checked first); it yields the undefined
scalar here. -/
def POPs (stack : List SV) : SV × List SV :=
  match stack with
  | [] => (PL_sv_undef, [])
  | e :: rest => (e, rest)

/-- Remove and return the first element of an array (`av_shift`); on an empty
array the undefined scalar is returned and the array stays empty. -/
def av_shift (av : List SV) : SV × List SV :=
  match av with
  | [] => (PL_sv_undef, [])
  | e :: rest => (e, rest)

/-! ## Status codes and fatal errors -/

/-- The value of `GSL_SUCCESS` in `gsl_errno.h`. -/
def GSL_SUCCESS : Int := 0

/-- The value of `GSL_EBADFUNC` in `gsl_errno.h`. -/
def GSL_EBADFUNC : Int := 9

/-- The `croak` calls of the source, with the arguments of their format strings. -/
inductive Croak where
  /-- `rc_func - expected an array of %d doubles from perlfunc, got %d items.` -/
  | func_arity (expected : Int) (got : Int)
  /-- `rc_func - detected bad element type` -/
  | func_bad_element
  /-- `rc_jac - expected 1 array pointer from perlfunc, got %d items.` -/
  | jac_arity (got : Int)
  /-- `rc_jac - dfdt must be a reference to an array.` -/
  | jac_dfdt_not_array
  /-- `rc_jac - dfdy must be a reference to an array.` -/
  | jac_dfdy_not_array
  /-- `rc_jac - delivered (%ld) elements, not (%d) as required` -/
  | jac_length (delivered : Int) (required : Int)
  /-- `rc_jac - detected non-double element` -/
  | jac_non_double
  /-- `rc_ode_solver - unknown step type (%s)` -/
  | unknown_step_type (name : String)
deriving DecidableEq, Repr

/-- Outcome of a callback bridge (`rc_func`, `rc_jac`) over buffers `β`. -/
inductive CallOutcome (β : Type) where
  /-- Normal return with a status. -/
  | ret (status : Int) (bufs : β)
  /-- Exit through `croak`; `bufs` are the buffers at that moment. -/
  | croak (e : Croak) (bufs : β)
  /-- Undefined behaviour (use of a pointer that is not an array). -/
  | undefined
deriving DecidableEq, Repr

/-! ## Stepper types -/

/-- The stepper algorithms `gsl_odeiv2_step_*` named in the source. -/
inductive gsl_odeiv2_step_type where
  | msbdf | msadams | bsimp | rk4imp | rk2imp | rk1imp | rk8pd | rkck | rkf45 | rk4 | rk2
deriving DecidableEq, Repr

/-- `translate_step_type` of `src/RUtils/RichGSL_Source/rc_ode_solver.c`;
`none` is the null pointer. -/
def translate_step_type (step_type : String) : Option gsl_odeiv2_step_type :=
  if step_type = "msbdf_j" then some .msbdf
  else if step_type = "msadams" then some .msadams
  else if step_type = "bsimp_j" then some .bsimp
  else if step_type = "rk4imp_j" then some .rk4imp
  else if step_type = "rk2imp_j" then some .rk2imp
  else if step_type = "rk1imp_j" then some .rk1imp
  else if step_type = "rk8pd" then some .rk8pd
  else if step_type = "rkck" then some .rkck
  else if step_type = "rkf45" then some .rkf45
  else if step_type = "rk4" then some .rk4
  else if step_type = "rk2" then some .rk2
  else none

/-- The names compared against in `translate_step_type`, in source order. -/
def step_type_names : List String :=
  ["msbdf_j", "msadams", "bsimp_j", "rk4imp_j", "rk2imp_j", "rk1imp_j",
   "rk8pd", "rkck", "rkf45", "rk4", "rk2"]

/-! ## `rc_func` -/

/-- Arguments pushed for a callback: `t`, then `y[0] .. y[num_y-1]`. -/
def push_args (t : ℚ) (y : List ℚ) (num_y : Nat) : List SV :=
  newSVnv t :: (List.range num_y).map (fun i => newSVnv (y.getD i 0))

/-- The unloading loop of `rc_func`, `for (i = num_y-1; i >= 0; --i)`:
the first argument is `i + 1`, the number of passes still to run. -/
def rc_func_loop (check : Int) : Nat → List SV → Int → List ℚ → CallOutcome (List ℚ)
  | 0, _, status, f => .ret status f
  | i + 1, stack, status, f =>
    let (elt, stack1) := POPs stack
    if elt.pokp then
      rc_func_loop check i stack1 GSL_EBADFUNC (f.set i ((GSL_EBADFUNC : Int) : ℚ))
    else if check ≠ 0 ∧ !(elt.nokp || elt.iokp) then
      .croak .func_bad_element f
    else
      rc_func_loop check i stack1 status (f.set i elt.nv)

/-- `rc_func`: `check` is the static validation flag, `perlfunc` the host
derivative callback (from the pushed arguments to the returned list), `f` the
output buffer on entry. -/
def rc_func (check : Int) (num_y : Nat) (perlfunc : List SV → List SV)
    (t : ℚ) (y : List ℚ) (f : List ℚ) : CallOutcome (List ℚ) :=
  let r := perlfunc (push_args t y num_y)
  let count : Int := r.length
  if count ≠ (num_y : Int) then
    .croak (.func_arity num_y count) f
  else
    rc_func_loop check num_y r.reverse GSL_SUCCESS f

/-- The value `rc_func` stores in `f[i]` for the element `elt` popped for index
`i`: `(double)GSL_EBADFUNC` for a string, `SvNV(elt)` otherwise. -/
def stored_value (elt : SV) : ℚ :=
  if elt.pokp then ((GSL_EBADFUNC : Int) : ℚ) else elt.nv

/-! ## `rc_jac` -/

/-- A referent on the Perl heap: an array (`SvTYPE == SVt_PVAV`) or anything else. -/
inductive Obj where
  | av (elts : List SV)
  | other
deriving DecidableEq, Repr

/-- The Perl heap: the object at address `a` is the `a`-th entry. -/
abbrev Heap := List Obj

/-- The array a shell refers to, as computed in `rc_jac`:
`SvROK(shell)`, then `SvRV(shell)`, null unless `SvTYPE` is `SVt_PVAV`. -/
def array_ref (heap : Heap) (shell : SV) : Option Nat :=
  match shell.rv with
  | none => none
  | some a =>
    match heap.get? a with
    | some (.av _) => some a
    | _ => none

/-- `av_top_index(av)`: the highest index of the array, `-1` when it is empty. -/
def av_top_index (heap : Heap) (a : Nat) : Int :=
  match heap.get? a with
  | some (.av elts) => (elts.length : Int) - 1
  | _ => -1

/-- `av_shift` through a pointer: `none` is undefined behaviour (the pointer is
null or does not point at an array); otherwise the shifted element and the heap
with the array shortened. -/
def av_shift_at (heap : Heap) (p : Option Nat) : Option (SV × Heap) :=
  match p with
  | none => none
  | some a =>
    match heap.get? a with
    | some (.av elts) =>
      let (e, rest) := av_shift elts
      some (e, heap.set a (.av rest))
    | _ => none

/-- What `rc_jac` reads and writes: the static flag `check`, the Perl heap and
the two output buffers. -/
structure JacState where
  check : Int
  heap : Heap
  dfdt : List ℚ
  dfdy : List ℚ
deriving DecidableEq, Repr

/-- The loop `for (i = 0; i<num_y; ++i)` filling `dfdt`; the first argument is
the number of passes still to run, the second the index `i`. -/
def rc_jac_dfdt_loop (dfdtRef : Option Nat) : Nat → Nat → JacState → CallOutcome JacState
  | 0, _, s => .ret GSL_SUCCESS s
  | n + 1, i, s =>
    match av_shift_at s.heap dfdtRef with
    | none => .undefined
    | some (elt, heap1) =>
      if s.check ≠ 0 ∧ !(elt.nokp || elt.iokp) then
        .croak .jac_non_double { s with heap := heap1 }
      else
        rc_jac_dfdt_loop dfdtRef n (i + 1) { s with heap := heap1, dfdt := s.dfdt.set i elt.nv }

/-- The inner loop `for (i = 0; i<num_y; ++i)` filling row `j` of `dfdy`. -/
def rc_jac_row_loop (num_y : Nat) (rowRef : Option Nat) (j : Nat) :
    Nat → Nat → JacState → CallOutcome JacState
  | 0, _, s => .ret GSL_SUCCESS s
  | n + 1, i, s =>
    match av_shift_at s.heap rowRef with
    | none => .undefined
    | some (elt, heap1) =>
      if s.check ≠ 0 ∧ !(elt.nokp || elt.iokp) then
        .croak .jac_non_double { s with heap := heap1 }
      else
        rc_jac_row_loop num_y rowRef j n (i + 1)
          { s with heap := heap1, dfdy := s.dfdy.set (j * num_y + i) elt.nv }

/-- The outer loop `for (j = 0; j<num_y; ++j)` over the rows of `dfdy`; the row
pointer is `(AV*)SvRV(rowShell)`, taken without any test. -/
def rc_jac_dfdy_loop (num_y : Nat) (dfdyRef : Option Nat) :
    Nat → Nat → JacState → CallOutcome JacState
  | 0, _, s => .ret GSL_SUCCESS s
  | n + 1, j, s =>
    match av_shift_at s.heap dfdyRef with
    | none => .undefined
    | some (rowShell, heap1) =>
      match rc_jac_row_loop num_y rowShell.rv j num_y 0 { s with heap := heap1 } with
      | .ret _ s1 => rc_jac_dfdy_loop num_y dfdyRef n (j + 1) s1
      | o => o

/-- The end of `rc_jac`: `if (check == 1) check = 0;` and the return of `status`. -/
def rc_jac_finish (o : CallOutcome JacState) : CallOutcome JacState :=
  match o with
  | .ret _ s => .ret GSL_SUCCESS { s with check := if s.check = 1 then 0 else s.check }
  | o => o

/-- The part of `rc_jac` from `SV* dfdyShell = POPs;` on. -/
def rc_jac_dfdy (num_y : Nat) (stack : List SV) (s : JacState) : CallOutcome JacState :=
  let (dfdyShell, _) := POPs stack
  if s.check ≠ 0 then
    match array_ref s.heap dfdyShell with
    | none => .croak .jac_dfdy_not_array s
    | some a =>
      if av_top_index s.heap a + 1 ≠ (num_y : Int) then
        .croak (.jac_length (av_top_index s.heap a + 1) num_y) s
      else
        rc_jac_finish (rc_jac_dfdy_loop num_y (some a) num_y 0 s)
  else
    rc_jac_finish (rc_jac_dfdy_loop num_y dfdyShell.rv num_y 0 s)

/-- `rc_jac`: `perljac` is the host Jacobian callback, from the pushed arguments
and the heap to the returned list and the heap it leaves; `s` holds the flag
`check` and the output buffers on entry (its heap is the one before the call). -/
def rc_jac (num_y : Nat) (perljac : List SV → Heap → List SV × Heap)
    (t : ℚ) (y : List ℚ) (s : JacState) : CallOutcome JacState :=
  let (r, heap0) := perljac (push_args t y num_y) s.heap
  let s0 : JacState := { s with heap := heap0 }
  let count : Int := r.length
  if count ≠ 2 then
    .croak (.jac_arity count) s0
  else
    let (dfdtShell, stack1) := POPs r.reverse
    let tempRef := array_ref s0.heap dfdtShell
    match tempRef with
    | none =>
      if s0.check ≠ 0 then .croak .jac_dfdt_not_array s0
      else
        match rc_jac_dfdt_loop none num_y 0 s0 with
        | .ret _ s1 => rc_jac_dfdy num_y stack1 s1
        | o => o
    | some a =>
      if s0.check ≠ 0 ∧ av_top_index s0.heap a + 1 ≠ (num_y : Int) then
        .croak (.jac_length (av_top_index s0.heap a + 1) num_y) s0
      else
        match rc_jac_dfdt_loop (some a) num_y 0 s0 with
        | .ret _ s1 => rc_jac_dfdy num_y stack1 s1
        | o => o

/-! ## `rc_ode_solver` -/

/-- Outcome of one `gsl_odeiv2_driver_apply(d, &t, tj, yt)`. The stepper runs
`rc_func` and `rc_jac`, so besides returning a status it can leave through a
`croak` of theirs, or through their undefined behaviour. -/
inductive ApplyOutcome (σ : Type) where
  /-- The call returns `status`, leaving the stepper, `t`, `yt` and `check` as given. -/
  | returned (status : Int) (d : σ) (t : ℚ) (yt : List ℚ) (check : Int)
  /-- One of the callbacks croaks during the call. -/
  | croaked (e : Croak) (d : σ) (check : Int)
  /-- One of the callbacks runs into undefined behaviour during the call. -/
  | undefined

/-- The external library, for a system `{rc_func, rc_jac, num_y, params}`:
`σ` is the state of an allocated stepper/controller. -/
structure Gsl (σ : Type) where
  /-- `gsl_odeiv2_driver_alloc_y_new(&sys, T, hstart, epsabs, epsrel)`. -/
  gsl_odeiv2_driver_alloc_y_new : gsl_odeiv2_step_type → ℚ → ℚ → ℚ → σ
  /-- `gsl_odeiv2_driver_apply(d, &t, t1, y)`, under the current value of `check`. -/
  gsl_odeiv2_driver_apply : σ → Int → ℚ → ℚ → List ℚ → ApplyOutcome σ

/-- The state `rc_ode_solver` works on. -/
structure SolverState (σ : Type) where
  /-- The static flag `check`. -/
  check : Int
  /-- The caller's input container `y`. -/
  y : List SV
  /-- The stepper `d`; `none` while none is allocated. -/
  d : Option σ
  /-- The working time `t`. -/
  t : ℚ
  /-- The working state `yt`. -/
  yt : List ℚ
  /-- The result table `resultsAV`, one list per row; empty before it is created. -/
  resultsAV : List (List SV)
  /-- Ghost field: the target times `tj` of the stepper applications made so far. -/
  applied : List ℚ

/-- How a call of `rc_ode_solver` ends. -/
inductive Outcome (σ : Type) where
  /-- `return resultsAV;` in state `s`: the returned table is `s.resultsAV`. -/
  | returned (s : SolverState σ)
  /-- Exit through `croak` in state `s`; nothing is returned. -/
  | croaked (e : Croak) (s : SolverState σ)
  /-- Undefined behaviour. -/
  | undefined

/-- The table handed back to the caller, if the call returns. -/
def Outcome.table {σ : Type} : Outcome σ → Option (List (List SV))
  | .returned s => some s.resultsAV
  | _ => none

/-- The loop `for (i = 0; i<num_y; ++i)` reading the initial state: each pass
shifts one element off `y` and stores its `SvNV` in the next slot of `yt`.
Returns `yt` and what is left of `y`. -/
def load_yt : Nat → List SV → List ℚ × List SV
  | 0, y => ([], y)
  | n + 1, y =>
    let (elt, y1) := av_shift y
    let (yt, y2) := load_yt n y1
    (elt.nv :: yt, y2)

/-- A row array: `av_push(rowAV,newSVnv(t))`, then `av_push(rowAV,newSVnv(yt[i]))`
for `i = 0 .. num_y-1`. -/
def make_row (t : ℚ) (yt : List ℚ) (num_y : Nat) : List SV :=
  newSVnv t :: (List.range num_y).map (fun i => newSVnv (yt.getD i 0))

/-- Result of one pass of the stepping loop. -/
inductive Pass (σ : Type) where
  /-- The pass pushed its row; the loop goes on in state `s`. -/
  | next (s : SolverState σ)
  /-- The pass left the function. -/
  | stop (o : Outcome σ)

/-- The target time of reporting index `j`: `double tj = j*t_step + t0;`. -/
def target_time (t0 t_step : ℚ) (j : Int) : ℚ := (j : ℚ) * t_step + t0

/-- The body of the stepping loop at reporting index `j`. -/
def loop_body {σ : Type} (gsl : Gsl σ) (t0 t_step : ℚ) (num_y : Nat) (j : Int)
    (s : SolverState σ) : Pass σ :=
  let tj := target_time t0 t_step j
  match s.d with
  | none => .stop .undefined
  | some d =>
    match gsl.gsl_odeiv2_driver_apply d s.check s.t tj s.yt with
    | .undefined => .stop .undefined
    | .croaked e d1 check1 =>
      .stop (.croaked e { s with check := check1, d := some d1, applied := s.applied ++ [tj] })
    | .returned status d1 t1 yt1 check1 =>
      let s1 : SolverState σ :=
        { s with check := check1, d := some d1, t := t1, yt := yt1,
                 applied := s.applied ++ [tj] }
      if status ≠ GSL_SUCCESS then
        .stop (.returned s1)
      else
        .next { s1 with resultsAV := s1.resultsAV ++ [make_row tj s1.yt num_y] }

/-- The loop `for (j = 1; j <= num_steps; j++)`: the first argument is the
number of passes still to run, the second the index `j`. -/
def rc_ode_solver_loop {σ : Type} (gsl : Gsl σ) (t0 t_step : ℚ) (num_y : Nat) :
    Nat → Int → SolverState σ → Outcome σ
  | 0, _, s => .returned s
  | n + 1, j, s =>
    match loop_body gsl t0 t_step num_y j s with
    | .next s1 => rc_ode_solver_loop gsl t0 t_step num_y n (j + 1) s1
    | .stop o => o

/-- The state in which the stepping loop is entered: `check = 1`, the stepper
allocated, `yt` read off `y`, and the initial row pushed onto `resultsAV`. -/
def rc_ode_solver_init {σ : Type} (gsl : Gsl σ) (T : gsl_odeiv2_step_type)
    (t0 : ℚ) (num_y : Nat) (y : List SV) (h_init eps_abs eps_rel : ℚ) : SolverState σ :=
  let d := gsl.gsl_odeiv2_driver_alloc_y_new T h_init eps_abs eps_rel
  let t := t0
  let (yt, y1) := load_yt num_y y
  { check := 1, y := y1, d := some d, t := t, yt := yt,
    resultsAV := [make_row t yt num_y], applied := [] }

/-- `rc_ode_solver`. The callbacks `func` and `jac` are reached only through
the stepper, so they are part of `gsl`; `_check0` is the value of the static
flag on entry, overwritten by `check = 1;`. In the state of the unknown-step-type
croak the locals that are not yet declared at that point (`t`, `yt`, `resultsAV`)
stand as `t0` and empty lists. -/
def rc_ode_solver {σ : Type} (gsl : Gsl σ) (_check0 : Int) (t0 t1 : ℚ) (num_steps : Int)
    (num_y : Nat) (y : List SV) (step_type : String) (h_init eps_abs eps_rel : ℚ) :
    Outcome σ :=
  let check : Int := 1
  match translate_step_type step_type with
  | none =>
    .croaked (.unknown_step_type step_type)
      { check := check, y := y, d := none, t := t0, yt := [], resultsAV := [], applied := [] }
  | some T =>
    let t_step := (t1 - t0) / (num_steps : ℚ)
    rc_ode_solver_loop gsl t0 t_step num_y num_steps.toNat 1
      (rc_ode_solver_init gsl T t0 num_y y h_init eps_abs eps_rel)

/-! ## Describing a run of the stepping loop -/

/-- The state at the head of the stepping loop after `n` passes that each
pushed a row, when the loop is entered in `s0`; `none` when an earlier pass
left the function. Pass number `n + 1` works at reporting index `n + 1`. -/
def pass_state {σ : Type} (gsl : Gsl σ) (t0 t_step : ℚ) (num_y : Nat) (s0 : SolverState σ) :
    Nat → Option (SolverState σ)
  | 0 => some s0
  | n + 1 =>
    match pass_state gsl t0 t_step num_y s0 n with
    | none => none
    | some s =>
      match loop_body gsl t0 t_step num_y ((n : Int) + 1) s with
      | .next s1 => some s1
      | .stop _ => none

/-- The state at the head of the stepping loop of a call of `rc_ode_solver`
after `n` passes that each pushed a row. -/
def run_state {σ : Type} (gsl : Gsl σ) (t0 t1 : ℚ) (num_steps : Int)
    (num_y : Nat) (y : List SV) (step_type : String) (h_init eps_abs eps_rel : ℚ)
    (n : Nat) : Option (SolverState σ) :=
  match translate_step_type step_type with
  | none => none
  | some T =>
    pass_state gsl t0 ((t1 - t0) / (num_steps : ℚ)) num_y
      (rc_ode_solver_init gsl T t0 num_y y h_init eps_abs eps_rel) n

/-- What the stepper answers when it is applied at reporting index `j ≥ 1` of a
call of `rc_ode_solver`; `none` when the run does not get that far. -/
def nth_apply {σ : Type} (gsl : Gsl σ) (t0 t1 : ℚ) (num_steps : Int)
    (num_y : Nat) (y : List SV) (step_type : String) (h_init eps_abs eps_rel : ℚ)
    (j : Nat) : Option (ApplyOutcome σ) :=
  match run_state gsl t0 t1 num_steps num_y y step_type h_init eps_abs eps_rel (j - 1) with
  | none => none
  | some s =>
    match s.d with
    | none => none
    | some d =>
      some (gsl.gsl_odeiv2_driver_apply d s.check s.t
        (target_time t0 ((t1 - t0) / (num_steps : ℚ)) j) s.yt)

/-- The stepper returns `GSL_SUCCESS` when applied at reporting index `j`. -/
def step_succeeds {σ : Type} (gsl : Gsl σ) (t0 t1 : ℚ) (num_steps : Int)
    (num_y : Nat) (y : List SV) (step_type : String) (h_init eps_abs eps_rel : ℚ)
    (j : Nat) : Prop :=
  ∃ d t yt c, nth_apply gsl t0 t1 num_steps num_y y step_type h_init eps_abs eps_rel j
    = some (.returned GSL_SUCCESS d t yt c)

/-- The initial row `(t0, y0[0], ..., y0[num_y-1])`, each `y0[i]` being the
`SvNV` of the `i`-th element of the input container (the undefined scalar when
the container is shorter). -/
def initial_row (t0 : ℚ) (num_y : Nat) (y : List SV) : List SV :=
  newSVnv t0 :: (List.range num_y).map (fun i => newSVnv (y.getD i PL_sv_undef).nv)

/-! ## The variant of `src/RHex_XS_src/rc_ode_solve.c` -/

namespace RHex_XS_src

/-- `translate_step_type` of `src/RHex_XS_src/rc_ode_solve.c`: the same table
under the names without the `_j` suffix. -/
def translate_step_type (step_type : String) : Option gsl_odeiv2_step_type :=
  if step_type = "msbdf" then some .msbdf
  else if step_type = "msadams" then some .msadams
  else if step_type = "bsimp" then some .bsimp
  else if step_type = "rk4imp" then some .rk4imp
  else if step_type = "rk2imp" then some .rk2imp
  else if step_type = "rk1imp" then some .rk1imp
  else if step_type = "rk8pd" then some .rk8pd
  else if step_type = "rkck" then some .rkck
  else if step_type = "rkf45" then some .rkf45
  else if step_type = "rk4" then some .rk4
  else if step_type = "rk2" then some .rk2
  else none

end RHex_XS_src

/-! ## A concrete stepper, used to instantiate the statements below -/

/-- An example library: the stepper state counts its applications; every
application moves `t` to the target time and halves each component of `yt`,
returning `GSL_SUCCESS`, except application number `fail_at`, which returns
the status `-1` and leaves `yt` alone. -/
def halving_gsl (fail_at : Nat) : Gsl Nat where
  gsl_odeiv2_driver_alloc_y_new := fun _ _ _ _ => 0
  gsl_odeiv2_driver_apply := fun d check _ tj yt =>
    if d + 1 = fail_at then .returned (-1) (d + 1) tj yt check
    else .returned GSL_SUCCESS (d + 1) tj (yt.map (fun v => v / 2)) check

/-- An example library in the manner of the explicit Euler method, built on
`rc_func`: each application evaluates `rc_func` once at the current time and
state, with a zeroed output vector. If `rc_func` croaks, the application is
left through that croak; if it returns a status other than `GSL_SUCCESS`, the
application returns that status; otherwise `t` moves to the target time and
`yt[i]` becomes `yt[i] + (tj - t) * f[i]`. The stepper state counts the
applications made, and the host callback may answer differently from one
application to the next (`perlfunc d` is its behaviour at count `d`). -/
def euler_gsl (num_y : Nat) (perlfunc : Nat → List SV → List SV) : Gsl Nat where
  gsl_odeiv2_driver_alloc_y_new := fun _ _ _ _ => 0
  gsl_odeiv2_driver_apply := fun d check t tj yt =>
    match rc_func check num_y (perlfunc d) t yt (List.replicate num_y 0) with
    | .ret status f =>
      if status ≠ GSL_SUCCESS then .returned status (d + 1) t yt check
      else .returned GSL_SUCCESS (d + 1) tj
        (List.zipWith (fun v g => v + (tj - t) * g) yt f) check
    | .croak e _ => .croaked e d check
    | .undefined => .undefined

/-- A derivative callback for `dy/dt = -y` on one component that answers with
two values instead of one at its second evaluation (count `1`). -/
def decay_bad_arity (d : Nat) (args : List SV) : List SV :=
  if d = 1 then [newSVnv 0, newSVnv 0]
  else (args.drop 1).map (fun e => newSVnv (-e.nv))

/-! ## Jacobian results on the heap -/

/-- The arrays of a Jacobian result: addresses and contents of the `dfdt`
array, of the outer `dfdy` array (whose elements are the row shells) and of the
rows. -/
structure JacLayout where
  /-- Address of the `dfdt` array. -/
  a_dfdt : Nat
  /-- Elements of the `dfdt` array. -/
  dt : List SV
  /-- Address of the outer `dfdy` array. -/
  a_dfdy : Nat
  /-- Elements of the outer `dfdy` array: the row shells. -/
  shells : List SV
  /-- Address of row `j`. -/
  a_row : Nat → Nat
  /-- Elements of row `j`. -/
  rows : Nat → List SV

/-- The returned list `r` and the heap hold the layout `L`: `r` is the pair
(reference to the outer `dfdy` array, reference to the `dfdt` array), in the
order `(\@dFdy,\@dFdt)` of the file header; the first `num_y` shells refer to
the rows; and the `dfdt` array, the outer array and the rows are pairwise
distinct objects. -/
def JacLayout.holds (L : JacLayout) (num_y : Nat) (r : List SV) (heap : Heap) : Prop :=
  (∃ dfdyShell dfdtShell, r = [dfdyShell, dfdtShell] ∧
    dfdtShell.rv = some L.a_dfdt ∧ dfdyShell.rv = some L.a_dfdy) ∧
  heap[L.a_dfdt]? = some (.av L.dt) ∧
  heap[L.a_dfdy]? = some (.av L.shells) ∧
  (∀ j, j < num_y → ∃ sh, L.shells[j]? = some sh ∧ sh.rv = some (L.a_row j) ∧
    heap[L.a_row j]? = some (.av (L.rows j))) ∧
  L.a_dfdt ≠ L.a_dfdy ∧
  (∀ j, j < num_y → L.a_row j ≠ L.a_dfdt ∧ L.a_row j ≠ L.a_dfdy) ∧
  (∀ j j', j < num_y → j' < num_y → j ≠ j' → L.a_row j ≠ L.a_row j')

/-- The layout passes the tests `rc_jac` makes under the flag `check`: none
when the flag is `0`; otherwise the `dfdt` array and the outer array have
exactly `num_y` elements, and the first `num_y` elements of the `dfdt` array
and of each row pass the numeric test. -/
def JacLayout.passes (L : JacLayout) (num_y : Nat) (check : Int) : Prop :=
  check = 0 ∨
    (L.dt.length = num_y ∧ L.shells.length = num_y ∧
      (∀ i, i < num_y → (L.dt.getD i PL_sv_undef).numFlag = true) ∧
      ∀ j, j < num_y → ∀ i, i < num_y → ((L.rows j).getD i PL_sv_undef).numFlag = true)

/-- Well-formed Jacobian result: a `dfdt` array of `num_y` numbers and an outer
array of `num_y` rows of `num_y` numbers each. -/
def JacLayout.well_formed (L : JacLayout) (num_y : Nat) : Prop :=
  L.dt.length = num_y ∧ L.shells.length = num_y ∧
    (∀ e ∈ L.dt, e.numFlag = true) ∧
    ∀ j, j < num_y → (L.rows j).length = num_y ∧ ∀ e ∈ L.rows j, e.numFlag = true

/-! ## Example Jacobian callbacks, used to instantiate the statements below -/

/-- A well-formed result for `num_y = 2`: the outer array at address `0`, the
rows `(1, 2)` and `(3, 4)` at `1` and `2`, the `dfdt` array `(5, 6)` at `3`;
the callback returns `(\@dFdy, \@dFdt)`. -/
def jac_2x2 : List SV → Heap → List SV × Heap := fun _ _ =>
  ([newRV_inc 0, newRV_inc 3],
   [.av [newRV_inc 1, newRV_inc 2], .av [newSVnv 1, newSVnv 2],
    .av [newSVnv 3, newSVnv 4], .av [newSVnv 5, newSVnv 6]])

/-- The layout of the result of `jac_2x2`. -/
def layout_2x2 : JacLayout where
  a_dfdt := 3
  dt := [newSVnv 5, newSVnv 6]
  a_dfdy := 0
  shells := [newRV_inc 1, newRV_inc 2]
  a_row := fun j => j + 1
  rows := fun j => if j = 0 then [newSVnv 1, newSVnv 2] else [newSVnv 3, newSVnv 4]

/-- A callback that hands back the arrays it finds on the heap, as the result
`(\@dFdy, \@dFdt)` of `jac_2x2` laid them out. -/
def jac_same_arrays : List SV → Heap → List SV × Heap := fun _ heap =>
  ([newRV_inc 0, newRV_inc 3], heap)

/-- A result for `num_y = 2` whose two rows are one and the same array
`(1, 2)`, at address `1`; the `dfdt` array `(5, 6)` is at `2`. -/
def jac_aliased_rows : List SV → Heap → List SV × Heap := fun _ _ =>
  ([newRV_inc 0, newRV_inc 2],
   [.av [newRV_inc 1, newRV_inc 1], .av [newSVnv 1, newSVnv 2],
    .av [newSVnv 5, newSVnv 6]])

/-- A result for `num_y = 2` whose first row `(1, 2, 3)` is too long. -/
def jac_long_row : List SV → Heap → List SV × Heap := fun _ _ =>
  ([newRV_inc 0, newRV_inc 3],
   [.av [newRV_inc 1, newRV_inc 2], .av [newSVnv 1, newSVnv 2, newSVnv 3],
    .av [newSVnv 4, newSVnv 5], .av [newSVnv 5, newSVnv 6]])

/-- A result for `num_y = 2` whose first row `(1)` is too short. -/
def jac_short_row : List SV → Heap → List SV × Heap := fun _ _ =>
  ([newRV_inc 0, newRV_inc 3],
   [.av [newRV_inc 1, newRV_inc 2], .av [newSVnv 1],
    .av [newSVnv 4, newSVnv 5], .av [newSVnv 5, newSVnv 6]])

/-- A result for `num_y = 2` whose `dfdt` array `(5)` is too short. -/
def jac_short_dfdt : List SV → Heap → List SV × Heap := fun _ _ =>
  ([newRV_inc 0, newRV_inc 3],
   [.av [newRV_inc 1, newRV_inc 2], .av [newSVnv 1, newSVnv 2],
    .av [newSVnv 3, newSVnv 4], .av [newSVnv 5]])

/-- A result for `num_y = 1` returned in the order `(\@dFdt, \@dFdy)`: the
`dfdt` array `(9)` at address `0` comes first, the outer array at `1`, with its
row `(4)` at `2`, comes second. -/
def jac_dfdt_first : List SV → Heap → List SV × Heap := fun _ _ =>
  ([newRV_inc 0, newRV_inc 1],
   [.av [newSVnv 9], .av [newRV_inc 2], .av [newSVnv 4]])

/-- The same arrays returned in the order `(\@dFdy, \@dFdt)`. -/
def jac_dfdy_first : List SV → Heap → List SV × Heap := fun _ _ =>
  ([newRV_inc 1, newRV_inc 0],
   [.av [newSVnv 9], .av [newRV_inc 2], .av [newSVnv 4]])

/-- The output buffers and flag a Jacobian evaluation for `num_y = 2` starts
from in the examples: empty heap, every slot holding `7`. -/
def jac_entry (check : Int) : JacState :=
  { check := check, heap := [], dfdt := [7, 7], dfdy := [7, 7, 7, 7] }

/-! ## `rc_ode_solver` of `src/RHex_XS_src/rc_ode_solve.c` -/

namespace RHex_XS_src

/-- The state `rc_ode_solver` of the variant works on. -/
structure XSState (σ : Type) where
  /-- The stepper `d`; `none` once `gsl_odeiv2_driver_free` has run. -/
  d : Option σ
  /-- The local `t0`, which is also the time variable handed to the stepper (`&t0`). -/
  t0 : ℚ
  /-- The working state `yt`. -/
  yt : List ℚ
  /-- The caller's buffer `t`. -/
  t : List ℚ
  /-- The caller's buffer `y`. -/
  y : List ℚ
  /-- The local `status`. -/
  status : Int
  /-- Ghost field: the indices `j` for which `t[j]` and row `j` of `y` were written. -/
  written : List Nat

/-- How a call of the variant ends. -/
inductive XSOutcome (σ : Type) where
  /-- `return status;` (or `return 1;` for an unknown step type). -/
  | returned (status : Int) (s : XSState σ)
  /-- Exit through a `croak` of a callback bridge. -/
  | croaked (e : Croak) (s : XSState σ)
  /-- The pass at index `j` writes `t[j]` or row `j` of `y` outside the caller's
  buffers: undefined behaviour. -/
  | overflow (j : Nat) (s : XSState σ)
  /-- Other undefined behaviour (a read outside the buffers, a callback bridge). -/
  | undefined

/-- The row write `for (i = 0; i<num_y; ++i) y[j*num_y+i] = yt[i];`: the first
argument is the number of passes still to run, the second the index `i`. -/
def write_row (j num_y : Nat) (yt : List ℚ) : Nat → Nat → List ℚ → List ℚ
  | 0, _, y => y
  | n + 1, i, y => write_row j num_y yt n (i + 1) (y.set (j * num_y + i) (yt.getD i 0))

/-- Result of one pass of the loop of the variant. -/
inductive XSPass (σ : Type) where
  /-- The pass wrote its entries; the loop goes on. -/
  | next (s : XSState σ)
  /-- The pass hit `break`. -/
  | brk (s : XSState σ)
  /-- The pass left the function. -/
  | stop (o : XSOutcome σ)

/-- The body of the loop at index `j`. The variant has no flag `check`; the
library is handed the constant `0` for it. -/
def loop_body {σ : Type} (gsl : Gsl σ) (t_step : ℚ) (num_y : Nat) (j : Nat)
    (s : XSState σ) : XSPass σ :=
  let tj := (j : ℚ) * t_step + s.t0
  match s.d with
  | none => .stop .undefined
  | some d =>
    match gsl.gsl_odeiv2_driver_apply d 0 s.t0 tj s.yt with
    | .undefined => .stop .undefined
    | .croaked e d1 _ => .stop (.croaked e { s with d := some d1 })
    | .returned status d1 t1 yt1 _ =>
      let s1 : XSState σ := { s with d := some d1, t0 := t1, yt := yt1, status := status }
      if status ≠ GSL_SUCCESS then
        .brk s1
      else if j < s1.t.length ∧ j * num_y + num_y ≤ s1.y.length then
        .next { s1 with t := s1.t.set j tj,
                        y := write_row j num_y s1.yt num_y 0 s1.y,
                        written := s1.written ++ [j] }
      else
        .stop (.overflow j s1)

/-- The end of the function: `gsl_odeiv2_driver_free (d); return status;`. -/
def finish {σ : Type} (s : XSState σ) : XSOutcome σ :=
  .returned s.status { s with d := none }

/-- The loop `for (j = 1; j <= 100; j++)`, followed by the end of the function:
the first argument is the number of passes still to run, the second the index `j`. -/
def rc_ode_solver_loop {σ : Type} (gsl : Gsl σ) (t_step : ℚ) (num_y : Nat) :
    Nat → Nat → XSState σ → XSOutcome σ
  | 0, _, s => finish s
  | n + 1, j, s =>
    match loop_body gsl t_step num_y j s with
    | .next s1 => rc_ode_solver_loop gsl t_step num_y n (j + 1) s1
    | .brk s1 => finish s1
    | .stop o => o

/-- `rc_ode_solver` of the variant, writing into the caller's buffers `t` and
`y`. Reading `t[0]` or `y[0 .. num_y-1]` outside the buffers is undefined
behaviour. -/
def rc_ode_solver {σ : Type} (gsl : Gsl σ) (num_steps : Int) (t : List ℚ) (num_y : Nat)
    (y : List ℚ) (t1 : ℚ) (step_type : String) (h_init _h_max eps_abs eps_rel : ℚ) :
    XSOutcome σ :=
  match translate_step_type step_type with
  | none =>
    .returned 1 { d := none, t0 := 0, yt := [], t := t, y := y, status := 0, written := [] }
  | some T =>
    let d := gsl.gsl_odeiv2_driver_alloc_y_new T h_init eps_abs eps_rel
    match t with
    | [] => .undefined
    | t0 :: _ =>
      if y.length < num_y then .undefined
      else
        let yt := y.take num_y
        let t_step := (t1 - t0) / (num_steps : ℚ)
        rc_ode_solver_loop gsl t_step num_y 100 1
          { d := some d, t0 := t0, yt := yt, t := t, y := y, status := 0, written := [] }

end RHex_XS_src

/-! ## The flag `check` along the callback evaluations of a run -/

/-- A callback evaluation the stepper asks for during a run, with what it
hands over. -/
inductive Eval where
  /-- A call of `rc_func`: the host callback, `t`, `y` and the output vector `f`. -/
  | func (perlfunc : List SV → List SV) (t : ℚ) (y : List ℚ) (f : List ℚ)
  /-- A call of `rc_jac`: the host callback, `t`, `y`, the heap before the call
  and the output buffers `dfdt` and `dfdy`. -/
  | jac (perljac : List SV → Heap → List SV × Heap) (t : ℚ) (y : List ℚ)
      (heap : Heap) (dfdt dfdy : List ℚ)

/-- The evaluation is a Jacobian evaluation. -/
def Eval.isJac : Eval → Bool
  | .func _ _ _ _ => false
  | .jac _ _ _ _ _ _ => true

/-- The value of `check` once the evaluation has returned, started under the
value `check`; `none` when the evaluation croaks or runs into undefined
behaviour, which ends the run. `rc_func` only reads the flag. -/
def Eval.check_after (num_y : Nat) (check : Int) : Eval → Option Int
  | .func perlfunc t y f =>
    match rc_func check num_y perlfunc t y f with
    | .ret _ _ => some check
    | _ => none
  | .jac perljac t y heap dfdt dfdy =>
    match rc_jac num_y perljac t y { check := check, heap := heap, dfdt := dfdt, dfdy := dfdy } with
    | .ret _ s => some s.check
    | _ => none

/-- The values of `check` at the start of the successive evaluations of a
sequence, the first one starting under `check`; the list stops with the first
evaluation that does not return. -/
def check_history (num_y : Nat) : Int → List Eval → List Int
  | _, [] => []
  | check, e :: es =>
    check :: (match e.check_after num_y check with
      | some check1 => check_history num_y check1 es
      | none => [])

/-- An example sequence of evaluations for `num_y = 2`: a derivative
evaluation, the Jacobian evaluation of `jac_2x2`, and a second derivative
evaluation, the derivative callback being `f = -y`. -/
def example_evals : List Eval :=
  [.func (fun args => (args.drop 1).map (fun e => newSVnv (-e.nv))) 0 [1, 2] [0, 0],
   .jac jac_2x2 0 [1, 2] [] [7, 7] [7, 7, 7, 7],
   .func (fun args => (args.drop 1).map (fun e => newSVnv (-e.nv))) 0 [1, 2] [0, 0]]

/-- A derivative callback for `num_y = 2` that answers with the undefined
scalar in place of its second value. -/
def func_undef : List SV → List SV := fun _ => [newSVnv 3, PL_sv_undef]

/-- Ghost log of the callback evaluations of a run: for each evaluation begun,
whether it is a Jacobian evaluation, and the value of `check` at its start. -/
abbrev EvalLog := List (Bool × Int)

/-- What the library keeps from one stepper application to the next: the
state of the stepper itself, the Perl heap, and the ghost log. -/
structure Bridged (σ : Type) where
  /-- The stepper's own state. -/
  d : σ
  /-- The Perl heap. -/
  heap : Heap
  /-- The log of the evaluations begun so far. -/
  log : EvalLog

/-- What a stepper application does, seen from the callback bridges: it ends
with a status, a new stepper state, time and working state, or it asks for an
evaluation of `rc_func` or of `rc_jac` (handing over the arguments and the
output buffers) and goes on according to the status and the buffers it gets
back. -/
inductive Stepping (σ : Type) where
  /-- The application ends. -/
  | done (status : Int) (d : σ) (t : ℚ) (yt : List ℚ)
  /-- The application calls `sys.function (t, y, f, params)`, which is `rc_func`. -/
  | func (t : ℚ) (y f : List ℚ) (next : Int → List ℚ → Stepping σ)
  /-- The application calls `sys.jacobian (t, y, dfdy, dfdt, params)`, which is `rc_jac`. -/
  | jac (t : ℚ) (y dfdt dfdy : List ℚ) (next : Int → List ℚ → List ℚ → Stepping σ)

/-- Running a stepper application against `rc_func` and `rc_jac`, from the
flag `check`, the stepper state `d0`, the heap and the log: every evaluation is
logged when it begins; a croak or undefined behaviour of a bridge leaves the
application at once. The flag is `static` to the file of `rc_func` and
`rc_jac`, so the library cannot touch it: between two evaluations it keeps the
value the earlier one left. -/
def Stepping.run {σ : Type} (num_y : Nat) (perlfunc : List SV → List SV)
    (perljac : List SV → Heap → List SV × Heap) :
    Stepping σ → Int → σ → Heap → EvalLog → ApplyOutcome (Bridged σ)
  | .done status d t yt, check, _, heap, log =>
    .returned status { d := d, heap := heap, log := log } t yt check
  | .func t y f next, check, d0, heap, log =>
    match rc_func check num_y perlfunc t y f with
    | .ret status f1 =>
      (next status f1).run num_y perlfunc perljac check d0 heap (log ++ [(false, check)])
    | .croak e _ =>
      .croaked e { d := d0, heap := heap, log := log ++ [(false, check)] } check
    | .undefined => .undefined
  | .jac t y dfdt dfdy next, check, d0, heap, log =>
    match rc_jac num_y perljac t y
        { check := check, heap := heap, dfdt := dfdt, dfdy := dfdy } with
    | .ret status s1 =>
      (next status s1.dfdt s1.dfdy).run num_y perlfunc perljac s1.check d0 s1.heap
        (log ++ [(true, check)])
    | .croak e s1 =>
      .croaked e { d := d0, heap := s1.heap, log := log ++ [(true, check)] } s1.check
    | .undefined => .undefined

/-- The library for the system `{rc_func, rc_jac, num_y, params}` with the host
callbacks `perlfunc` and `perljac`: `alloc` makes the stepper, `plan` is what
an application does from the stepper state, `t`, the target time and `yt`;
`heap0` is the Perl heap when the stepper is allocated. -/
def bridge_gsl {σ : Type} (num_y : Nat) (perlfunc : List SV → List SV)
    (perljac : List SV → Heap → List SV × Heap)
    (alloc : gsl_odeiv2_step_type → ℚ → ℚ → ℚ → σ) (heap0 : Heap)
    (plan : σ → ℚ → ℚ → List ℚ → Stepping σ) : Gsl (Bridged σ) where
  gsl_odeiv2_driver_alloc_y_new := fun T h a r =>
    { d := alloc T h a r, heap := heap0, log := [] }
  gsl_odeiv2_driver_apply := fun b check t tj yt =>
    (plan b.d t tj yt).run num_y perlfunc perljac check b.d b.heap b.log

/-- The flag a log leaves behind when all its evaluations have returned in a
run started at `1`: `0` once a Jacobian evaluation is in the log, else `1`. -/
def flag_after (log : EvalLog) : Int :=
  if log.any (fun p => p.1) then 0 else 1

/-- An example plan for `num_y = 2`: an application evaluates the derivative,
then the Jacobian, then the derivative again, and ends with the status of the
last evaluation at the target time, the working state moved by the
derivative first obtained. -/
def example_plan : Nat → ℚ → ℚ → List ℚ → Stepping Nat := fun d t tj yt =>
  .func t yt [0, 0] (fun _ f =>
    .jac t yt [0, 0] [0, 0, 0, 0] (fun _ _ _ =>
      .func t yt [0, 0] (fun st _ =>
        .done st (d + 1) tj (List.zipWith (fun v g => v + (tj - t) * g) yt f))))

/-- The derivative callback `f = -y`. -/
def func_decay : List SV → List SV := fun args =>
  (args.drop 1).map (fun e => newSVnv (-e.nv))

/-- The log of a run that began under the flag `1` and in which the flag is
cleared by returning Jacobian evaluations only: an evaluation begins under `0`
if a Jacobian evaluation is among the earlier ones of the log, and under `1`
otherwise. -/
def log_ok (log : EvalLog) : Prop :=
  ∀ (k : Nat) (isJac : Bool) (c : Int), log[k]? = some (isJac, c) →
    c = (if (log.take k).any (fun p => p.1) then 0 else 1)

/-! ## Lemmas on `rc_func` -/

/-- The unloading loop on a stack none of whose elements trips the strict
test: it returns, the status is `GSL_EBADFUNC` exactly when a string was
popped, the slots below the stack height hold the stored values in list order,
the other slots are untouched. -/
theorem rc_func_loop_spec (check : Int) :
    ∀ (stack : List SV) (status : Int) (f : List ℚ),
      (∀ e ∈ stack, e.pokp = true ∨ check = 0 ∨ (e.nokp || e.iokp) = true) →
      ∃ f', rc_func_loop check stack.length stack status f
          = .ret (if stack.any (fun e => e.pokp) then GSL_EBADFUNC else status) f' ∧
        f'.length = f.length ∧
        (∀ i, stack.length ≤ i → f'[i]? = f[i]?) ∧
        (∀ i, i < stack.length → i < f.length →
          f'[i]? = (stack.reverse[i]?).map stored_value) := by
  intro stack
  induction stack with
  | nil =>
    intro status f _
    exact ⟨f, by simp [rc_func_loop], rfl, fun _ _ => rfl, fun i hi => by simp at hi⟩
  | cons e rest ih =>
    intro status f hok
    have hrest : ∀ e' ∈ rest, e'.pokp = true ∨ check = 0 ∨ (e'.nokp || e'.iokp) = true :=
      fun e' he' => hok e' (List.mem_cons_of_mem _ he')
    have key : ∀ (st : Int) (v : ℚ), v = stored_value e →
        (if rest.any (fun e => e.pokp) then GSL_EBADFUNC else st)
          = (if (e :: rest).any (fun e => e.pokp) then GSL_EBADFUNC else status) →
        rc_func_loop check (e :: rest).length (e :: rest) status f
          = rc_func_loop check rest.length rest st (f.set rest.length v) →
        ∃ f', rc_func_loop check (e :: rest).length (e :: rest) status f
            = .ret (if (e :: rest).any (fun e => e.pokp) then GSL_EBADFUNC else status) f' ∧
          f'.length = f.length ∧
          (∀ i, (e :: rest).length ≤ i → f'[i]? = f[i]?) ∧
          (∀ i, i < (e :: rest).length → i < f.length →
            f'[i]? = ((e :: rest).reverse[i]?).map stored_value) := by
      intro st v hv hst hstep
      obtain ⟨f', h1, h2, h3, h4⟩ := ih st (f.set rest.length v) hrest
      refine ⟨f', by rw [hstep, h1, hst], by simpa using h2, ?_, ?_⟩
      · intro i hi
        simp only [List.length_cons] at hi
        rw [h3 i (by omega), List.getElem?_set_ne (by omega)]
      · intro i hi hif
        simp only [List.length_cons] at hi
        by_cases hik : i < rest.length
        · rw [h4 i hik (by simpa using hif)]
          simp only [List.reverse_cons]
          rw [List.getElem?_append_left (by simpa using hik)]
        · have hieq : i = rest.length := by omega
          subst hieq
          rw [h3 _ (le_refl _)]
          simp only [List.reverse_cons]
          rw [List.getElem?_append_right (by simp)]
          simp [List.getElem?_set_self hif, hv]
    by_cases hp : e.pokp = true
    · apply key GSL_EBADFUNC ((GSL_EBADFUNC : Int) : ℚ)
      · simp [stored_value, hp]
      · simp [hp]
      · simp [rc_func_loop, POPs, hp]
    · have hp' : e.pokp = false := by simpa using hp
      have hc : ¬ (check ≠ 0 ∧ (!(e.nokp || e.iokp)) = true) := by
        rcases hok e (List.mem_cons_self _ _) with h | h | h
        · exact absurd h hp
        · exact fun hh => hh.1 h
        · intro hh
          rw [h] at hh
          simp at hh
      apply key status e.nv
      · simp [stored_value, hp']
      · simp [hp']
      · simp only [rc_func_loop, POPs, List.length_cons, hp', Bool.false_eq_true, if_false]
        rw [if_neg hc]

/-! ## Lemmas on `rc_jac` -/

/-- The loop filling `dfdt` never raises the arity error. -/
theorem rc_jac_dfdt_loop_no_arity (dfdtRef : Option Nat) :
    ∀ (n i : Nat) (s : JacState) (got : Int) (bufs : JacState),
      rc_jac_dfdt_loop dfdtRef n i s ≠ .croak (.jac_arity got) bufs := by
  intro n
  induction n with
  | zero => intro i s got bufs h; simp [rc_jac_dfdt_loop] at h
  | succ n ih =>
    intro i s got bufs h
    simp only [rc_jac_dfdt_loop] at h
    cases hs : av_shift_at s.heap dfdtRef with
    | none => simp [hs] at h
    | some p =>
      obtain ⟨elt, heap1⟩ := p
      simp only [hs] at h
      split at h
      · simp at h
      · exact ih _ _ _ _ h

/-- The loop filling a row of `dfdy` never raises the arity error. -/
theorem rc_jac_row_loop_no_arity (num_y : Nat) (rowRef : Option Nat) (j : Nat) :
    ∀ (n i : Nat) (s : JacState) (got : Int) (bufs : JacState),
      rc_jac_row_loop num_y rowRef j n i s ≠ .croak (.jac_arity got) bufs := by
  intro n
  induction n with
  | zero => intro i s got bufs h; simp [rc_jac_row_loop] at h
  | succ n ih =>
    intro i s got bufs h
    simp only [rc_jac_row_loop] at h
    cases hs : av_shift_at s.heap rowRef with
    | none => simp [hs] at h
    | some p =>
      obtain ⟨elt, heap1⟩ := p
      simp only [hs] at h
      split at h
      · simp at h
      · exact ih _ _ _ _ h

/-- The loop over the rows of `dfdy` never raises the arity error. -/
theorem rc_jac_dfdy_loop_no_arity (num_y : Nat) (dfdyRef : Option Nat) :
    ∀ (n j : Nat) (s : JacState) (got : Int) (bufs : JacState),
      rc_jac_dfdy_loop num_y dfdyRef n j s ≠ .croak (.jac_arity got) bufs := by
  intro n
  induction n with
  | zero => intro j s got bufs h; simp [rc_jac_dfdy_loop] at h
  | succ n ih =>
    intro j s got bufs h
    simp only [rc_jac_dfdy_loop] at h
    cases hs : av_shift_at s.heap dfdyRef with
    | none => simp [hs] at h
    | some p =>
      obtain ⟨rowShell, heap1⟩ := p
      simp only [hs] at h
      cases hr : rc_jac_row_loop num_y rowShell.rv j num_y 0 { s with heap := heap1 } with
      | ret st s1 =>
        simp only [hr] at h
        exact ih _ _ _ _ h
      | croak e b =>
        simp only [hr] at h
        rw [← hr] at h
        exact rc_jac_row_loop_no_arity num_y rowShell.rv j _ _ _ _ _ h
      | undefined => simp [hr] at h

/-- The end of `rc_jac` raises no arity error of its own. -/
theorem rc_jac_finish_no_arity (o : CallOutcome JacState)
    (ho : ∀ (got : Int) (bufs : JacState), o ≠ .croak (.jac_arity got) bufs) :
    ∀ (got : Int) (bufs : JacState), rc_jac_finish o ≠ .croak (.jac_arity got) bufs := by
  intro got bufs h
  cases o with
  | ret st s => simp [rc_jac_finish] at h
  | croak e b => exact ho got bufs (by simpa [rc_jac_finish] using h)
  | undefined => simp [rc_jac_finish] at h

/-- The second half of `rc_jac` never raises the arity error. -/
theorem rc_jac_dfdy_no_arity (num_y : Nat) (stack : List SV) (s : JacState) :
    ∀ (got : Int) (bufs : JacState),
      rc_jac_dfdy num_y stack s ≠ .croak (.jac_arity got) bufs := by
  intro got bufs h
  unfold rc_jac_dfdy at h
  simp only at h
  split at h
  · split at h
    · simp at h
    · split at h
      · simp at h
      · exact rc_jac_finish_no_arity _ (rc_jac_dfdy_loop_no_arity num_y _ _ _ _) got bufs h
  · exact rc_jac_finish_no_arity _ (rc_jac_dfdy_loop_no_arity num_y _ _ _ _) got bufs h

/-! ## Lemmas on the stepping loop -/

section Loop

variable {σ : Type} (gsl : Gsl σ) (t0 t_step : ℚ) (num_y : Nat)

/-- A pass goes on exactly when the stepper returned `GSL_SUCCESS`; the next
state is then the old one with the stepper's answer stored and one row pushed. -/
theorem loop_body_next (j : Int) (s s1 : SolverState σ)
    (h : loop_body gsl t0 t_step num_y j s = .next s1) :
    ∃ d d1 t1 yt1 c1, s.d = some d ∧
      gsl.gsl_odeiv2_driver_apply d s.check s.t (target_time t0 t_step j) s.yt
        = .returned GSL_SUCCESS d1 t1 yt1 c1 ∧
      s1 = { check := c1, y := s.y, d := some d1, t := t1, yt := yt1,
             resultsAV := s.resultsAV ++ [make_row (target_time t0 t_step j) yt1 num_y],
             applied := s.applied ++ [target_time t0 t_step j] } := by
  unfold loop_body at h
  cases hd : s.d with
  | none => simp [hd] at h
  | some d =>
    simp only [hd] at h
    cases ha : gsl.gsl_odeiv2_driver_apply d s.check s.t (target_time t0 t_step j) s.yt with
    | undefined => simp [ha] at h
    | croaked e d1 c1 => simp [ha] at h
    | returned status d1 t1 yt1 c1 =>
      simp only [ha] at h
      by_cases hs : status = GSL_SUCCESS
      · subst hs
        simp at h
        exact ⟨d, d1, t1, yt1, c1, rfl, ha, h.symm⟩
      · simp [hs] at h

/-- A pass whose stepper application returns `GSL_SUCCESS` goes on. -/
theorem loop_body_of_success (j : Int) (s : SolverState σ) (d d1 : σ) (t1 : ℚ)
    (yt1 : List ℚ) (c1 : Int) (hd : s.d = some d)
    (ha : gsl.gsl_odeiv2_driver_apply d s.check s.t (target_time t0 t_step j) s.yt
        = .returned GSL_SUCCESS d1 t1 yt1 c1) :
    loop_body gsl t0 t_step num_y j s = .next
      { check := c1, y := s.y, d := some d1, t := t1, yt := yt1,
        resultsAV := s.resultsAV ++ [make_row (target_time t0 t_step j) yt1 num_y],
        applied := s.applied ++ [target_time t0 t_step j] } := by
  unfold loop_body
  simp [hd, ha]

/-- A pass whose stepper application returns another status returns the table
as it stands. -/
theorem loop_body_of_failure (j : Int) (s : SolverState σ) (d d1 : σ) (st : Int) (t1 : ℚ)
    (yt1 : List ℚ) (c1 : Int) (hd : s.d = some d) (hst : st ≠ GSL_SUCCESS)
    (ha : gsl.gsl_odeiv2_driver_apply d s.check s.t (target_time t0 t_step j) s.yt
        = .returned st d1 t1 yt1 c1) :
    loop_body gsl t0 t_step num_y j s = .stop (.returned
      { check := c1, y := s.y, d := some d1, t := t1, yt := yt1,
        resultsAV := s.resultsAV,
        applied := s.applied ++ [target_time t0 t_step j] }) := by
  unfold loop_body
  simp [hd, ha, hst]

/-- Unrolling the loop along `m` passes that went on. -/
theorem loop_unroll (s0 : SolverState σ) :
    ∀ (m n : Nat) (s : SolverState σ), pass_state gsl t0 t_step num_y s0 m = some s →
      rc_ode_solver_loop gsl t0 t_step num_y (m + n) 1 s0
        = rc_ode_solver_loop gsl t0 t_step num_y n ((m : Int) + 1) s := by
  intro m
  induction m with
  | zero =>
    intro n s h
    simp [pass_state] at h
    subst h
    simp
  | succ m ih =>
    intro n s h
    simp only [pass_state] at h
    cases hp : pass_state gsl t0 t_step num_y s0 m with
    | none => simp [hp] at h
    | some sp =>
      simp only [hp] at h
      cases hb : loop_body gsl t0 t_step num_y ((m : Int) + 1) sp with
      | stop o => simp [hb] at h
      | next s1 =>
        simp only [hb, Option.some.injEq] at h
        subst h
        have e : m + 1 + n = m + (n + 1) := by omega
        rw [e, ih (n + 1) sp hp]
        simp only [rc_ode_solver_loop, hb]
        push_cast
        rfl

/-- A pass that leaves the function ends the loop with its outcome. -/
theorem loop_stop (s0 : SolverState σ) (m n : Nat) (s : SolverState σ) (o : Outcome σ)
    (hp : pass_state gsl t0 t_step num_y s0 m = some s)
    (hb : loop_body gsl t0 t_step num_y ((m : Int) + 1) s = .stop o) :
    rc_ode_solver_loop gsl t0 t_step num_y (m + (n + 1)) 1 s0 = o := by
  rw [loop_unroll gsl t0 t_step num_y s0 m (n + 1) s hp]
  simp only [rc_ode_solver_loop, hb]

/-- The passes that went on form an initial segment. -/
theorem pass_state_pred (s0 : SolverState σ) (n : Nat) (s : SolverState σ)
    (h : pass_state gsl t0 t_step num_y s0 (n + 1) = some s) :
    ∃ sp, pass_state gsl t0 t_step num_y s0 n = some sp ∧
      loop_body gsl t0 t_step num_y ((n : Int) + 1) sp = .next s := by
  simp only [pass_state] at h
  cases hp : pass_state gsl t0 t_step num_y s0 n with
  | none => simp [hp] at h
  | some sp =>
    simp only [hp] at h
    cases hb : loop_body gsl t0 t_step num_y ((n : Int) + 1) sp with
    | stop o => simp [hb] at h
    | next s1 =>
      simp only [hb, Option.some.injEq] at h
      exact ⟨sp, rfl, h ▸ hb⟩

/-- What the table, the log of stepper applications and the input container
look like after `n` passes that went on. -/
theorem pass_state_table (s0 : SolverState σ) :
    ∀ (n : Nat) (s : SolverState σ), pass_state gsl t0 t_step num_y s0 n = some s →
      ∃ rows : List (List SV), s.resultsAV = s0.resultsAV ++ rows ∧ rows.length = n ∧
        (∀ j, j < n → ∃ sj, pass_state gsl t0 t_step num_y s0 (j + 1) = some sj ∧
          rows[j]? = some (make_row (target_time t0 t_step ((j : Int) + 1)) sj.yt num_y)) ∧
        s.applied = s0.applied ++
          (List.range n).map (fun i : Nat => target_time t0 t_step ((i : Int) + 1)) ∧
        s.y = s0.y := by
  intro n
  induction n with
  | zero =>
    intro s h
    simp [pass_state] at h
    subst h
    exact ⟨[], by simp, rfl, by intro j hj; omega, by simp, rfl⟩
  | succ n ih =>
    intro s h
    obtain ⟨sp, hp, hb⟩ := pass_state_pred gsl t0 t_step num_y s0 n s h
    obtain ⟨rows, hr, hl, hrows, happ, hy⟩ := ih sp hp
    obtain ⟨d, d1, t1, yt1, c1, _, _, hs⟩ := loop_body_next gsl t0 t_step num_y _ sp s hb
    refine ⟨rows ++ [make_row (target_time t0 t_step ((n : Int) + 1)) yt1 num_y],
      ?_, ?_, ?_, ?_, ?_⟩
    · rw [hs]; simp [hr]
    · simp [hl]
    · intro j hj
      by_cases hjn : j < n
      · obtain ⟨sj, h1, h2⟩ := hrows j hjn
        refine ⟨sj, h1, ?_⟩
        rw [List.getElem?_append_left (by omega)]
        exact h2
      · have hjeq : j = n := by omega
        subst hjeq
        refine ⟨s, h, ?_⟩
        rw [List.getElem?_append_right (by omega)]
        simp [hl, hs]
    · rw [hs]
      simp [happ, List.range_succ]
    · rw [hs]; exact hy

end Loop

/-! ## Lemmas on a run of `rc_ode_solver` -/

section Run

variable {σ : Type} (gsl : Gsl σ) (t0 t_step : ℚ) (num_y : Nat)

/-- The stepper stays allocated along the passes. -/
theorem pass_state_d (s0 : SolverState σ) (h0 : s0.d ≠ none) :
    ∀ (n : Nat) (s : SolverState σ), pass_state gsl t0 t_step num_y s0 n = some s →
      ∃ d, s.d = some d := by
  intro n
  cases n with
  | zero =>
    intro s h
    simp [pass_state] at h
    subst h
    exact Option.ne_none_iff_exists'.mp h0
  | succ n =>
    intro s h
    obtain ⟨sp, _, hb⟩ := pass_state_pred gsl t0 t_step num_y s0 n s h
    obtain ⟨d, d1, t1, yt1, c1, _, _, hs⟩ := loop_body_next gsl t0 t_step num_y _ sp s hb
    exact ⟨d1, by rw [hs]⟩

/-- Either `n` passes went on, or an earlier pass left the function. -/
theorem pass_state_progress (s0 : SolverState σ) :
    ∀ n : Nat, (∃ s, pass_state gsl t0 t_step num_y s0 n = some s) ∨
      ∃ m sp o, m < n ∧ pass_state gsl t0 t_step num_y s0 m = some sp ∧
        loop_body gsl t0 t_step num_y ((m : Int) + 1) sp = .stop o := by
  intro n
  induction n with
  | zero => exact Or.inl ⟨s0, rfl⟩
  | succ n ih =>
    rcases ih with ⟨s, hs⟩ | ⟨m, sp, o, hm, hp, hb⟩
    · cases hb : loop_body gsl t0 t_step num_y ((n : Int) + 1) s with
      | next s1 => exact Or.inl ⟨s1, by simp [pass_state, hs, hb]⟩
      | stop o => exact Or.inr ⟨n, s, o, by omega, hs, hb⟩
    · exact Or.inr ⟨m, sp, o, by omega, hp, hb⟩

/-- A pass that returns leaves the table as it was and has applied the stepper
once more, getting a status other than `GSL_SUCCESS`. -/
theorem loop_body_stop_returned (j : Int) (s s1 : SolverState σ)
    (h : loop_body gsl t0 t_step num_y j s = .stop (.returned s1)) :
    s1.resultsAV = s.resultsAV ∧ s1.applied = s.applied ++ [target_time t0 t_step j] ∧
      ∃ d st d1 t1 yt1 c1, s.d = some d ∧ st ≠ GSL_SUCCESS ∧
        gsl.gsl_odeiv2_driver_apply d s.check s.t (target_time t0 t_step j) s.yt
          = .returned st d1 t1 yt1 c1 := by
  unfold loop_body at h
  cases hd : s.d with
  | none => simp [hd] at h
  | some d =>
    simp only [hd] at h
    cases ha : gsl.gsl_odeiv2_driver_apply d s.check s.t (target_time t0 t_step j) s.yt with
    | undefined => simp [ha] at h
    | croaked e d1 c1 => simp [ha] at h
    | returned status d1 t1 yt1 c1 =>
      simp only [ha] at h
      by_cases hs : status = GSL_SUCCESS
      · simp [hs] at h
      · simp [hs] at h
        subst h
        exact ⟨rfl, rfl, d, status, d1, t1, yt1, c1, rfl, hs, ha⟩

/-- The working state read off the input container. -/
theorem load_yt_fst : ∀ (n : Nat) (y : List SV),
    (load_yt n y).1 = (List.range n).map (fun i => (y.getD i PL_sv_undef).nv) := by
  intro n
  induction n with
  | zero => intro y; simp [load_yt]
  | succ n ih =>
    intro y
    cases y with
    | nil =>
      simp only [load_yt, av_shift, ih]
      rw [List.range_succ_eq_map]
      simp [Function.comp_def]
    | cons e rest =>
      simp only [load_yt, av_shift, ih]
      rw [List.range_succ_eq_map]
      simp [Function.comp_def]

/-- What is left of the input container once the working state is read. -/
theorem load_yt_snd : ∀ (n : Nat) (y : List SV), (load_yt n y).2 = y.drop n := by
  intro n
  induction n with
  | zero => intro y; simp [load_yt]
  | succ n ih =>
    intro y
    cases y with
    | nil => simp [load_yt, av_shift, ih]
    | cons e rest => simp [load_yt, av_shift, ih]

/-- A row built from the working state just read is the initial row. -/
theorem make_row_load_yt (t0 : ℚ) (num_y : Nat) (y : List SV) :
    make_row t0 (load_yt num_y y).1 num_y = initial_row t0 num_y y := by
  unfold make_row initial_row
  rw [load_yt_fst]
  congr 1
  apply List.map_congr_left
  intro i hi
  have hi' : i < num_y := List.mem_range.mp hi
  simp [List.getD_eq_getElem?_getD, List.getElem?_map, List.getElem?_range hi']

/-- Every row has `1 + num_y` entries. -/
theorem make_row_length (t : ℚ) (yt : List ℚ) (num_y : Nat) :
    (make_row t yt num_y).length = 1 + num_y := by
  simp [make_row]; omega

end Run

section Call

variable {σ : Type} (gsl : Gsl σ) (check0 : Int) (t0 t1 : ℚ) (num_steps : Int)
  (num_y : Nat) (y : List SV) (step_type : String) (h_init eps_abs eps_rel : ℚ)

/-- With a recognised step type the call is the stepping loop entered in the
initial state. -/
theorem rc_ode_solver_eq_loop (T : gsl_odeiv2_step_type)
    (hT : translate_step_type step_type = some T) :
    rc_ode_solver gsl check0 t0 t1 num_steps num_y y step_type h_init eps_abs eps_rel
      = rc_ode_solver_loop gsl t0 ((t1 - t0) / (num_steps : ℚ)) num_y num_steps.toNat 1
          (rc_ode_solver_init gsl T t0 num_y y h_init eps_abs eps_rel) := by
  simp [rc_ode_solver, hT]

/-- With a recognised step type the states of the run are those of the loop. -/
theorem run_state_eq (T : gsl_odeiv2_step_type)
    (hT : translate_step_type step_type = some T) (n : Nat) :
    run_state gsl t0 t1 num_steps num_y y step_type h_init eps_abs eps_rel n
      = pass_state gsl t0 ((t1 - t0) / (num_steps : ℚ)) num_y
          (rc_ode_solver_init gsl T t0 num_y y h_init eps_abs eps_rel) n := by
  simp [run_state, hT]

/-- The initial state: the table holds the initial row only, the stepper has
not been applied, the container has lost its first `num_y` elements. -/
theorem rc_ode_solver_init_spec (T : gsl_odeiv2_step_type) :
    (rc_ode_solver_init gsl T t0 num_y y h_init eps_abs eps_rel).resultsAV
        = [initial_row t0 num_y y] ∧
      (rc_ode_solver_init gsl T t0 num_y y h_init eps_abs eps_rel).applied = [] ∧
      (rc_ode_solver_init gsl T t0 num_y y h_init eps_abs eps_rel).check = 1 ∧
      (rc_ode_solver_init gsl T t0 num_y y h_init eps_abs eps_rel).y = y.drop num_y ∧
      (rc_ode_solver_init gsl T t0 num_y y h_init eps_abs eps_rel).d
        = some (gsl.gsl_odeiv2_driver_alloc_y_new T h_init eps_abs eps_rel) := by
  have h1 := make_row_load_yt t0 num_y y
  have h2 := load_yt_snd num_y y
  unfold rc_ode_solver_init
  cases hl : load_yt num_y y with
  | mk yt y1 =>
    rw [hl] at h1 h2
    simp at h1 h2
    simp [h1, h2]

/-- The stepper succeeds at index `j` exactly when pass `j` goes on. -/
theorem step_succeeds_iff (T : gsl_odeiv2_step_type)
    (hT : translate_step_type step_type = some T) (n : Nat) :
    step_succeeds gsl t0 t1 num_steps num_y y step_type h_init eps_abs eps_rel (n + 1)
      ↔ ∃ s, run_state gsl t0 t1 num_steps num_y y step_type h_init eps_abs eps_rel (n + 1)
          = some s := by
  unfold step_succeeds nth_apply
  simp only [Nat.add_sub_cancel]
  rw [run_state_eq gsl t0 t1 num_steps num_y y step_type h_init eps_abs eps_rel T hT,
    run_state_eq gsl t0 t1 num_steps num_y y step_type h_init eps_abs eps_rel T hT]
  constructor
  · rintro ⟨d1, t', yt1, c1, h⟩
    cases hp : pass_state gsl t0 ((t1 - t0) / (num_steps : ℚ)) num_y
        (rc_ode_solver_init gsl T t0 num_y y h_init eps_abs eps_rel) n with
    | none => simp [hp] at h
    | some sp =>
      simp only [hp] at h
      cases hd : sp.d with
      | none => simp [hd] at h
      | some d =>
        simp only [hd, Option.some.injEq] at h
        have hb := loop_body_of_success gsl t0 ((t1 - t0) / (num_steps : ℚ)) num_y
          ((n : Int) + 1) sp d d1 t' yt1 c1 hd (by push_cast at h; exact h)
        exact ⟨_, by simp only [pass_state, hp, hb]; rfl⟩
  · rintro ⟨s, h⟩
    obtain ⟨sp, hp, hb⟩ := pass_state_pred gsl t0 _ num_y _ n s h
    obtain ⟨d, d1, t', yt1, c1, hd, ha, _⟩ := loop_body_next gsl t0 _ num_y _ sp s hb
    refine ⟨d1, t', yt1, c1, ?_⟩
    simp only [hp, hd]
    push_cast
    rw [ha]

/-- If the stepper succeeds at the indices `1 .. n`, then `n` passes go on. -/
theorem run_state_of_succeeds (T : gsl_odeiv2_step_type)
    (hT : translate_step_type step_type = some T) :
    ∀ n : Nat,
      (∀ j : Nat, 1 ≤ j → j ≤ n →
        step_succeeds gsl t0 t1 num_steps num_y y step_type h_init eps_abs eps_rel j) →
      ∃ s, run_state gsl t0 t1 num_steps num_y y step_type h_init eps_abs eps_rel n
        = some s := by
  intro n h
  cases n with
  | zero =>
    rw [run_state_eq gsl t0 t1 num_steps num_y y step_type h_init eps_abs eps_rel T hT]
    exact ⟨_, rfl⟩
  | succ n =>
    exact (step_succeeds_iff gsl t0 t1 num_steps num_y y step_type h_init eps_abs eps_rel
      T hT n).mp (h (n + 1) (by omega) (by omega))

/-- If `n` passes go on, the stepper succeeded at the indices `1 .. n`. -/
theorem succeeds_of_run_state (T : gsl_odeiv2_step_type)
    (hT : translate_step_type step_type = some T) (n : Nat) (s : SolverState σ)
    (h : run_state gsl t0 t1 num_steps num_y y step_type h_init eps_abs eps_rel n = some s) :
    ∀ j : Nat, 1 ≤ j → j ≤ n →
      step_succeeds gsl t0 t1 num_steps num_y y step_type h_init eps_abs eps_rel j := by
  intro j hj1 hjn
  obtain ⟨i, rfl⟩ : ∃ i, j = i + 1 := ⟨j - 1, by omega⟩
  rw [step_succeeds_iff gsl t0 t1 num_steps num_y y step_type h_init eps_abs eps_rel T hT]
  rw [run_state_eq gsl t0 t1 num_steps num_y y step_type h_init eps_abs eps_rel T hT] at h ⊢
  obtain ⟨rows, _, _, hrows, _, _⟩ := pass_state_table gsl t0 _ num_y _ n s h
  obtain ⟨sj, hsj, _⟩ := hrows i (by omega)
  exact ⟨sj, hsj⟩

/-- A run in which every reporting step succeeds returns after `num_steps`
passes that all went on. -/
theorem full_run (T : gsl_odeiv2_step_type)
    (hT : translate_step_type step_type = some T)
    (hok : ∀ j : Nat, 1 ≤ j → (j : Int) ≤ num_steps →
      step_succeeds gsl t0 t1 num_steps num_y y step_type h_init eps_abs eps_rel j) :
    ∃ s, rc_ode_solver gsl check0 t0 t1 num_steps num_y y step_type h_init eps_abs eps_rel
        = .returned s ∧
      run_state gsl t0 t1 num_steps num_y y step_type h_init eps_abs eps_rel num_steps.toNat
        = some s := by
  obtain ⟨s, hs⟩ := run_state_of_succeeds gsl t0 t1 num_steps num_y y step_type h_init
    eps_abs eps_rel T hT num_steps.toNat (fun j h1 h2 => hok j h1 (by omega))
  refine ⟨s, ?_, hs⟩
  rw [rc_ode_solver_eq_loop gsl check0 t0 t1 num_steps num_y y step_type h_init eps_abs
    eps_rel T hT]
  rw [run_state_eq gsl t0 t1 num_steps num_y y step_type h_init eps_abs eps_rel T hT] at hs
  have h := loop_unroll gsl t0 ((t1 - t0) / (num_steps : ℚ)) num_y _ num_steps.toNat 0 s hs
  simp only [Nat.add_zero] at h
  rw [h]
  rfl

/-- A run whose pass `m + 1` leaves the function ends with the outcome of that pass. -/
theorem run_stop (T : gsl_odeiv2_step_type)
    (hT : translate_step_type step_type = some T) (m : Nat) (hm : (m : Int) < num_steps)
    (sp : SolverState σ) (o : Outcome σ)
    (hp : run_state gsl t0 t1 num_steps num_y y step_type h_init eps_abs eps_rel m = some sp)
    (hb : loop_body gsl t0 ((t1 - t0) / (num_steps : ℚ)) num_y ((m : Int) + 1) sp = .stop o) :
    rc_ode_solver gsl check0 t0 t1 num_steps num_y y step_type h_init eps_abs eps_rel = o := by
  rw [rc_ode_solver_eq_loop gsl check0 t0 t1 num_steps num_y y step_type h_init eps_abs
    eps_rel T hT]
  rw [run_state_eq gsl t0 t1 num_steps num_y y step_type h_init eps_abs eps_rel T hT] at hp
  have e : num_steps.toNat = m + ((num_steps.toNat - m - 1) + 1) := by omega
  rw [e]
  exact loop_stop gsl t0 _ num_y _ m _ sp o hp hb

/-- The table after `n` passes that went on: the initial row, then one row per
pass, holding the target time and the working state the stepper left. -/
theorem run_state_table (T : gsl_odeiv2_step_type)
    (hT : translate_step_type step_type = some T) (n : Nat) (s : SolverState σ)
    (h : run_state gsl t0 t1 num_steps num_y y step_type h_init eps_abs eps_rel n = some s) :
    s.resultsAV.length = n + 1 ∧
      s.resultsAV[0]? = some (initial_row t0 num_y y) ∧
      (∀ j : Nat, 1 ≤ j → j ≤ n → ∃ sj,
        run_state gsl t0 t1 num_steps num_y y step_type h_init eps_abs eps_rel j = some sj ∧
        s.resultsAV[j]? = some
          (make_row (target_time t0 ((t1 - t0) / (num_steps : ℚ)) j) sj.yt num_y)) ∧
      s.applied = (List.range n).map
        (fun i : Nat => target_time t0 ((t1 - t0) / (num_steps : ℚ)) ((i : Int) + 1)) := by
  rw [run_state_eq gsl t0 t1 num_steps num_y y step_type h_init eps_abs eps_rel T hT] at h
  obtain ⟨rows, hr, hl, hrows, happ, _⟩ := pass_state_table gsl t0 _ num_y _ n s h
  obtain ⟨h1, h2, _, _, _⟩ := rc_ode_solver_init_spec gsl t0 num_y y h_init eps_abs eps_rel T
  rw [h1] at hr
  rw [h2] at happ
  refine ⟨by simp [hr, hl], by simp [hr], ?_, by simpa using happ⟩
  intro j hj1 hjn
  obtain ⟨i, rfl⟩ : ∃ i, j = i + 1 := ⟨j - 1, by omega⟩
  obtain ⟨sj, hsj, hrow⟩ := hrows i (by omega)
  refine ⟨sj, ?_, ?_⟩
  · rw [run_state_eq gsl t0 t1 num_steps num_y y step_type h_init eps_abs eps_rel T hT]
    exact hsj
  · rw [hr]
    simp only [List.singleton_append, List.getElem?_cons_succ]
    push_cast
    exact hrow

/-- Whatever the stepper does, a table that is returned starts with the
initial row. -/
theorem returned_head (T : gsl_odeiv2_step_type)
    (hT : translate_step_type step_type = some T) (s : SolverState σ)
    (h : rc_ode_solver gsl check0 t0 t1 num_steps num_y y step_type h_init eps_abs eps_rel
      = .returned s) :
    ∃ n, n ≤ num_steps.toNat ∧ s.resultsAV.length = n + 1 ∧
      s.resultsAV[0]? = some (initial_row t0 num_y y) := by
  rcases pass_state_progress gsl t0 ((t1 - t0) / (num_steps : ℚ)) num_y
    (rc_ode_solver_init gsl T t0 num_y y h_init eps_abs eps_rel) num_steps.toNat with
    ⟨sN, hN⟩ | ⟨m, sp, o, hm, hp, hb⟩
  · rw [← run_state_eq gsl t0 t1 num_steps num_y y step_type h_init eps_abs eps_rel T hT] at hN
    obtain ⟨s', hs', hr'⟩ := full_run gsl check0 t0 t1 num_steps num_y y step_type h_init
      eps_abs eps_rel T hT (fun j h1 h2 => succeeds_of_run_state gsl t0 t1 num_steps num_y y
        step_type h_init eps_abs eps_rel T hT _ sN hN j h1 (by omega))
    rw [h] at hs'
    cases hs'
    obtain ⟨hlen, h0, _, _⟩ := run_state_table gsl t0 t1 num_steps num_y y step_type
      h_init eps_abs eps_rel T hT _ s hr'
    exact ⟨_, le_refl _, hlen, h0⟩
  · rw [← run_state_eq gsl t0 t1 num_steps num_y y step_type h_init eps_abs eps_rel T hT] at hp
    have ho := run_stop gsl check0 t0 t1 num_steps num_y y step_type h_init eps_abs eps_rel
      T hT m (by omega) sp o hp hb
    rw [h] at ho
    subst ho
    obtain ⟨hres, _, _⟩ := loop_body_stop_returned gsl t0 _ num_y _ sp s hb
    obtain ⟨hlen, h0, _, _⟩ := run_state_table gsl t0 t1 num_steps num_y y step_type
      h_init eps_abs eps_rel T hT _ sp hp
    rw [hres]
    exact ⟨m, by omega, hlen, h0⟩

/-- If the stepper always returns a status, so does `loop_body`'s pass either
go on or return: the loop returns. -/
theorem loop_returns (t_step : ℚ)
    (hret : ∀ d c t tj yt, ∃ st d1 t' yt1 c1,
      gsl.gsl_odeiv2_driver_apply d c t tj yt = .returned st d1 t' yt1 c1) :
    ∀ (n : Nat) (j : Int) (s : SolverState σ), s.d ≠ none →
      ∃ s1, rc_ode_solver_loop gsl t0 t_step num_y n j s = .returned s1 := by
  intro n
  induction n with
  | zero => intro j s _; exact ⟨s, rfl⟩
  | succ n ih =>
    intro j s hd
    obtain ⟨d, hd'⟩ := Option.ne_none_iff_exists'.mp hd
    obtain ⟨st, d1, t', yt1, c1, ha⟩ := hret d s.check s.t (target_time t0 t_step j) s.yt
    by_cases hst : st = GSL_SUCCESS
    · subst hst
      simp only [rc_ode_solver_loop,
        loop_body_of_success gsl t0 t_step num_y j s d d1 t' yt1 c1 hd' ha]
      exact ih _ _ (by simp)
    · simp only [rc_ode_solver_loop,
        loop_body_of_failure gsl t0 t_step num_y j s d d1 st t' yt1 c1 hd' hst ha]
      exact ⟨_, rfl⟩

/-- The working state after pass `n + 1` is the one the stepper returned at
reporting index `n + 1`, together with `GSL_SUCCESS`. -/
theorem nth_apply_of_run_state (T : gsl_odeiv2_step_type)
    (hT : translate_step_type step_type = some T) (n : Nat) (s : SolverState σ)
    (h : run_state gsl t0 t1 num_steps num_y y step_type h_init eps_abs eps_rel (n + 1)
      = some s) :
    ∃ d t c, nth_apply gsl t0 t1 num_steps num_y y step_type h_init eps_abs eps_rel (n + 1)
      = some (.returned GSL_SUCCESS d t s.yt c) := by
  unfold nth_apply
  simp only [Nat.add_sub_cancel]
  rw [run_state_eq gsl t0 t1 num_steps num_y y step_type h_init eps_abs eps_rel T hT] at h ⊢
  obtain ⟨sp, hp, hb⟩ := pass_state_pred gsl t0 _ num_y _ n s h
  obtain ⟨d, d1, t', yt1, c1, hd, ha, hs⟩ := loop_body_next gsl t0 _ num_y _ sp s hb
  refine ⟨d1, t', c1, ?_⟩
  simp only [hp, hd]
  push_cast
  rw [ha, hs]

/-- If the stepper returns a status other than `GSL_SUCCESS` at reporting index
`m + 1`, reached after `m` passes, the call returns there with the table as it
stands. -/
theorem run_failure (T : gsl_odeiv2_step_type)
    (hT : translate_step_type step_type = some T) (m : Nat) (hm : (m : Int) < num_steps)
    (sp : SolverState σ) (st : Int) (d1 : σ) (t' : ℚ) (yt1 : List ℚ) (c1 : Int)
    (hp : run_state gsl t0 t1 num_steps num_y y step_type h_init eps_abs eps_rel m = some sp)
    (ha : nth_apply gsl t0 t1 num_steps num_y y step_type h_init eps_abs eps_rel (m + 1)
      = some (.returned st d1 t' yt1 c1))
    (hst : st ≠ GSL_SUCCESS) :
    ∃ s, rc_ode_solver gsl check0 t0 t1 num_steps num_y y step_type h_init eps_abs eps_rel
        = .returned s ∧
      s.resultsAV = sp.resultsAV ∧ s.applied.length = sp.applied.length + 1 := by
  unfold nth_apply at ha
  simp only [Nat.add_sub_cancel, hp] at ha
  cases hd : sp.d with
  | none => simp [hd] at ha
  | some d =>
    simp only [hd, Option.some.injEq] at ha
    push_cast at ha
    have hb := loop_body_of_failure gsl t0 ((t1 - t0) / (num_steps : ℚ)) num_y
      ((m : Int) + 1) sp d d1 st t' yt1 c1 hd hst ha
    exact ⟨_, run_stop gsl check0 t0 t1 num_steps num_y y step_type h_init eps_abs eps_rel
      T hT m hm sp _ hp hb, rfl, by simp⟩

/-- A returned table has `num_steps + 1` rows exactly when every reporting
step succeeded. -/
theorem returned_full_iff (T : gsl_odeiv2_step_type)
    (hT : translate_step_type step_type = some T) (hN : 0 ≤ num_steps) (s : SolverState σ)
    (h : rc_ode_solver gsl check0 t0 t1 num_steps num_y y step_type h_init eps_abs eps_rel
      = .returned s) :
    (s.resultsAV.length : Int) = num_steps + 1 ↔
      ∀ j : Nat, 1 ≤ j → (j : Int) ≤ num_steps →
        step_succeeds gsl t0 t1 num_steps num_y y step_type h_init eps_abs eps_rel j := by
  rcases pass_state_progress gsl t0 ((t1 - t0) / (num_steps : ℚ)) num_y
    (rc_ode_solver_init gsl T t0 num_y y h_init eps_abs eps_rel) num_steps.toNat with
    ⟨sN, hsN⟩ | ⟨m, sp, o, hm, hp, hb⟩
  · rw [← run_state_eq gsl t0 t1 num_steps num_y y step_type h_init eps_abs eps_rel T hT] at hsN
    have hall : ∀ j : Nat, 1 ≤ j → (j : Int) ≤ num_steps →
        step_succeeds gsl t0 t1 num_steps num_y y step_type h_init eps_abs eps_rel j :=
      fun j h1 h2 => succeeds_of_run_state gsl t0 t1 num_steps num_y y
        step_type h_init eps_abs eps_rel T hT _ sN hsN j h1 (by omega)
    obtain ⟨s', hs', hr'⟩ := full_run gsl check0 t0 t1 num_steps num_y y step_type h_init
      eps_abs eps_rel T hT hall
    rw [h] at hs'
    cases hs'
    obtain ⟨hlen, _, _, _⟩ := run_state_table gsl t0 t1 num_steps num_y y step_type
      h_init eps_abs eps_rel T hT _ s hr'
    exact ⟨fun _ => hall, fun _ => by rw [hlen]; push_cast; omega⟩
  · have hp' := hp
    rw [← run_state_eq gsl t0 t1 num_steps num_y y step_type h_init eps_abs eps_rel T hT] at hp'
    have ho := run_stop gsl check0 t0 t1 num_steps num_y y step_type h_init eps_abs eps_rel
      T hT m (by omega) sp o hp' hb
    rw [h] at ho
    subst ho
    obtain ⟨hres, _, _⟩ := loop_body_stop_returned gsl t0 _ num_y _ sp s hb
    obtain ⟨hlen, _, _, _⟩ := run_state_table gsl t0 t1 num_steps num_y y step_type
      h_init eps_abs eps_rel T hT _ sp hp'
    constructor
    · intro hl
      rw [hres, hlen] at hl
      push_cast at hl
      omega
    · intro hall
      have hsucc := hall (m + 1) (by omega) (by omega)
      rw [step_succeeds_iff gsl t0 t1 num_steps num_y y step_type h_init eps_abs eps_rel T hT,
        run_state_eq gsl t0 t1 num_steps num_y y step_type h_init eps_abs eps_rel T hT] at hsucc
      obtain ⟨s2, hs2⟩ := hsucc
      simp [pass_state, hp, hb] at hs2

end Call

/-! ## The claims -/

section Claims

variable {σ : Type} (gsl : Gsl σ) (check0 : Int) (t0 t1 : ℚ) (num_steps : Int)
  (num_y : Nat) (y : List SV) (step_type : String) (h_init eps_abs eps_rel : ℚ)

/-- C1. For a recognised step-type name, `num_steps ≥ 1` and any initial
container: if the stepper returns `GSL_SUCCESS` at each of the reporting indices
`1 .. num_steps`, then `rc_ode_solver` returns a table of exactly
`num_steps + 1` rows, each with exactly `1 + num_y` entries. -/
theorem rc_ode_solver_full_table (T : gsl_odeiv2_step_type)
    (hT : translate_step_type step_type = some T) (hN : 1 ≤ num_steps)
    (hok : ∀ j : Nat, 1 ≤ j → (j : Int) ≤ num_steps →
      step_succeeds gsl t0 t1 num_steps num_y y step_type h_init eps_abs eps_rel j) :
    ∃ s, rc_ode_solver gsl check0 t0 t1 num_steps num_y y step_type h_init eps_abs eps_rel
        = .returned s ∧
      (s.resultsAV.length : Int) = num_steps + 1 ∧
      ∀ row ∈ s.resultsAV, row.length = 1 + num_y := by
  obtain ⟨s, hs, hr⟩ := full_run gsl check0 t0 t1 num_steps num_y y step_type h_init
    eps_abs eps_rel T hT hok
  obtain ⟨hlen, h0, hrows, _⟩ := run_state_table gsl t0 t1 num_steps num_y y step_type
    h_init eps_abs eps_rel T hT _ s hr
  refine ⟨s, hs, by rw [hlen]; push_cast; omega, ?_⟩
  intro row hrow
  obtain ⟨j, hj⟩ := List.mem_iff_getElem?.mp hrow
  have hjlt : j < s.resultsAV.length := by
    by_contra hc
    rw [List.getElem?_eq_none (by omega)] at hj
    cases hj
  by_cases hj0 : j = 0
  · subst hj0
    rw [h0] at hj
    cases hj
    simp [initial_row]; omega
  · obtain ⟨sj, _, hrj⟩ := hrows j (by omega) (by omega)
    rw [hrj] at hj
    cases hj
    exact make_row_length _ _ _

/-- C1, instance: two successful steps on a one-component system. -/
theorem rc_ode_solver_full_table_witness :
    ∃ s, rc_ode_solver (halving_gsl 0) 0 0 1 2 1 [newSVnv 8] "rk4" 1 1 1 = .returned s ∧
      (s.resultsAV.length : Int) = 2 + 1 ∧
      ∀ row ∈ s.resultsAV, row.length = 1 + 1 :=
  rc_ode_solver_full_table (halving_gsl 0) 0 0 1 2 1 [newSVnv 8] "rk4" 1 1 1
    .rk4 (by decide) (by decide)
    (by
      intro j h1 h2
      have hj : j = 1 ∨ j = 2 := by omega
      rcases hj with rfl | rfl
      · exact ⟨_, _, _, _, rfl⟩
      · exact ⟨_, _, _, _, rfl⟩)

/-- C2. For a recognised step-type name and any input: the stepping loop is
entered with the table holding exactly the initial row
`(t0, y0[0], ..., y0[num_y-1])` and with no stepper application made; whatever
the later steps do, a table that is returned is non-empty and has that row
first; and the call does return a table whenever the stepper returns a status
each time it is applied. -/
theorem rc_ode_solver_first_row (T : gsl_odeiv2_step_type)
    (hT : translate_step_type step_type = some T) :
    ((rc_ode_solver_init gsl T t0 num_y y h_init eps_abs eps_rel).resultsAV
        = [initial_row t0 num_y y] ∧
      (rc_ode_solver_init gsl T t0 num_y y h_init eps_abs eps_rel).applied = []) ∧
    (∀ s, rc_ode_solver gsl check0 t0 t1 num_steps num_y y step_type h_init eps_abs eps_rel
        = .returned s →
      s.resultsAV ≠ [] ∧ s.resultsAV.head? = some (initial_row t0 num_y y)) ∧
    ((∀ d c t tj yt, ∃ st d1 t' yt1 c1,
        gsl.gsl_odeiv2_driver_apply d c t tj yt = .returned st d1 t' yt1 c1) →
      ∃ s, rc_ode_solver gsl check0 t0 t1 num_steps num_y y step_type h_init eps_abs eps_rel
          = .returned s ∧
        s.resultsAV.head? = some (initial_row t0 num_y y)) := by
  have hinit := rc_ode_solver_init_spec gsl t0 num_y y h_init eps_abs eps_rel T
  have hhead : ∀ s, rc_ode_solver gsl check0 t0 t1 num_steps num_y y step_type h_init
      eps_abs eps_rel = .returned s →
      s.resultsAV ≠ [] ∧ s.resultsAV.head? = some (initial_row t0 num_y y) := by
    intro s h
    obtain ⟨n, _, hlen, h0⟩ := returned_head gsl check0 t0 t1 num_steps num_y y step_type
      h_init eps_abs eps_rel T hT s h
    constructor
    · intro hnil
      rw [hnil] at hlen
      simp at hlen
    · rw [List.head?_eq_getElem?]
      exact h0
  refine ⟨⟨hinit.1, hinit.2.1⟩, hhead, ?_⟩
  intro hret
  obtain ⟨s, hs⟩ := loop_returns gsl t0 num_y ((t1 - t0) / (num_steps : ℚ)) hret
    num_steps.toNat 1 (rc_ode_solver_init gsl T t0 num_y y h_init eps_abs eps_rel)
    (by rw [hinit.2.2.2.2]; simp)
  rw [← rc_ode_solver_eq_loop gsl check0 t0 t1 num_steps num_y y step_type h_init eps_abs
    eps_rel T hT] at hs
  exact ⟨s, hs, (hhead s hs).2⟩

/-- C2, instance: a run whose first step fails still returns the initial row. -/
theorem rc_ode_solver_first_row_witness :
    ∃ s, rc_ode_solver (halving_gsl 1) 0 0 1 2 1 [newSVnv 8] "rk4" 1 1 1 = .returned s ∧
      s.resultsAV.head? = some [newSVnv 0, newSVnv 8] :=
  (rc_ode_solver_first_row (halving_gsl 1) 0 0 1 2 1 [newSVnv 8] "rk4" 1 1 1
    .rk4 (by decide)).2.2
    (by
      intro d c t tj yt
      by_cases h : d + 1 = 1
      · exact ⟨_, _, _, _, _, if_pos h⟩
      · exact ⟨_, _, _, _, _, if_neg h⟩)

/-- C3. With exact arithmetic, a recognised step type and `num_steps ≥ 1`: in a
run in which every reporting step succeeds the time entry of row `j` is
`t0 + j*(t1 - t0)/num_steps` for every `j` in `0 .. num_steps`, the time entry
of the last row is `t1`, and the target time passed to the stepper at reporting
index `j` is that same value `t0 + j*(t1 - t0)/num_steps`. -/
theorem rc_ode_solver_times (T : gsl_odeiv2_step_type)
    (hT : translate_step_type step_type = some T) (hN : 1 ≤ num_steps)
    (hok : ∀ j : Nat, 1 ≤ j → (j : Int) ≤ num_steps →
      step_succeeds gsl t0 t1 num_steps num_y y step_type h_init eps_abs eps_rel j) :
    ∃ s, rc_ode_solver gsl check0 t0 t1 num_steps num_y y step_type h_init eps_abs eps_rel
        = .returned s ∧
      (∀ j : Nat, (j : Int) ≤ num_steps → ∃ rest, s.resultsAV[j]? =
        some (newSVnv (t0 + (j : ℚ) * (t1 - t0) / (num_steps : ℚ)) :: rest)) ∧
      (∃ rest, s.resultsAV.getLast? = some (newSVnv t1 :: rest)) ∧
      (∀ j : Nat, 1 ≤ j → (j : Int) ≤ num_steps →
        s.applied[j - 1]? = some (t0 + (j : ℚ) * (t1 - t0) / (num_steps : ℚ))) := by
  obtain ⟨s, hs, hr⟩ := full_run gsl check0 t0 t1 num_steps num_y y step_type h_init
    eps_abs eps_rel T hT hok
  obtain ⟨hlen, h0, hrows, happ⟩ := run_state_table gsl t0 t1 num_steps num_y y step_type
    h_init eps_abs eps_rel T hT _ s hr
  have htime : ∀ j : Nat, target_time t0 ((t1 - t0) / (num_steps : ℚ)) (j : Int)
      = t0 + (j : ℚ) * (t1 - t0) / (num_steps : ℚ) := by
    intro j
    unfold target_time
    push_cast
    ring
  have hrow : ∀ j : Nat, (j : Int) ≤ num_steps → ∃ rest, s.resultsAV[j]? =
      some (newSVnv (t0 + (j : ℚ) * (t1 - t0) / (num_steps : ℚ)) :: rest) := by
    intro j hj
    by_cases hj0 : j = 0
    · subst hj0
      have e : t0 + ((0 : ℕ) : ℚ) * (t1 - t0) / (num_steps : ℚ) = t0 := by simp
      rw [h0, e]
      exact ⟨_, rfl⟩
    · obtain ⟨sj, _, hrj⟩ := hrows j (by omega) (by omega)
      rw [hrj, htime j]
      exact ⟨_, rfl⟩
  refine ⟨s, hs, hrow, ?_, ?_⟩
  · obtain ⟨rest, hrest⟩ := hrow num_steps.toNat (by omega)
    refine ⟨rest, ?_⟩
    rw [List.getLast?_eq_getElem?, hlen, Nat.add_sub_cancel, hrest]
    have hq : ((num_steps.toNat : ℕ) : ℚ) = (num_steps : ℚ) := by
      have : ((num_steps.toNat : ℕ) : Int) = num_steps := Int.toNat_of_nonneg (by omega)
      exact_mod_cast this
    have hne : (num_steps : ℚ) ≠ 0 := by
      have : (1 : ℚ) ≤ (num_steps : ℚ) := by exact_mod_cast hN
      linarith
    rw [hq]
    congr 3
    field_simp
  · intro j hj1 hjn
    rw [happ, List.getElem?_map, List.getElem?_range (by omega)]
    simp only [Option.map_some']
    have e : (((j - 1 : ℕ) : Int) + 1) = ((j : ℕ) : Int) := by omega
    rw [e, htime j]

/-- C3, instance: from `t0 = 0` to `t1 = 1` in two steps the row times are
`0, 1/2, 1` and the stepper is sent to `1/2` and `1`. -/
theorem rc_ode_solver_times_witness :
    ∃ s, rc_ode_solver (halving_gsl 0) 0 0 1 2 1 [newSVnv 8] "rk4" 1 1 1 = .returned s ∧
      (∀ j : Nat, (j : Int) ≤ 2 → ∃ rest, s.resultsAV[j]? =
        some (newSVnv (0 + (j : ℚ) * (1 - 0) / ((2 : Int) : ℚ)) :: rest)) ∧
      (∃ rest, s.resultsAV.getLast? = some (newSVnv 1 :: rest)) ∧
      (∀ j : Nat, 1 ≤ j → (j : Int) ≤ 2 →
        s.applied[j - 1]? = some (0 + (j : ℚ) * (1 - 0) / ((2 : Int) : ℚ))) :=
  rc_ode_solver_times (halving_gsl 0) 0 0 1 2 1 [newSVnv 8] "rk4" 1 1 1
    .rk4 (by decide) (by decide)
    (by
      intro j h1 h2
      have hj : j = 1 ∨ j = 2 := by omega
      rcases hj with rfl | rfl
      · exact ⟨_, _, _, _, rfl⟩
      · exact ⟨_, _, _, _, rfl⟩)

/-- C4. For a recognised step type and `num_steps ≥ 1`: if the stepper
succeeds at the reporting indices below `k` and returns a status other than
`GSL_SUCCESS` at index `k` (`1 ≤ k ≤ num_steps`), then `rc_ode_solver` returns
(it does not croak), the stepper has been applied exactly `k` times, and the
returned table has exactly `k` rows: the initial row, then for `j = 1 .. k-1`
the row of the target time `t_j` and the state the stepper returned at step
`j`; it is the table the run had accumulated after its `k-1` successful passes.
Moreover a returned table has `num_steps + 1` rows if and only if the stepper
succeeded at every reporting index. -/
theorem rc_ode_solver_first_failure (T : gsl_odeiv2_step_type)
    (hT : translate_step_type step_type = some T) (hN : 1 ≤ num_steps) :
    (∀ (k : Nat) (st : Int) (d1 : σ) (t' : ℚ) (yt1 : List ℚ) (c1 : Int),
      1 ≤ k → (k : Int) ≤ num_steps →
      (∀ j : Nat, 1 ≤ j → j < k →
        step_succeeds gsl t0 t1 num_steps num_y y step_type h_init eps_abs eps_rel j) →
      nth_apply gsl t0 t1 num_steps num_y y step_type h_init eps_abs eps_rel k
        = some (.returned st d1 t' yt1 c1) →
      st ≠ GSL_SUCCESS →
      ∃ s sp, rc_ode_solver gsl check0 t0 t1 num_steps num_y y step_type h_init eps_abs
          eps_rel = .returned s ∧
        s.applied.length = k ∧
        s.resultsAV.length = k ∧
        s.resultsAV[0]? = some (initial_row t0 num_y y) ∧
        (∀ j : Nat, 1 ≤ j → j < k → ∃ d t yt c,
          nth_apply gsl t0 t1 num_steps num_y y step_type h_init eps_abs eps_rel j
            = some (.returned GSL_SUCCESS d t yt c) ∧
          s.resultsAV[j]? = some
            (make_row (target_time t0 ((t1 - t0) / (num_steps : ℚ)) j) yt num_y)) ∧
        run_state gsl t0 t1 num_steps num_y y step_type h_init eps_abs eps_rel (k - 1)
          = some sp ∧
        s.resultsAV = sp.resultsAV) ∧
    (∀ s, rc_ode_solver gsl check0 t0 t1 num_steps num_y y step_type h_init eps_abs eps_rel
        = .returned s →
      ((s.resultsAV.length : Int) = num_steps + 1 ↔
        ∀ j : Nat, 1 ≤ j → (j : Int) ≤ num_steps →
          step_succeeds gsl t0 t1 num_steps num_y y step_type h_init eps_abs eps_rel j)) := by
  refine ⟨?_, fun s h => returned_full_iff gsl check0 t0 t1 num_steps num_y y step_type
    h_init eps_abs eps_rel T hT (by omega) s h⟩
  intro k st d1 t' yt1 c1 hk1 hkN hok hfail hst
  obtain ⟨m, rfl⟩ : ∃ m, k = m + 1 := ⟨k - 1, by omega⟩
  obtain ⟨sp, hp⟩ := run_state_of_succeeds gsl t0 t1 num_steps num_y y step_type h_init
    eps_abs eps_rel T hT m (fun j h1 h2 => hok j h1 (by omega))
  obtain ⟨s, hs, hres, happ⟩ := run_failure gsl check0 t0 t1 num_steps num_y y step_type
    h_init eps_abs eps_rel T hT m (by omega) sp st d1 t' yt1 c1 hp hfail hst
  obtain ⟨hlen, h0, hrows, hlog⟩ := run_state_table gsl t0 t1 num_steps num_y y step_type
    h_init eps_abs eps_rel T hT _ sp hp
  refine ⟨s, sp, hs, ?_, ?_, ?_, ?_, ?_, hres⟩
  · rw [happ, hlog]; simp
  · rw [hres, hlen]
  · rw [hres]; exact h0
  · intro j hj1 hjk
    obtain ⟨sj, hsj, hrow⟩ := hrows j hj1 (by omega)
    obtain ⟨i, rfl⟩ : ∃ i, j = i + 1 := ⟨j - 1, by omega⟩
    obtain ⟨d, t, c, hnth⟩ := nth_apply_of_run_state gsl t0 t1 num_steps num_y y step_type
      h_init eps_abs eps_rel T hT i sj hsj
    exact ⟨d, t, sj.yt, c, hnth, by rw [hres]; exact hrow⟩
  · simpa using hp

/-- C4, instance: with three steps asked for and the second one failing, the
call returns two rows after two stepper applications. -/
theorem rc_ode_solver_first_failure_witness :
    ∃ s, rc_ode_solver (halving_gsl 2) 0 0 1 3 1 [newSVnv 8] "rk4" 1 1 1 = .returned s ∧
      s.applied.length = 2 ∧ s.resultsAV.length = 2 :=
  let ⟨s, _, h1, h2, h3, _⟩ :=
    (rc_ode_solver_first_failure (halving_gsl 2) 0 0 1 3 1 [newSVnv 8] "rk4" 1 1 1
      .rk4 (by decide) (by decide)).1 2 (-1) 2 _ _ _ (by decide) (by decide)
      (by
        intro j h1 h2
        have hj : j = 1 := by omega
        subst hj
        exact ⟨_, _, _, _, rfl⟩)
      rfl (by decide)
  ⟨s, h1, h2, h3⟩

/-- C5. For every step-type name that is not one of the names of the table of
`translate_step_type` (exact string equality), `translate_step_type` returns
the null result and `rc_ode_solver` croaks with the unknown-step-type error in
a state where no stepper is allocated, no stepper application (hence no
callback) has been made, the input container is untouched and no row exists;
no table is returned. -/
theorem rc_ode_solver_unknown_step_type (h : step_type ∉ step_type_names) :
    translate_step_type step_type = none ∧
      rc_ode_solver gsl check0 t0 t1 num_steps num_y y step_type h_init eps_abs eps_rel
        = .croaked (.unknown_step_type step_type)
            { check := 1, y := y, d := none, t := t0, yt := [], resultsAV := [],
              applied := [] } ∧
      (rc_ode_solver gsl check0 t0 t1 num_steps num_y y step_type h_init eps_abs
        eps_rel).table = none := by
  have hnone : translate_step_type step_type = none := by
    simp only [step_type_names, List.mem_cons, List.mem_singleton, not_or,
      List.not_mem_nil, not_false_eq_true, and_true] at h
    obtain ⟨h1, h2, h3, h4, h5, h6, h7, h8, h9, h10, h11⟩ := h
    simp [translate_step_type, h1, h2, h3, h4, h5, h6, h7, h8, h9, h10, h11]
  refine ⟨hnone, ?_, ?_⟩
  · simp [rc_ode_solver, hnone]
  · simp [rc_ode_solver, hnone, Outcome.table]

/-- C5, instance: the name `"RK4"` (wrong case) is rejected before anything is done. -/
theorem rc_ode_solver_unknown_step_type_witness :
    translate_step_type "RK4" = none ∧
      rc_ode_solver (halving_gsl 0) 0 0 1 2 1 [newSVnv 8] "RK4" 1 1 1
        = .croaked (.unknown_step_type "RK4")
            { check := 1, y := [newSVnv 8], d := none, t := 0, yt := [], resultsAV := [],
              applied := [] } ∧
      (rc_ode_solver (halving_gsl 0) 0 0 1 2 1 [newSVnv 8] "RK4" 1 1 1).table = none :=
  rc_ode_solver_unknown_step_type (halving_gsl 0) 0 0 1 2 1 [newSVnv 8] "RK4" 1 1 1
    (by decide)

end Claims

/-- C6 as stated fails: in `src/RUtils/RichGSL_Source/rc_ode_solver.c` the
names `"bsimp"` and `"msbdf"` are not resolved. -/
theorem translate_step_type_plain_names_fail :
    ¬ (translate_step_type "rk4" = some .rk4 ∧
       translate_step_type "rk8pd" = some .rk8pd ∧
       translate_step_type "rkf45" = some .rkf45 ∧
       translate_step_type "bsimp" = some .bsimp ∧
       translate_step_type "msadams" = some .msadams ∧
       translate_step_type "msbdf" = some .msbdf) ∧
    translate_step_type "bsimp" = none ∧ translate_step_type "msbdf" = none := by
  decide

/-- C6, amended. `translate_step_type` of
`src/RUtils/RichGSL_Source/rc_ode_solver.c` resolves `"rk4"`, `"rk8pd"`,
`"rkf45"` and `"msadams"` to the algorithms of those names, and resolves the
bsimp and msbdf algorithms under the names `"bsimp_j"` and `"msbdf_j"`; the
plain names `"bsimp"` and `"msbdf"` give the null result there, and are the
names of the table of `src/RHex_XS_src/rc_ode_solve.c`, which resolves all six
plain names. -/
theorem translate_step_type_names :
    (translate_step_type "rk4" = some .rk4 ∧
     translate_step_type "rk8pd" = some .rk8pd ∧
     translate_step_type "rkf45" = some .rkf45 ∧
     translate_step_type "msadams" = some .msadams ∧
     translate_step_type "bsimp_j" = some .bsimp ∧
     translate_step_type "msbdf_j" = some .msbdf ∧
     translate_step_type "bsimp" = none ∧
     translate_step_type "msbdf" = none) ∧
    (RHex_XS_src.translate_step_type "rk4" = some .rk4 ∧
     RHex_XS_src.translate_step_type "rk8pd" = some .rk8pd ∧
     RHex_XS_src.translate_step_type "rkf45" = some .rkf45 ∧
     RHex_XS_src.translate_step_type "bsimp" = some .bsimp ∧
     RHex_XS_src.translate_step_type "msadams" = some .msadams ∧
     RHex_XS_src.translate_step_type "msbdf" = some .msbdf) := by
  decide

/-- C7. For every `num_y` and every list returned by the derivative callback
whose length differs from `num_y`, `rc_func` croaks with the arity error
carrying the expected count `num_y` and the actual count, whatever the flag
`check` is, and the output vector `f` is as it was on entry. -/
theorem rc_func_arity (check : Int) (num_y : Nat) (perlfunc : List SV → List SV)
    (t : ℚ) (y : List ℚ) (f : List ℚ)
    (h : (perlfunc (push_args t y num_y)).length ≠ num_y) :
    rc_func check num_y perlfunc t y f
      = .croak (.func_arity (num_y : Int) ((perlfunc (push_args t y num_y)).length : Int)) f := by
  have h' : ((perlfunc (push_args t y num_y)).length : Int) ≠ (num_y : Int) := by
    exact_mod_cast h
  simp [rc_func, h']

/-- C7, instance: three values returned where two are expected. -/
theorem rc_func_arity_witness :
    rc_func 0 2 (fun _ => [newSVnv 1, newSVnv 2, newSVnv 3]) 0 [5, 6] [7, 7]
      = .croak (.func_arity 2 3) [7, 7] :=
  rc_func_arity 0 2 (fun _ => [newSVnv 1, newSVnv 2, newSVnv 3]) 0 [5, 6] [7, 7] (by decide)


/-- C9 as stated fails: under the strict flag a returned list of the right
length holding a string together with an element that is neither a string nor
a number makes `rc_func` croak, whether the string sits at the last index
(it is then seen first) or at index `0`. -/
theorem rc_func_string_and_undef_croaks :
    ([PL_sv_undef, newSVpv 0].length = 2 ∧ (newSVpv 0).isString = true ∧
      rc_func 1 2 (fun _ => [PL_sv_undef, newSVpv 0]) 0 [5, 6] [7, 7]
        = .croak .func_bad_element [7, ((GSL_EBADFUNC : Int) : ℚ)]) ∧
    ([newSVpv 0, PL_sv_undef].length = 2 ∧
      rc_func 1 2 (fun _ => [newSVpv 0, PL_sv_undef]) 0 [5, 6] [7, 7]
        = .croak .func_bad_element [7, 7]) := by
  refine ⟨⟨rfl, rfl, ?_⟩, rfl, ?_⟩
  · simp [rc_func, rc_func_loop, POPs, PL_sv_undef, newSVpv]
  · simp [rc_func, rc_func_loop, POPs, PL_sv_undef, newSVpv]

/-- C9, amended. For every returned list of length `num_y` that has a
string-typed element at some index, if the flag `check` is `0` or every element
of the list is string-typed or passes the numeric test, `rc_func` does not
croak but returns the status `GSL_EBADFUNC`. -/
theorem rc_func_string (check : Int) (num_y : Nat) (perlfunc : List SV → List SV)
    (t : ℚ) (y : List ℚ) (f : List ℚ)
    (hlen : (perlfunc (push_args t y num_y)).length = num_y)
    (hstr : ∃ e ∈ perlfunc (push_args t y num_y), e.isString = true)
    (hrest : check = 0 ∨
      ∀ e ∈ perlfunc (push_args t y num_y), e.isString = true ∨ e.numFlag = true) :
    ∃ f', rc_func check num_y perlfunc t y f = .ret GSL_EBADFUNC f' := by
  obtain ⟨f', h1, _, _, _⟩ := rc_func_loop_spec check
    (perlfunc (push_args t y num_y)).reverse GSL_SUCCESS f
    (by
      intro e he
      rcases hrest with h | h
      · exact Or.inr (Or.inl h)
      · rcases h e (List.mem_reverse.mp he) with h' | h'
        · exact Or.inl h'
        · exact Or.inr (Or.inr h'))
  have hany : ((perlfunc (push_args t y num_y)).reverse.any (fun e => e.pokp)) = true := by
    obtain ⟨e, he, hs⟩ := hstr
    rw [List.any_eq_true]
    exact ⟨e, List.mem_reverse.mpr he, hs⟩
  simp only [List.length_reverse, hlen, hany, if_true] at h1
  refine ⟨f', ?_⟩
  simp only [rc_func, hlen, ne_eq, not_true_eq_false, if_false]
  exact h1

/-- C9, amended, instance: a string at index `1` next to a number, strict flag on. -/
theorem rc_func_string_witness :
    ∃ f', rc_func 1 2 (fun _ => [newSVnv 3, newSVpv 0]) 0 [5, 6] [7, 7]
      = .ret GSL_EBADFUNC f' :=
  rc_func_string 1 2 (fun _ => [newSVnv 3, newSVpv 0]) 0 [5, 6] [7, 7]
    (by decide) ⟨newSVpv 0, by decide, rfl⟩ (Or.inr (by decide))


/-- C10. For every number of values returned by the Jacobian callback other
than exactly `2`, `rc_jac` croaks with the arity error carrying that number,
whatever the flag `check` is, with `dfdt`, `dfdy` and `check` as they were on
entry; with exactly `2` returned values `rc_jac` raises no arity error. -/
theorem rc_jac_arity (num_y : Nat) (perljac : List SV → Heap → List SV × Heap)
    (t : ℚ) (y : List ℚ) (s : JacState) :
    ((perljac (push_args t y num_y) s.heap).1.length ≠ 2 →
      rc_jac num_y perljac t y s
        = .croak (.jac_arity ((perljac (push_args t y num_y) s.heap).1.length : Int))
            { check := s.check, heap := (perljac (push_args t y num_y) s.heap).2,
              dfdt := s.dfdt, dfdy := s.dfdy }) ∧
    ((perljac (push_args t y num_y) s.heap).1.length = 2 →
      ∀ (got : Int) (bufs : JacState),
        rc_jac num_y perljac t y s ≠ .croak (.jac_arity got) bufs) := by
  constructor
  · intro h
    have h' : ((perljac (push_args t y num_y) s.heap).1.length : Int) ≠ 2 := by
      exact_mod_cast h
    simp [rc_jac, h']
  · intro h got bufs hc
    have h' : ((perljac (push_args t y num_y) s.heap).1.length : Int) = 2 := by
      exact_mod_cast h
    unfold rc_jac at hc
    simp only [h', ne_eq, not_true_eq_false, if_false] at hc
    split at hc
    · split at hc
      · simp at hc
      · split at hc
        · exact rc_jac_dfdy_no_arity _ _ _ _ _ hc
        · exact rc_jac_dfdt_loop_no_arity _ _ _ _ _ _ hc
    · split at hc
      · simp at hc
      · split at hc
        · exact rc_jac_dfdy_no_arity _ _ _ _ _ hc
        · exact rc_jac_dfdt_loop_no_arity _ _ _ _ _ _ hc


/-- C10, instance: three returned values are rejected with the buffers
untouched, and a well-formed pair raises no arity error. -/
theorem rc_jac_arity_witness :
    rc_jac 1 (fun _ h => ([newSVnv 1, newSVnv 2, newSVnv 3], h)) 0 [5]
        { check := 0, heap := [], dfdt := [7], dfdy := [7] }
      = .croak (.jac_arity 3) { check := 0, heap := [], dfdt := [7], dfdy := [7] } ∧
    ∀ (got : Int) (bufs : JacState),
      rc_jac 1 (fun _ _ => ([newRV_inc 0, newRV_inc 2],
          [.av [newRV_inc 1], .av [newSVnv 4], .av [newSVnv 3]])) 0 [5]
        { check := 1, heap := [], dfdt := [7], dfdy := [7] }
      ≠ .croak (.jac_arity got) bufs :=
  ⟨(rc_jac_arity 1 (fun _ h => ([newSVnv 1, newSVnv 2, newSVnv 3], h)) 0 [5]
      { check := 0, heap := [], dfdt := [7], dfdy := [7] }).1 (by decide),
   (rc_jac_arity 1 (fun _ _ => ([newRV_inc 0, newRV_inc 2],
      [.av [newRV_inc 1], .av [newSVnv 4], .av [newSVnv 3]])) 0 [5]
      { check := 1, heap := [], dfdt := [7], dfdy := [7] }).2 (by decide)⟩

/-! ## Further lemmas on a run of `rc_ode_solver` -/

section Frame

variable {σ : Type} (gsl : Gsl σ) (t0 t_step : ℚ) (num_y : Nat)

/-- A pass whose stepper application croaks leaves the function through that
croak, with the table as it stands. -/
theorem loop_body_of_croak (j : Int) (s : SolverState σ) (d d1 : σ) (e : Croak) (c1 : Int)
    (hd : s.d = some d)
    (ha : gsl.gsl_odeiv2_driver_apply d s.check s.t (target_time t0 t_step j) s.yt
        = .croaked e d1 c1) :
    loop_body gsl t0 t_step num_y j s = .stop (.croaked e
      { check := c1, y := s.y, d := some d1, t := s.t, yt := s.yt,
        resultsAV := s.resultsAV,
        applied := s.applied ++ [target_time t0 t_step j] }) := by
  unfold loop_body
  simp [hd, ha]

/-- The stepping loop neither touches the input container nor releases the
stepper, however it ends. -/
theorem loop_frame :
    ∀ (n : Nat) (j : Int) (s : SolverState σ), s.d ≠ none →
      (∀ s1, rc_ode_solver_loop gsl t0 t_step num_y n j s = .returned s1 →
        s1.y = s.y ∧ s1.d ≠ none) ∧
      (∀ e s1, rc_ode_solver_loop gsl t0 t_step num_y n j s = .croaked e s1 →
        s1.y = s.y ∧ s1.d ≠ none) := by
  intro n
  induction n with
  | zero =>
    intro j s hd
    constructor
    · intro s1 h
      simp only [rc_ode_solver_loop, Outcome.returned.injEq] at h
      subst h
      exact ⟨rfl, hd⟩
    · intro e s1 h
      simp [rc_ode_solver_loop] at h
  | succ n ih =>
    intro j s hd
    obtain ⟨d, hd'⟩ := Option.ne_none_iff_exists'.mp hd
    cases ha : gsl.gsl_odeiv2_driver_apply d s.check s.t (target_time t0 t_step j) s.yt with
    | undefined =>
      have hb : loop_body gsl t0 t_step num_y j s = .stop .undefined := by
        unfold loop_body; simp [hd', ha]
      constructor
      · intro s1 h; simp [rc_ode_solver_loop, hb] at h
      · intro e s1 h; simp [rc_ode_solver_loop, hb] at h
    | croaked e d1 c1 =>
      have hb := loop_body_of_croak gsl t0 t_step num_y j s d d1 e c1 hd' ha
      constructor
      · intro s1 h; simp [rc_ode_solver_loop, hb] at h
      · intro e' s1 h
        simp only [rc_ode_solver_loop, hb, Outcome.croaked.injEq] at h
        obtain ⟨_, h⟩ := h
        subst h
        exact ⟨rfl, by simp⟩
    | returned st d1 t' yt1 c1 =>
      by_cases hst : st = GSL_SUCCESS
      · subst hst
        have hb := loop_body_of_success gsl t0 t_step num_y j s d d1 t' yt1 c1 hd' ha
        obtain ⟨ih1, ih2⟩ := ih (j + 1)
          { check := c1, y := s.y, d := some d1, t := t', yt := yt1,
            resultsAV := s.resultsAV ++ [make_row (target_time t0 t_step j) yt1 num_y],
            applied := s.applied ++ [target_time t0 t_step j] } (by simp)
        constructor
        · intro s1 h
          simp only [rc_ode_solver_loop, hb] at h
          exact ih1 s1 h
        · intro e s1 h
          simp only [rc_ode_solver_loop, hb] at h
          exact ih2 e s1 h
      · have hb := loop_body_of_failure gsl t0 t_step num_y j s d d1 st t' yt1 c1 hd' hst ha
        constructor
        · intro s1 h
          simp only [rc_ode_solver_loop, hb, Outcome.returned.injEq] at h
          subst h
          exact ⟨rfl, by simp⟩
        · intro e s1 h; simp [rc_ode_solver_loop, hb] at h

end Frame

/-- When the container holds at least `n` elements the working state is made of
its first `n` elements, in order. -/
theorem load_yt_fst_take : ∀ (n : Nat) (y : List SV), n ≤ y.length →
    (load_yt n y).1 = (y.take n).map SV.nv := by
  intro n
  induction n with
  | zero => intro y _; simp [load_yt]
  | succ n ih =>
    intro y hy
    cases y with
    | nil => simp at hy
    | cons e rest =>
      simp only [List.length_cons, Nat.add_le_add_iff_right] at hy
      simp [load_yt, av_shift, ih rest hy]

section CallFrame

variable {σ : Type} (gsl : Gsl σ) (check0 : Int) (t0 t1 : ℚ) (num_steps : Int)
  (num_y : Nat) (y : List SV) (step_type : String) (h_init eps_abs eps_rel : ℚ)

/-- However a call with a recognised step type ends, the input container has
lost its first `num_y` elements and the stepper is still allocated. -/
theorem rc_ode_solver_frame (T : gsl_odeiv2_step_type)
    (hT : translate_step_type step_type = some T) :
    (∀ s, rc_ode_solver gsl check0 t0 t1 num_steps num_y y step_type h_init eps_abs eps_rel
        = .returned s → s.y = y.drop num_y ∧ s.d ≠ none) ∧
    (∀ e s, rc_ode_solver gsl check0 t0 t1 num_steps num_y y step_type h_init eps_abs eps_rel
        = .croaked e s → s.y = y.drop num_y ∧ s.d ≠ none) := by
  obtain ⟨_, _, _, hy, hd⟩ := rc_ode_solver_init_spec gsl t0 num_y y h_init eps_abs eps_rel T
  obtain ⟨h1, h2⟩ := loop_frame gsl t0 ((t1 - t0) / (num_steps : ℚ)) num_y num_steps.toNat 1
    (rc_ode_solver_init gsl T t0 num_y y h_init eps_abs eps_rel) (by rw [hd]; simp)
  rw [← rc_ode_solver_eq_loop gsl check0 t0 t1 num_steps num_y y step_type h_init eps_abs
    eps_rel T hT] at h1 h2
  rw [hy] at h1 h2
  exact ⟨h1, h2⟩

/-- A run whose stepper croaks at reporting index `m + 1`, reached after `m`
passes, leaves `rc_ode_solver` through that croak; the table then stands as the
`m` passes built it. -/
theorem run_croak (T : gsl_odeiv2_step_type)
    (hT : translate_step_type step_type = some T) (m : Nat) (hm : (m : Int) < num_steps)
    (sp : SolverState σ) (e : Croak) (d1 : σ) (c1 : Int)
    (hp : run_state gsl t0 t1 num_steps num_y y step_type h_init eps_abs eps_rel m = some sp)
    (ha : nth_apply gsl t0 t1 num_steps num_y y step_type h_init eps_abs eps_rel (m + 1)
      = some (.croaked e d1 c1)) :
    ∃ s, rc_ode_solver gsl check0 t0 t1 num_steps num_y y step_type h_init eps_abs eps_rel
        = .croaked e s ∧
      s.resultsAV = sp.resultsAV := by
  unfold nth_apply at ha
  simp only [Nat.add_sub_cancel, hp] at ha
  cases hd : sp.d with
  | none => simp [hd] at ha
  | some d =>
    simp only [hd, Option.some.injEq] at ha
    push_cast at ha
    have hb := loop_body_of_croak gsl t0 ((t1 - t0) / (num_steps : ℚ)) num_y
      ((m : Int) + 1) sp d d1 e c1 hd ha
    exact ⟨_, run_stop gsl check0 t0 t1 num_steps num_y y step_type h_init eps_abs eps_rel
      T hT m hm sp _ hp hb, rfl⟩

end CallFrame

/-! ## Further claims -/

section Claims2

variable {σ : Type} (gsl : Gsl σ) (check0 : Int) (t0 t1 : ℚ) (num_steps : Int)
  (num_y : Nat) (y : List SV) (step_type : String) (h_init eps_abs eps_rel : ℚ)

/-- C15 fails on the code: `rc_ode_solver` of
`src/RUtils/RichGSL_Source/rc_ode_solver.c` never releases the stepper. Both
after a run of two successful steps and after an early return on a failed
first step the stepper is still allocated when the table is returned. -/
theorem rc_ode_solver_leaves_stepper_allocated :
    (∃ s, rc_ode_solver (halving_gsl 0) 0 0 1 2 1 [newSVnv 8] "rk4" 1 1 1 = .returned s ∧
      s.resultsAV.length = 3 ∧ s.d = some 2) ∧
    (∃ s, rc_ode_solver (halving_gsl 1) 0 0 1 2 1 [newSVnv 8] "rk4" 1 1 1 = .returned s ∧
      s.resultsAV.length = 1 ∧ s.d = some 1) :=
  ⟨⟨_, rfl, rfl, rfl⟩, ⟨_, rfl, rfl, rfl⟩⟩

/-- C16 as stated fails: when the derivative callback answers with two values
instead of one during the second reporting step, after a successful first
step, `rc_ode_solver` is left through the arity croak and returns no table,
although two rows had been built. -/
theorem rc_ode_solver_arity_croak_returns_nothing :
    (rc_ode_solver (euler_gsl 1 decay_bad_arity) 0 0 1 3 1 [newSVnv 8] "rk4" 1 1 1).table
        = none ∧
    ∃ s, rc_ode_solver (euler_gsl 1 decay_bad_arity) 0 0 1 3 1 [newSVnv 8] "rk4" 1 1 1
        = .croaked (.func_arity 1 2) s ∧
      s.resultsAV.length = 2 :=
  ⟨rfl, _, rfl, rfl⟩

/-- C16, amended. If the derivative callback returns a list whose length differs
from `num_y` during reporting step `k`, so that the stepper application is left
through the arity croak of `rc_func`, after the steps below `k` have succeeded,
then `rc_ode_solver` is left through that arity croak and returns no table; at
that moment the table holds, intact, the `k` rows built before the bad call
(the initial row and the `k-1` step rows). -/
theorem rc_ode_solver_arity_croak (T : gsl_odeiv2_step_type)
    (hT : translate_step_type step_type = some T)
    (k : Nat) (got : Int) (d1 : σ) (c1 : Int) (hk1 : 1 ≤ k) (hkN : (k : Int) ≤ num_steps)
    (hok : ∀ j : Nat, 1 ≤ j → j < k →
      step_succeeds gsl t0 t1 num_steps num_y y step_type h_init eps_abs eps_rel j)
    (hbad : nth_apply gsl t0 t1 num_steps num_y y step_type h_init eps_abs eps_rel k
      = some (.croaked (.func_arity (num_y : Int) got) d1 c1)) :
    ∃ s sp, rc_ode_solver gsl check0 t0 t1 num_steps num_y y step_type h_init eps_abs eps_rel
        = .croaked (.func_arity (num_y : Int) got) s ∧
      (rc_ode_solver gsl check0 t0 t1 num_steps num_y y step_type h_init eps_abs
        eps_rel).table = none ∧
      run_state gsl t0 t1 num_steps num_y y step_type h_init eps_abs eps_rel (k - 1)
        = some sp ∧
      s.resultsAV = sp.resultsAV ∧
      s.resultsAV.length = k ∧
      s.resultsAV[0]? = some (initial_row t0 num_y y) := by
  obtain ⟨m, rfl⟩ : ∃ m, k = m + 1 := ⟨k - 1, by omega⟩
  obtain ⟨sp, hp⟩ := run_state_of_succeeds gsl t0 t1 num_steps num_y y step_type h_init
    eps_abs eps_rel T hT m (fun j h1 h2 => hok j h1 (by omega))
  obtain ⟨s, hs, hres⟩ := run_croak gsl check0 t0 t1 num_steps num_y y step_type
    h_init eps_abs eps_rel T hT m (by omega) sp _ d1 c1 hp hbad
  obtain ⟨hlen, h0, _, _⟩ := run_state_table gsl t0 t1 num_steps num_y y step_type
    h_init eps_abs eps_rel T hT _ sp hp
  refine ⟨s, sp, hs, by rw [hs]; rfl, by simpa using hp, hres, by rw [hres, hlen],
    by rw [hres]; exact h0⟩

/-- C16, amended, instance: the bad answer comes at the second of three steps. -/
theorem rc_ode_solver_arity_croak_witness :
    ∃ s sp, rc_ode_solver (euler_gsl 1 decay_bad_arity) 0 0 1 3 1 [newSVnv 8] "rk4" 1 1 1
        = .croaked (.func_arity ((1 : Nat) : Int) 2) s ∧
      (rc_ode_solver (euler_gsl 1 decay_bad_arity) 0 0 1 3 1 [newSVnv 8] "rk4" 1 1 1).table
        = none ∧
      run_state (euler_gsl 1 decay_bad_arity) 0 1 3 1 [newSVnv 8] "rk4" 1 1 1 (2 - 1)
        = some sp ∧
      s.resultsAV = sp.resultsAV ∧
      s.resultsAV.length = 2 ∧
      s.resultsAV[0]? = some (initial_row 0 1 [newSVnv 8]) :=
  rc_ode_solver_arity_croak (euler_gsl 1 decay_bad_arity) 0 0 1 3 1 [newSVnv 8] "rk4" 1 1 1
    .rk4 (by decide) 2 2 1 1 (by decide) (by decide)
    (by
      intro j h1 h2
      have hj : j = 1 := by omega
      subst hj
      exact ⟨_, _, _, _, rfl⟩)
    rfl

/-- C19. With a recognised step type, reading the initial state shifts the
elements off the caller's container: the stepping loop is entered with the
container reduced to its elements from index `num_y` on, the working state
holding the `SvNV` of the removed elements in their original order; and however
the run ends (a returned table, or a croak of the stepper) the container is in
that reduced state, empty when it had exactly `num_y` elements. -/
theorem rc_ode_solver_consumes_input (T : gsl_odeiv2_step_type)
    (hT : translate_step_type step_type = some T) :
    (rc_ode_solver_init gsl T t0 num_y y h_init eps_abs eps_rel).y = y.drop num_y ∧
    (num_y ≤ y.length →
      (rc_ode_solver_init gsl T t0 num_y y h_init eps_abs eps_rel).yt
        = (y.take num_y).map SV.nv) ∧
    (∀ s, rc_ode_solver gsl check0 t0 t1 num_steps num_y y step_type h_init eps_abs eps_rel
        = .returned s → s.y = y.drop num_y ∧ (y.length = num_y → s.y = [])) ∧
    (∀ e s, rc_ode_solver gsl check0 t0 t1 num_steps num_y y step_type h_init eps_abs eps_rel
        = .croaked e s → s.y = y.drop num_y ∧ (y.length = num_y → s.y = [])) ∧
    ((∀ d c t tj yt, ∃ st d1 t' yt1 c1,
        gsl.gsl_odeiv2_driver_apply d c t tj yt = .returned st d1 t' yt1 c1) →
      ∃ s, rc_ode_solver gsl check0 t0 t1 num_steps num_y y step_type h_init eps_abs eps_rel
          = .returned s ∧ s.y = y.drop num_y) := by
  obtain ⟨_, _, _, hy, hd⟩ := rc_ode_solver_init_spec gsl t0 num_y y h_init eps_abs eps_rel T
  obtain ⟨h1, h2⟩ := rc_ode_solver_frame gsl check0 t0 t1 num_steps num_y y step_type
    h_init eps_abs eps_rel T hT
  have hempty : y.length = num_y → y.drop num_y = [] := by
    intro h
    rw [← h]
    exact List.drop_length y
  refine ⟨hy, ?_, ?_, ?_, ?_⟩
  · intro hlen
    have h := load_yt_fst_take num_y y hlen
    unfold rc_ode_solver_init
    cases hl : load_yt num_y y with
    | mk yt y1 =>
      rw [hl] at h
      simpa using h
  · intro s hs
    exact ⟨(h1 s hs).1, fun hl => by rw [(h1 s hs).1]; exact hempty hl⟩
  · intro e s hs
    exact ⟨(h2 e s hs).1, fun hl => by rw [(h2 e s hs).1]; exact hempty hl⟩
  · intro hret
    obtain ⟨s, hs⟩ := loop_returns gsl t0 num_y ((t1 - t0) / (num_steps : ℚ)) hret
      num_steps.toNat 1 (rc_ode_solver_init gsl T t0 num_y y h_init eps_abs eps_rel)
      (by rw [hd]; simp)
    rw [← rc_ode_solver_eq_loop gsl check0 t0 t1 num_steps num_y y step_type h_init eps_abs
      eps_rel T hT] at hs
    exact ⟨s, hs, (h1 s hs).1⟩

/-- C19, instance: of a container of three elements read with `num_y = 2`, the
last element is what the caller keeps. -/
theorem rc_ode_solver_consumes_input_witness :
    ∃ s, rc_ode_solver (halving_gsl 0) 0 0 1 2 2 [newSVnv 8, newSVnv 6, newSVnv 5] "rk4"
        1 1 1 = .returned s ∧
      s.y = [newSVnv 8, newSVnv 6, newSVnv 5].drop 2 :=
  (rc_ode_solver_consumes_input (halving_gsl 0) 0 0 1 2 2
    [newSVnv 8, newSVnv 6, newSVnv 5] "rk4" 1 1 1 .rk4 (by decide)).2.2.2.2
    (by
      intro d c t tj yt
      refine ⟨GSL_SUCCESS, d + 1, tj, yt.map (fun v => v / 2), c, ?_⟩
      simp [halving_gsl])

end Claims2

/-! ## Lemmas on the heap effects of `rc_jac` -/

/-- Shifting through a pointer to an array holding `l`: the element is the head
of `l` (the undefined scalar when `l` is empty), the array keeps the tail. -/
theorem av_shift_at_array (heap : Heap) (a : Nat) (l : List SV)
    (h : heap[a]? = some (.av l)) :
    av_shift_at heap (some a)
      = some (l.getD 0 PL_sv_undef, heap.set a (.av (l.drop 1))) := by
  unfold av_shift_at
  simp only [List.get?_eq_getElem?, h]
  cases l with
  | nil => simp [av_shift]
  | cons e rest => simp [av_shift]

/-- The address of an object of the heap is below the heap's length. -/
theorem heap_lt_length (heap : Heap) (a : Nat) (o : Obj) (h : heap[a]? = some o) :
    a < heap.length := by
  by_contra hc
  rw [List.getElem?_eq_none (by omega)] at h
  cases h

/-- The loop filling `dfdt` from the array at `a` holding `l`, when no element
trips the strict test: it returns, having shifted `n` elements off the array
and stored their `SvNV` in `dfdt[i .. i+n-1]`; nothing else changes. -/
theorem rc_jac_dfdt_loop_spec (a : Nat) :
    ∀ (n i : Nat) (s : JacState) (l : List SV),
      s.heap[a]? = some (.av l) →
      (s.check = 0 ∨ ∀ k, k < n →
        ((l.getD k PL_sv_undef).nokp || (l.getD k PL_sv_undef).iokp) = true) →
      ∃ s', rc_jac_dfdt_loop (some a) n i s = .ret GSL_SUCCESS s' ∧
        s'.check = s.check ∧ s'.dfdy = s.dfdy ∧
        s'.heap.length = s.heap.length ∧
        s'.heap[a]? = some (.av (l.drop n)) ∧
        (∀ b, b ≠ a → s'.heap[b]? = s.heap[b]?) ∧
        s'.dfdt.length = s.dfdt.length ∧
        (∀ k, k < n → i + k < s.dfdt.length →
          s'.dfdt[i + k]? = some (l.getD k PL_sv_undef).nv) ∧
        (∀ m, m < i → s'.dfdt[m]? = s.dfdt[m]?) := by
  intro n
  induction n with
  | zero =>
    intro i s l h _
    exact ⟨s, by simp [rc_jac_dfdt_loop], rfl, rfl, rfl, by simpa using h,
      fun _ _ => rfl, rfl, fun k hk => by omega, fun _ _ => rfl⟩
  | succ n ih =>
    intro i s l h hgood
    have ha : a < s.heap.length := heap_lt_length _ _ _ h
    have hc : ¬ (s.check ≠ 0 ∧ (!((l.getD 0 PL_sv_undef).nokp ||
        (l.getD 0 PL_sv_undef).iokp)) = true) := by
      rcases hgood with h0 | h0
      · exact fun hh => hh.1 h0
      · intro hh
        rw [h0 0 (by omega)] at hh
        simp at hh
    obtain ⟨s', h1, h2, h3, h4, h5, h6, h7, h8, h9⟩ := ih (i + 1)
      { s with heap := s.heap.set a (.av (l.drop 1)),
               dfdt := s.dfdt.set i (l.getD 0 PL_sv_undef).nv }
      (l.drop 1) (by simp [List.getElem?_set_self ha])
      (by
        rcases hgood with h0 | h0
        · exact Or.inl h0
        · refine Or.inr (fun k hk => ?_)
          have := h0 (k + 1) (by omega)
          simpa [List.getD_eq_getElem?_getD, Nat.add_comm] using this)
    refine ⟨s', ?_, h2, h3, by simpa using h4, ?_, ?_, by simpa using h7, ?_, ?_⟩
    · simp only [rc_jac_dfdt_loop, av_shift_at_array s.heap a l h]
      rw [if_neg hc]
      exact h1
    · simpa [Nat.add_comm] using h5
    · intro b hb
      rw [h6 b hb]
      simp [List.getElem?_set_ne (Ne.symm hb)]
    · intro k hk hik
      cases k with
      | zero =>
        rw [Nat.add_zero, h9 i (by omega)]
        exact List.getElem?_set_self hik
      | succ k =>
        have := h8 k (by omega) (by simpa using (by omega : i + 1 + k < s.dfdt.length))
        rw [show i + (k + 1) = i + 1 + k by omega, this]
        simp [List.getD_eq_getElem?_getD, Nat.add_comm]
    · intro m hm
      rw [h9 m (by omega)]
      simp [List.getElem?_set_ne (by omega : i ≠ m)]

/-- The loop filling row `j` of `dfdy` from the array at `a` holding `l`, when
no element trips the strict test: it returns, having shifted `n` elements off
the array and stored their `SvNV` in `dfdy[j*num_y + i ..]`; nothing else
changes. -/
theorem rc_jac_row_loop_spec (num_y a j : Nat) :
    ∀ (n i : Nat) (s : JacState) (l : List SV),
      s.heap[a]? = some (.av l) →
      (s.check = 0 ∨ ∀ k, k < n →
        ((l.getD k PL_sv_undef).nokp || (l.getD k PL_sv_undef).iokp) = true) →
      ∃ s', rc_jac_row_loop num_y (some a) j n i s = .ret GSL_SUCCESS s' ∧
        s'.check = s.check ∧ s'.dfdt = s.dfdt ∧
        s'.heap.length = s.heap.length ∧
        s'.heap[a]? = some (.av (l.drop n)) ∧
        (∀ b, b ≠ a → s'.heap[b]? = s.heap[b]?) ∧
        s'.dfdy.length = s.dfdy.length ∧
        (∀ k, k < n → j * num_y + (i + k) < s.dfdy.length →
          s'.dfdy[j * num_y + (i + k)]? = some (l.getD k PL_sv_undef).nv) ∧
        (∀ m, m < j * num_y + i → s'.dfdy[m]? = s.dfdy[m]?) := by
  intro n
  induction n with
  | zero =>
    intro i s l h _
    exact ⟨s, by simp [rc_jac_row_loop], rfl, rfl, rfl, by simpa using h,
      fun _ _ => rfl, rfl, fun k hk => by omega, fun _ _ => rfl⟩
  | succ n ih =>
    intro i s l h hgood
    have ha : a < s.heap.length := heap_lt_length _ _ _ h
    have hc : ¬ (s.check ≠ 0 ∧ (!((l.getD 0 PL_sv_undef).nokp ||
        (l.getD 0 PL_sv_undef).iokp)) = true) := by
      rcases hgood with h0 | h0
      · exact fun hh => hh.1 h0
      · intro hh
        rw [h0 0 (by omega)] at hh
        simp at hh
    obtain ⟨s', h1, h2, h3, h4, h5, h6, h7, h8, h9⟩ := ih (i + 1)
      { s with heap := s.heap.set a (.av (l.drop 1)),
               dfdy := s.dfdy.set (j * num_y + i) (l.getD 0 PL_sv_undef).nv }
      (l.drop 1) (by simp [List.getElem?_set_self ha])
      (by
        rcases hgood with h0 | h0
        · exact Or.inl h0
        · refine Or.inr (fun k hk => ?_)
          have := h0 (k + 1) (by omega)
          simpa [List.getD_eq_getElem?_getD, Nat.add_comm] using this)
    refine ⟨s', ?_, h2, h3, by simpa using h4, ?_, ?_, by simpa using h7, ?_, ?_⟩
    · simp only [rc_jac_row_loop, av_shift_at_array s.heap a l h]
      rw [if_neg hc]
      exact h1
    · simpa [Nat.add_comm] using h5
    · intro b hb
      rw [h6 b hb]
      simp [List.getElem?_set_ne (Ne.symm hb)]
    · intro k hk hik
      cases k with
      | zero =>
        rw [Nat.add_zero, h9 (j * num_y + i) (by omega)]
        exact List.getElem?_set_self (by simpa using hik)
      | succ k =>
        have := h8 k (by omega)
          (by simpa using (by omega : j * num_y + (i + 1 + k) < s.dfdy.length))
        rw [show i + (k + 1) = i + 1 + k by omega, this]
        simp [List.getD_eq_getElem?_getD, Nat.add_comm]
    · intro m hm
      rw [h9 m (by omega)]
      simp [List.getElem?_set_ne (by omega : j * num_y + i ≠ m)]

/-- The loop over the rows of `dfdy`, from the outer array at `ay` holding
`shells`, whose first `n` elements refer to the pairwise distinct arrays at
`ar j, ar (j+1), ...` holding `rows j, rows (j+1), ...`: when no element trips
the strict test it returns, having shifted `n` shells off the outer array and
`num_y` elements off each of the `n` rows, and stored their `SvNV` row-major
in `dfdy`; nothing else changes. -/
theorem rc_jac_dfdy_loop_spec (num_y ay : Nat) (ar : Nat → Nat) (rows : Nat → List SV) :
    ∀ (n j : Nat) (s : JacState) (shells : List SV),
      s.heap[ay]? = some (.av shells) →
      (∀ k, k < n → ∃ sh, shells[k]? = some sh ∧ sh.rv = some (ar (j + k)) ∧
        s.heap[ar (j + k)]? = some (.av (rows (j + k)))) →
      (∀ k, k < n → ar (j + k) ≠ ay) →
      (∀ k k', k < n → k' < n → k ≠ k' → ar (j + k) ≠ ar (j + k')) →
      (s.check = 0 ∨ ∀ k, k < n → ∀ i, i < num_y →
        (((rows (j + k)).getD i PL_sv_undef).nokp ||
          ((rows (j + k)).getD i PL_sv_undef).iokp) = true) →
      ∃ s', rc_jac_dfdy_loop num_y (some ay) n j s = .ret GSL_SUCCESS s' ∧
        s'.check = s.check ∧ s'.dfdt = s.dfdt ∧
        s'.heap.length = s.heap.length ∧
        s'.heap[ay]? = some (.av (shells.drop n)) ∧
        (∀ k, k < n → s'.heap[ar (j + k)]? = some (.av ((rows (j + k)).drop num_y))) ∧
        (∀ b, b ≠ ay → (∀ k, k < n → b ≠ ar (j + k)) → s'.heap[b]? = s.heap[b]?) ∧
        s'.dfdy.length = s.dfdy.length ∧
        (∀ k, k < n → ∀ i, i < num_y → (j + k) * num_y + i < s.dfdy.length →
          s'.dfdy[(j + k) * num_y + i]? = some ((rows (j + k)).getD i PL_sv_undef).nv) ∧
        (∀ m, m < j * num_y → s'.dfdy[m]? = s.dfdy[m]?) := by
  intro n
  induction n with
  | zero =>
    intro j s shells h _ _ _ _
    exact ⟨s, by simp [rc_jac_dfdy_loop], rfl, rfl, rfl, by simpa using h,
      fun k hk => by omega, fun _ _ _ => rfl, rfl, fun k hk => by omega, fun _ _ => rfl⟩
  | succ n ih =>
    intro j s shells h hrows hay hinj hgood
    have hlt : ay < s.heap.length := heap_lt_length _ _ _ h
    obtain ⟨sh0, hsh0, hrv0, hrow0⟩ := hrows 0 (by omega)
    simp only [Nat.add_zero] at hrv0 hrow0
    have hay0 : ar j ≠ ay := by simpa using hay 0 (by omega)
    have hhead : shells.getD 0 PL_sv_undef = sh0 := by
      simp [List.getD_eq_getElem?_getD, hsh0]
    -- the state after the outer shift
    have hs1row : (s.heap.set ay (.av (shells.drop 1)))[ar j]? = some (.av (rows j)) := by
      rw [List.getElem?_set_ne (Ne.symm hay0)]
      exact hrow0
    obtain ⟨s2, r1, r2, r3, r4, r5, r6, r7, r8, r9⟩ :=
      rc_jac_row_loop_spec num_y (ar j) j num_y 0
        { s with heap := s.heap.set ay (.av (shells.drop 1)) } (rows j) hs1row
        (by
          rcases hgood with h0 | h0
          · exact Or.inl h0
          · exact Or.inr (fun i hi => by simpa using h0 0 (by omega) i hi))
    simp only [List.length_set] at r4
    have hjk : ∀ k, j + 1 + k = j + (k + 1) := fun k => by omega
    obtain ⟨s', q1, q2, q3, q4, q5, q6, q7, q8, q9, q10⟩ := ih (j + 1) s2 (shells.drop 1)
      (by
        rw [r6 ay (Ne.symm hay0)]
        exact List.getElem?_set_self hlt)
      (by
        intro k hk
        obtain ⟨sh, h1, h2, h3⟩ := hrows (k + 1) (by omega)
        refine ⟨sh, by simpa [Nat.add_comm] using h1, by rw [hjk]; exact h2, ?_⟩
        rw [hjk, r6 _ (hinj (k + 1) 0 (by omega) (by omega) (by omega)),
          List.getElem?_set_ne (Ne.symm (hay (k + 1) (by omega)))]
        exact h3)
      (by intro k hk; rw [hjk]; exact hay (k + 1) (by omega))
      (by
        intro k k' hk hk' hne
        rw [hjk, hjk]
        exact hinj (k + 1) (k' + 1) (by omega) (by omega) (by omega))
      (by
        rcases hgood with h0 | h0
        · exact Or.inl (by rw [r2]; exact h0)
        · exact Or.inr (fun k hk i hi => by rw [hjk]; exact h0 (k + 1) (by omega) i hi))
    have hmul : (j + 1) * num_y = j * num_y + num_y := Nat.succ_mul j num_y
    refine ⟨s', ?_, by rw [q2, r2], by rw [q3, r3], by rw [q4, r4], ?_, ?_, ?_,
      by rw [q8, r7], ?_, ?_⟩
    · simp only [rc_jac_dfdy_loop, av_shift_at_array s.heap ay shells h, hhead, hrv0, r1]
      exact q1
    · simpa [Nat.add_comm] using q5
    · intro k hk
      cases k with
      | zero =>
        rw [Nat.add_zero, q7 (ar j) hay0
          (fun k hk => by rw [hjk]; exact hinj 0 (k + 1) (by omega) (by omega) (by omega))]
        exact r5
      | succ k =>
        have := q6 k (by omega)
        rw [hjk] at this
        exact this
    · intro b hb hbr
      rw [q7 b hb (fun k hk => by rw [hjk]; exact hbr (k + 1) (by omega)),
        r6 b (by simpa using hbr 0 (by omega)), List.getElem?_set_ne (Ne.symm hb)]
    · intro k hk i hi hidx
      cases k with
      | zero =>
        simp only [Nat.add_zero] at hidx ⊢
        rw [q10 _ (by omega)]
        have := r8 i hi (by simpa using hidx)
        simpa using this
      | succ k =>
        have := q9 k (by omega) i hi (by rw [hjk, r7]; exact hidx)
        rw [hjk] at this
        exact this
    · intro m hm
      rw [q10 m (by omega), r9 m (by omega)]

/-- A well-formed layout passes the tests of `rc_jac` under any flag. -/
theorem JacLayout.passes_of_well_formed (L : JacLayout) (num_y : Nat) (check : Int)
    (h : L.well_formed num_y) : L.passes num_y check := by
  obtain ⟨h1, h2, h3, h4⟩ := h
  refine Or.inr ⟨h1, h2, ?_, ?_⟩
  · intro i hi
    have hi' : i < L.dt.length := by omega
    rw [List.getD_eq_getElem?_getD, List.getElem?_eq_getElem hi']
    exact h3 _ (List.getElem_mem _)
  · intro j hj i hi
    obtain ⟨hl, hn⟩ := h4 j hj
    have hi' : i < (L.rows j).length := by omega
    rw [List.getD_eq_getElem?_getD, List.getElem?_eq_getElem hi']
    exact hn _ (List.getElem_mem _)

/-- `rc_jac` on a result laid out as `L` that passes the tests made under the
current flag: it returns `GSL_SUCCESS`; the flag goes from `1` to `0`; `dfdt[i]`
and `dfdy[j*num_y + i]` hold the `SvNV` of element `i` of the `dfdt` array and
of row `j`; the `dfdt` array, the outer array and the rows have lost their
first `num_y` elements; nothing else on the heap changes. -/
theorem rc_jac_spec (num_y : Nat) (perljac : List SV → Heap → List SV × Heap)
    (t : ℚ) (y : List ℚ) (s : JacState) (r : List SV) (heap0 : Heap) (L : JacLayout)
    (hr : perljac (push_args t y num_y) s.heap = (r, heap0))
    (hL : L.holds num_y r heap0) (hp : L.passes num_y s.check) :
    ∃ s', rc_jac num_y perljac t y s = .ret GSL_SUCCESS s' ∧
      s'.check = (if s.check = 1 then 0 else s.check) ∧
      s'.dfdt.length = s.dfdt.length ∧ s'.dfdy.length = s.dfdy.length ∧
      s'.heap.length = heap0.length ∧
      (∀ i, i < num_y → i < s.dfdt.length →
        s'.dfdt[i]? = some (L.dt.getD i PL_sv_undef).nv) ∧
      (∀ j, j < num_y → ∀ i, i < num_y → j * num_y + i < s.dfdy.length →
        s'.dfdy[j * num_y + i]? = some ((L.rows j).getD i PL_sv_undef).nv) ∧
      s'.heap[L.a_dfdt]? = some (.av (L.dt.drop num_y)) ∧
      s'.heap[L.a_dfdy]? = some (.av (L.shells.drop num_y)) ∧
      (∀ j, j < num_y → s'.heap[L.a_row j]? = some (.av ((L.rows j).drop num_y))) ∧
      (∀ b, b ≠ L.a_dfdt → b ≠ L.a_dfdy → (∀ j, j < num_y → b ≠ L.a_row j) →
        s'.heap[b]? = heap0[b]?) := by
  obtain ⟨⟨dfdyShell, dfdtShell, hrr, hrvt, hrvy⟩, hdt, hdy, hrows, hne, hrne, hinj⟩ := hL
  subst hrr
  -- the first half: the `dfdt` array
  have hreft : array_ref heap0 dfdtShell = some L.a_dfdt := by
    simp [array_ref, hrvt, hdt]
  have htop : av_top_index heap0 L.a_dfdt + 1 = (L.dt.length : Int) := by
    simp [av_top_index, hdt]
  have hstrict1 : ¬ (s.check ≠ 0 ∧ av_top_index heap0 L.a_dfdt + 1 ≠ (num_y : Int)) := by
    rintro ⟨hc, hlen⟩
    rcases hp with h0 | ⟨h1, _⟩
    · exact hc h0
    · rw [htop, h1] at hlen
      exact hlen rfl
  obtain ⟨s1, a1, a2, a3, a4, a5, a6, a7, a8, _⟩ :=
    rc_jac_dfdt_loop_spec L.a_dfdt num_y 0 { s with heap := heap0 } L.dt hdt
      (by
        rcases hp with h0 | ⟨_, _, h3, _⟩
        · exact Or.inl h0
        · exact Or.inr (fun k hk => by simpa [SV.numFlag] using h3 k hk))
  -- the second half: the outer array and the rows
  have hdy1 : s1.heap[L.a_dfdy]? = some (.av L.shells) := by
    rw [a6 _ (Ne.symm hne)]; exact hdy
  obtain ⟨s2, b1, b2, b3, b4, b5, b6, b7, b8, b9, _⟩ :=
    rc_jac_dfdy_loop_spec num_y L.a_dfdy L.a_row L.rows num_y 0 s1 L.shells hdy1
      (by
        intro k hk
        obtain ⟨sh, h1, h2, h3⟩ := hrows k hk
        refine ⟨sh, h1, by simpa using h2, ?_⟩
        rw [Nat.zero_add, a6 _ (hrne k hk).1]
        exact h3)
      (by intro k hk; rw [Nat.zero_add]; exact (hrne k hk).2)
      (by intro k k' hk hk' hkk; rw [Nat.zero_add, Nat.zero_add]; exact hinj k k' hk hk' hkk)
      (by
        rcases hp with h0 | ⟨_, _, _, h4⟩
        · exact Or.inl (by rw [a2]; exact h0)
        · exact Or.inr (fun k hk i hi => by
            rw [Nat.zero_add]; simpa [SV.numFlag] using h4 k hk i hi))
  simp only [Nat.zero_add] at b6 b7 b9
  have hrefy : array_ref s1.heap dfdyShell = some L.a_dfdy := by
    simp [array_ref, hrvy, hdy1]
  have htopy : av_top_index s1.heap L.a_dfdy + 1 = (L.shells.length : Int) := by
    simp [av_top_index, hdy1]
  have hsecond : rc_jac_dfdy num_y [dfdyShell] s1
      = rc_jac_finish (rc_jac_dfdy_loop num_y (some L.a_dfdy) num_y 0 s1) := by
    unfold rc_jac_dfdy
    simp only [POPs]
    by_cases hc : s1.check = 0
    · simp [hc, hrvy]
    · rcases hp with h0 | ⟨_, h2, _, _⟩
      · exact absurd (by rw [a2]; exact h0) hc
      · simp [hc, hrefy, htopy, h2]
  refine ⟨{ s2 with check := if s2.check = 1 then 0 else s2.check }, ?_, ?_, ?_, ?_, ?_,
    ?_, ?_, ?_, ?_, ?_, ?_⟩
  · unfold rc_jac
    simp only [hr, List.length_cons, List.length_nil, List.reverse_cons, List.reverse_nil,
      List.nil_append, List.singleton_append, POPs, hreft]
    rw [if_neg (by simp), if_neg hstrict1, a1]
    simp only [hsecond, b1, rc_jac_finish]
  · simp [b2, a2]
  · simp [b3, a7]
  · simp [b8, a3]
  · simp [b4, a4]
  · intro i hi hlen
    have := a8 i hi (by simpa using hlen)
    simp only [Nat.zero_add] at this
    simp only [b3]
    exact this
  · intro j hj i hi hlen
    exact b9 j hj i hi (by rw [a3]; exact hlen)
  · show s2.heap[L.a_dfdt]? = _
    rw [b7 _ hne (fun k hk => Ne.symm (hrne k hk).1)]
    exact a5
  · exact b5
  · exact b6
  · intro b hb1 hb2 hb3
    show s2.heap[b]? = _
    rw [b7 b hb2 hb3, a6 b hb1]

/-! ## The example layout -/

/-- The result of `jac_2x2` is laid out as `layout_2x2`. -/
theorem layout_2x2_holds (args : List SV) (heap : Heap) :
    layout_2x2.holds 2 (jac_2x2 args heap).1 (jac_2x2 args heap).2 := by
  refine ⟨⟨_, _, rfl, rfl, rfl⟩, rfl, rfl, ?_, by decide, ?_, ?_⟩
  · intro j hj
    have hj' : j = 0 ∨ j = 1 := by omega
    rcases hj' with rfl | rfl
    · exact ⟨newRV_inc 1, rfl, rfl, rfl⟩
    · exact ⟨newRV_inc 2, rfl, rfl, rfl⟩
  · intro j hj
    have hj' : j = 0 ∨ j = 1 := by omega
    rcases hj' with rfl | rfl <;> decide
  · intro j j' hj hj' hne
    simp only [layout_2x2]
    omega

/-- The layout `layout_2x2` is well-formed for `num_y = 2`. -/
theorem layout_2x2_well_formed : layout_2x2.well_formed 2 := by
  refine ⟨rfl, rfl, by decide, ?_⟩
  intro j hj
  have hj' : j = 0 ∨ j = 1 := by omega
  rcases hj' with rfl | rfl
  · exact ⟨rfl, by decide⟩
  · exact ⟨rfl, by decide⟩

/-! ## Claims on `rc_jac` -/

/-- C11 as stated fails: a result whose two rows are one and the same array
`(1, 2)` is a `dfdt` array of two numbers and an outer array of two rows of two
numbers each, and under flag `0` `rc_jac` returns `GSL_SUCCESS` on it, yet
`dfdy[1*2 + 0]` is `0`, not the entry `1` of row `1`, column `0`: the first
visit has emptied the array. -/
theorem rc_jac_aliased_rows_not_copied :
    (jac_aliased_rows [] []).1 = [newRV_inc 0, newRV_inc 2] ∧
    (jac_aliased_rows [] []).2[0]? = some (.av [newRV_inc 1, newRV_inc 1]) ∧
    (jac_aliased_rows [] []).2[1]? = some (.av [newSVnv 1, newSVnv 2]) ∧
    (jac_aliased_rows [] []).2[2]? = some (.av [newSVnv 5, newSVnv 6]) ∧
    ∃ s', rc_jac 2 jac_aliased_rows 0 [0, 0] (jac_entry 0) = .ret GSL_SUCCESS s' ∧
      s'.dfdy = [1, 2, 0, 0] ∧
      s'.dfdy[1 * 2 + 0]? ≠ ([newSVnv 1, newSVnv 2][0]?).map SV.nv := by
  refine ⟨rfl, rfl, rfl, rfl, _, rfl, rfl, ?_⟩
  decide

/-- C11, amended. For every `num_y` and every well-formed Jacobian result (a
`dfdt` array of `num_y` numbers and an outer array of `num_y` rows of `num_y`
numbers each) held in pairwise distinct array objects, with output buffers of
at least `num_y` and `num_y * num_y` slots, `rc_jac` returns `GSL_SUCCESS`,
`dfdy[j*num_y + i]` is the entry at row `j`, column `i` for all `i, j < num_y`
(row-major, no transposition), and `dfdt[i]` is element `i` of the `dfdt`
array. -/
theorem rc_jac_row_major (num_y : Nat) (perljac : List SV → Heap → List SV × Heap)
    (t : ℚ) (y : List ℚ) (s : JacState) (L : JacLayout)
    (hL : L.holds num_y (perljac (push_args t y num_y) s.heap).1
      (perljac (push_args t y num_y) s.heap).2)
    (hwf : L.well_formed num_y)
    (hdt : num_y ≤ s.dfdt.length) (hdy : num_y * num_y ≤ s.dfdy.length) :
    ∃ s', rc_jac num_y perljac t y s = .ret GSL_SUCCESS s' ∧
      (∀ i, i < num_y → s'.dfdt[i]? = (L.dt[i]?).map SV.nv) ∧
      (∀ j, j < num_y → ∀ i, i < num_y →
        s'.dfdy[j * num_y + i]? = ((L.rows j)[i]?).map SV.nv) := by
  obtain ⟨s', h1, _, _, _, _, h6, h7, _⟩ := rc_jac_spec num_y perljac t y s _ _ L rfl hL
    (L.passes_of_well_formed num_y s.check hwf)
  refine ⟨s', h1, ?_, ?_⟩
  · intro i hi
    rw [h6 i hi (by omega)]
    have hi' : i < L.dt.length := by rw [hwf.1]; exact hi
    simp [List.getD_eq_getElem?_getD, List.getElem?_eq_getElem hi']
  · intro j hj i hi
    have hidx : j * num_y + i < s.dfdy.length := by
      have h1 : j * num_y + num_y ≤ num_y * num_y := by
        have := Nat.mul_le_mul_right num_y (Nat.succ_le_of_lt hj)
        rw [Nat.succ_mul] at this
        exact this
      omega
    rw [h7 j hj i hi hidx]
    have hi' : i < (L.rows j).length := by rw [(hwf.2.2.2 j hj).1]; exact hi
    simp [List.getD_eq_getElem?_getD, List.getElem?_eq_getElem hi']

/-- C11, amended, instance: the rows `(1, 2)` and `(3, 4)` land in `dfdy` as
`1, 2, 3, 4` and the `dfdt` array `(5, 6)` in `dfdt`. -/
theorem rc_jac_row_major_witness :
    ∃ s', rc_jac 2 jac_2x2 0 [0, 0] (jac_entry 1) = .ret GSL_SUCCESS s' ∧
      (∀ i, i < 2 → s'.dfdt[i]? = (layout_2x2.dt[i]?).map SV.nv) ∧
      (∀ j, j < 2 → ∀ i, i < 2 →
        s'.dfdy[j * 2 + i]? = ((layout_2x2.rows j)[i]?).map SV.nv) :=
  rc_jac_row_major 2 jac_2x2 0 [0, 0] (jac_entry 1) layout_2x2
    (layout_2x2_holds _ _) layout_2x2_well_formed (by decide) (by decide)

/-- Shifting elements off the array at `a` does not change whether a shell
that referred to no array refers to one. -/
theorem array_ref_none_of_frame (heap heap1 : Heap) (a : Nat) (l : List SV) (shell : SV)
    (ha : heap[a]? = some (.av l)) (hframe : ∀ b, b ≠ a → heap1[b]? = heap[b]?)
    (h : array_ref heap shell = none) : array_ref heap1 shell = none := by
  unfold array_ref at h ⊢
  cases hrv : shell.rv with
  | none => rfl
  | some b =>
    simp only [hrv, List.get?_eq_getElem?] at h ⊢
    by_cases hb : b = a
    · subst hb
      simp [ha] at h
    · rw [hframe b hb]
      exact h

/-- C12 as stated fails: on a result returned in the order
`(\@dFdt, \@dFdy)`, the `dfdt` array `(9)` first and the matrix `((4))` second,
`rc_jac` does not produce `dfdt = (9)`, `dfdy = (4)`: under the strict flag it
croaks on a non-double element with `dfdt` unwritten, under flag `0` it runs
into undefined behaviour; on the same arrays returned in the order
`(\@dFdy, \@dFdt)` it returns `GSL_SUCCESS` with `dfdt = (9)` and `dfdy = (4)`. -/
theorem rc_jac_dfdt_first_rejected :
    (∃ bufs, rc_jac 1 jac_dfdt_first 0 [0] { check := 1, heap := [], dfdt := [7], dfdy := [7] }
        = .croak .jac_non_double bufs ∧ bufs.dfdt = [7] ∧ bufs.dfdy = [7]) ∧
    rc_jac 1 jac_dfdt_first 0 [0] { check := 0, heap := [], dfdt := [7], dfdy := [7] }
      = .undefined ∧
    (∃ s', rc_jac 1 jac_dfdy_first 0 [0] { check := 1, heap := [], dfdt := [7], dfdy := [7] }
        = .ret GSL_SUCCESS s' ∧ s'.dfdt = [9] ∧ s'.dfdy = [4]) :=
  ⟨⟨_, rfl, rfl, rfl⟩, rfl, ⟨_, rfl, rfl, rfl⟩⟩

/-- C12, amended. Of the two values the Jacobian callback returns as the pair
`(first, second)`, the second is the one used as the `dfdt` array reference and
the first is the one used as the `dfdy` array-of-rows reference. Under a
non-zero flag: if `second` is not a reference to an array, `rc_jac` croaks with
"dfdt must be a reference to an array"; if `second` refers to an array of
`num_y` numbers and `first` is not a reference to an array, `rc_jac` fills
`dfdt` from the array of `second` and croaks with "dfdy must be a reference to
an array". Under any flag: if `second` refers to the `dfdt` array and `first`
to the outer array of a result held in distinct arrays that passes the tests
of the flag, `rc_jac` returns `GSL_SUCCESS` with `dfdt` read from the array of
`second` and `dfdy` read from the rows of the array of `first`. -/
theorem rc_jac_component_roles (num_y : Nat) (perljac : List SV → Heap → List SV × Heap)
    (t : ℚ) (y : List ℚ) (s : JacState) (first second : SV) (heap0 : Heap)
    (hr : perljac (push_args t y num_y) s.heap = ([first, second], heap0)) :
    (s.check ≠ 0 → array_ref heap0 second = none →
      rc_jac num_y perljac t y s = .croak .jac_dfdt_not_array { s with heap := heap0 }) ∧
    (s.check ≠ 0 →
      ∀ (a : Nat) (dt : List SV), second.rv = some a → heap0[a]? = some (.av dt) →
        dt.length = num_y → (∀ e ∈ dt, e.numFlag = true) →
        array_ref heap0 first = none →
        ∃ bufs, rc_jac num_y perljac t y s = .croak .jac_dfdy_not_array bufs ∧
          ∀ i, i < num_y → i < s.dfdt.length → bufs.dfdt[i]? = (dt[i]?).map SV.nv) ∧
    (∀ L : JacLayout, L.holds num_y [first, second] heap0 → L.passes num_y s.check →
      second.rv = some L.a_dfdt ∧ first.rv = some L.a_dfdy ∧
      ∃ s', rc_jac num_y perljac t y s = .ret GSL_SUCCESS s' ∧
        (∀ i, i < num_y → i < s.dfdt.length →
          s'.dfdt[i]? = some (L.dt.getD i PL_sv_undef).nv) ∧
        (∀ j, j < num_y → ∀ i, i < num_y → j * num_y + i < s.dfdy.length →
          s'.dfdy[j * num_y + i]? = some ((L.rows j).getD i PL_sv_undef).nv)) := by
  refine ⟨?_, ?_, ?_⟩
  · intro hc hnone
    unfold rc_jac
    simp [hr, POPs, hnone, hc]
  · intro hc a dt hrv hdt hlen hnum hfirst
    have href : array_ref heap0 second = some a := by
      simp [array_ref, hrv, hdt]
    have htop : av_top_index heap0 a + 1 = (num_y : Int) := by
      simp [av_top_index, hdt, hlen]
    obtain ⟨s1, a1, a2, _, _, _, a6, _, a8, _⟩ :=
      rc_jac_dfdt_loop_spec a num_y 0 { s with heap := heap0 } dt hdt
        (Or.inr (fun k hk => by
          have hk' : k < dt.length := by omega
          rw [List.getD_eq_getElem?_getD, List.getElem?_eq_getElem hk']
          simpa [SV.numFlag] using hnum _ (List.getElem_mem hk')))
    have hfirst1 : array_ref s1.heap first = none :=
      array_ref_none_of_frame heap0 s1.heap a dt first hdt a6 hfirst
    have hc1 : s1.check ≠ 0 := by rw [a2]; exact hc
    refine ⟨s1, ?_, ?_⟩
    · unfold rc_jac
      simp only [hr, List.length_cons, List.length_nil, List.reverse_cons, List.reverse_nil,
        List.nil_append, List.singleton_append, POPs, href]
      rw [if_neg (by simp), if_neg (by simp [htop]), a1]
      simp [rc_jac_dfdy, POPs, hc1, hfirst1]
    · intro i hi hlt
      have := a8 i hi (by simpa using hlt)
      simp only [Nat.zero_add] at this
      rw [this]
      have hi' : i < dt.length := by omega
      simp [List.getD_eq_getElem?_getD, List.getElem?_eq_getElem hi']
  · intro L hL hp
    obtain ⟨s', h1, _, _, _, _, h6, h7, _⟩ :=
      rc_jac_spec num_y perljac t y s _ _ L hr hL hp
    obtain ⟨⟨dfdyShell, dfdtShell, hrr, hrvt, hrvy⟩, _⟩ := hL
    simp only [List.cons.injEq, and_true] at hrr
    obtain ⟨rfl, rfl⟩ := hrr
    exact ⟨hrvt, hrvy, s', h1, h6, h7⟩

/-- C12, amended, instance: with the `dfdt` array `(9)` referred to by the
second value and a number in place of the first, the strict call fills
`dfdt[0] = 9` and then rejects the first value as `dfdy`. -/
theorem rc_jac_component_roles_witness :
    ∃ bufs, rc_jac 1 (fun _ _ => ([newSVnv 3, newRV_inc 0], [.av [newSVnv 9]])) 0 [0]
        { check := 1, heap := [], dfdt := [7], dfdy := [7] }
        = .croak .jac_dfdy_not_array bufs ∧
      ∀ i, i < 1 → i < 1 → bufs.dfdt[i]? = ([newSVnv 9][i]?).map SV.nv :=
  (rc_jac_component_roles 1 (fun _ _ => ([newSVnv 3, newRV_inc 0], [.av [newSVnv 9]])) 0 [0]
    { check := 1, heap := [], dfdt := [7], dfdy := [7] } (newSVnv 3) (newRV_inc 0)
    [.av [newSVnv 9]] rfl).2.1 (by decide) 0 [newSVnv 9] rfl rfl rfl (by decide) rfl

/-- C13 fails on the code: the rows of `dfdy` are not length-checked. Under the
strict flag, with `num_y = 2`, a first row `(1, 2, 3)` that is too long is
accepted: `rc_jac` returns `GSL_SUCCESS`, clears the flag and leaves the third
element in the row array; a first row `(1)` that is too short croaks with
"detected non-double element", an error that carries no lengths. The `dfdt`
array is length-checked: `(5)` croaks with the measured length `1` and the
required length `2`. -/
theorem rc_jac_row_length_unchecked :
    (∃ s', rc_jac 2 jac_long_row 0 [0, 0] (jac_entry 1) = .ret GSL_SUCCESS s' ∧
      s'.dfdy = [1, 2, 4, 5] ∧ s'.check = 0 ∧ s'.heap[1]? = some (.av [newSVnv 3])) ∧
    (∃ bufs, rc_jac 2 jac_short_row 0 [0, 0] (jac_entry 1)
      = .croak .jac_non_double bufs) ∧
    (∃ bufs, rc_jac 2 jac_short_dfdt 0 [0, 0] (jac_entry 1)
      = .croak (.jac_length 1 2) bufs) :=
  ⟨⟨_, rfl, rfl, rfl, rfl⟩, ⟨_, rfl⟩, ⟨_, rfl⟩⟩

/-- C17. There is a malformed Jacobian result, for `num_y = 2` a `dfdt` array
`(5)` of one element only, that `rc_jac` rejects with a fatal error under flag
`1`, but for which `rc_jac` under flag `0` returns `GSL_SUCCESS` with
`dfdt = (5, 0)`: the `0` in `dfdt[1]` is the value of the undefined scalar
that shifting an empty array yields, not an element of the callback's array. -/
theorem rc_jac_relaxed_accepts_malformed :
    ∃ (num_y : Nat) (perljac : List SV → Heap → List SV × Heap) (dt : List SV),
      1 ≤ num_y ∧
      (perljac (push_args 0 [0, 0] num_y) []).1 = [newRV_inc 0, newRV_inc 3] ∧
      (perljac (push_args 0 [0, 0] num_y) []).2[3]? = some (.av dt) ∧
      dt.length < num_y ∧
      (∃ e bufs, rc_jac num_y perljac 0 [0, 0] (jac_entry 1) = .croak e bufs) ∧
      ∃ s', rc_jac num_y perljac 0 [0, 0] (jac_entry 0) = .ret GSL_SUCCESS s' ∧
        s'.dfdt = [5, 0] ∧
        s'.dfdt[1]? = some PL_sv_undef.nv ∧
        ∀ e ∈ dt, some e.nv ≠ s'.dfdt[1]? :=
  ⟨2, jac_short_dfdt, [newSVnv 5], by decide, rfl, rfl, by decide, ⟨_, _, rfl⟩,
    _, rfl, rfl, rfl, by decide⟩

/-- C18 fails on the code: the loop of the variant runs to the literal `100`,
not to `num_steps`. With `num_steps = 2`, buffers `t` and `y` of
`num_steps + 1 = 3` entries and every step succeeding, the entries `1` and `2`
are written and the third pass then writes `t[3]`, outside the buffers; with
buffers of `6` entries the same call writes the entries `1 .. 5`, three of them
above `num_steps`, before it leaves the buffers at index `6`. -/
theorem XS_rc_ode_solver_writes_past_num_steps :
    (∃ s, RHex_XS_src.rc_ode_solver (halving_gsl 0) 2 [0, 0, 0] 1 [8, 0, 0] 1 "rk4" 1 1 1 1
        = .overflow 3 s ∧ s.written = [1, 2]) ∧
    (∃ s, RHex_XS_src.rc_ode_solver (halving_gsl 0) 2 [0, 0, 0, 0, 0, 0] 1
        [8, 0, 0, 0, 0, 0] 1 "rk4" 1 1 1 1
        = .overflow 6 s ∧ s.written = [1, 2, 3, 4, 5]) :=
  ⟨⟨_, rfl, rfl⟩, ⟨_, rfl, rfl⟩⟩

/-! ## Lemmas on the flag `check` -/

/-- The loop filling `dfdt` leaves the flag alone. -/
theorem rc_jac_dfdt_loop_check (dfdtRef : Option Nat) :
    ∀ (n i : Nat) (s : JacState) (st : Int) (s' : JacState),
      rc_jac_dfdt_loop dfdtRef n i s = .ret st s' → s'.check = s.check := by
  intro n
  induction n with
  | zero =>
    intro i s st s' h
    simp only [rc_jac_dfdt_loop, CallOutcome.ret.injEq] at h
    rw [← h.2]
  | succ n ih =>
    intro i s st s' h
    simp only [rc_jac_dfdt_loop] at h
    cases hs : av_shift_at s.heap dfdtRef with
    | none => simp [hs] at h
    | some p =>
      obtain ⟨elt, heap1⟩ := p
      simp only [hs] at h
      split at h
      · simp at h
      · exact (ih _ _ _ _ h).trans rfl

/-- The loop filling a row of `dfdy` leaves the flag alone. -/
theorem rc_jac_row_loop_check (num_y : Nat) (rowRef : Option Nat) (j : Nat) :
    ∀ (n i : Nat) (s : JacState) (st : Int) (s' : JacState),
      rc_jac_row_loop num_y rowRef j n i s = .ret st s' → s'.check = s.check := by
  intro n
  induction n with
  | zero =>
    intro i s st s' h
    simp only [rc_jac_row_loop, CallOutcome.ret.injEq] at h
    rw [← h.2]
  | succ n ih =>
    intro i s st s' h
    simp only [rc_jac_row_loop] at h
    cases hs : av_shift_at s.heap rowRef with
    | none => simp [hs] at h
    | some p =>
      obtain ⟨elt, heap1⟩ := p
      simp only [hs] at h
      split at h
      · simp at h
      · exact (ih _ _ _ _ h).trans rfl

/-- The loop over the rows of `dfdy` leaves the flag alone. -/
theorem rc_jac_dfdy_loop_check (num_y : Nat) (dfdyRef : Option Nat) :
    ∀ (n j : Nat) (s : JacState) (st : Int) (s' : JacState),
      rc_jac_dfdy_loop num_y dfdyRef n j s = .ret st s' → s'.check = s.check := by
  intro n
  induction n with
  | zero =>
    intro j s st s' h
    simp only [rc_jac_dfdy_loop, CallOutcome.ret.injEq] at h
    rw [← h.2]
  | succ n ih =>
    intro j s st s' h
    simp only [rc_jac_dfdy_loop] at h
    cases hs : av_shift_at s.heap dfdyRef with
    | none => simp [hs] at h
    | some p =>
      obtain ⟨rowShell, heap1⟩ := p
      simp only [hs] at h
      cases hr : rc_jac_row_loop num_y rowShell.rv j num_y 0 { s with heap := heap1 } with
      | ret st1 s1 =>
        simp only [hr] at h
        rw [ih _ _ _ _ h, rc_jac_row_loop_check num_y _ _ _ _ _ _ _ hr]
      | croak e b => simp [hr] at h
      | undefined => simp [hr] at h

/-- The end of `rc_jac` takes the flag from `1` to `0` and leaves any other value. -/
theorem rc_jac_finish_check (o : CallOutcome JacState) (c : Int)
    (ho : ∀ st s1, o = .ret st s1 → s1.check = c) (st : Int) (s' : JacState)
    (h : rc_jac_finish o = .ret st s') :
    st = GSL_SUCCESS ∧ s'.check = (if c = 1 then 0 else c) := by
  cases o with
  | ret st1 s1 =>
    simp only [rc_jac_finish, CallOutcome.ret.injEq] at h
    have := ho st1 s1 rfl
    rw [← h.1, ← h.2]
    simp [this]
  | croak e b => simp [rc_jac_finish] at h
  | undefined => simp [rc_jac_finish] at h

/-- The second half of `rc_jac`, when it returns. -/
theorem rc_jac_dfdy_check (num_y : Nat) (stack : List SV) (s : JacState)
    (st : Int) (s' : JacState) (h : rc_jac_dfdy num_y stack s = .ret st s') :
    st = GSL_SUCCESS ∧ s'.check = (if s.check = 1 then 0 else s.check) := by
  unfold rc_jac_dfdy at h
  simp only at h
  split at h
  · split at h
    · simp at h
    · split at h
      · simp at h
      · exact rc_jac_finish_check _ s.check
          (fun _ _ hh => rc_jac_dfdy_loop_check num_y _ _ _ _ _ _ hh) st s' h
  · exact rc_jac_finish_check _ s.check
      (fun _ _ hh => rc_jac_dfdy_loop_check num_y _ _ _ _ _ _ hh) st s' h

/-- A Jacobian evaluation that returns has returned `GSL_SUCCESS` and has taken
the flag from `1` to `0`, leaving any other value as it was. -/
theorem rc_jac_ret_check (num_y : Nat) (perljac : List SV → Heap → List SV × Heap)
    (t : ℚ) (y : List ℚ) (s : JacState) (st : Int) (s' : JacState)
    (h : rc_jac num_y perljac t y s = .ret st s') :
    st = GSL_SUCCESS ∧ s'.check = (if s.check = 1 then 0 else s.check) := by
  unfold rc_jac at h
  simp only at h
  split at h
  · simp at h
  · split at h
    · split at h
      · simp at h
      · split at h
        · rename_i st1 s1 heq
          have h1 := rc_jac_dfdt_loop_check _ _ _ _ _ _ heq
          have h2 := rc_jac_dfdy_check _ _ _ _ _ h
          rw [h1] at h2
          exact h2
        · rename_i o hne
          exact absurd h (by
            intro hh
            exact hne st s' hh)
    · split at h
      · simp at h
      · split at h
        · rename_i st1 s1 heq
          have h1 := rc_jac_dfdt_loop_check _ _ _ _ _ _ heq
          have h2 := rc_jac_dfdy_check _ _ _ _ _ h
          rw [h1] at h2
          exact h2
        · rename_i o hne
          exact absurd h (by
            intro hh
            exact hne st s' hh)

/-- What an evaluation that returns does to the flag: a Jacobian evaluation
takes it from `1` to `0`; nothing else changes it. -/
theorem Eval.check_after_spec (num_y : Nat) (e : Eval) (c c' : Int)
    (h : e.check_after num_y c = some c') :
    c' = (if e.isJac = true ∧ c = 1 then 0 else c) := by
  cases e with
  | func perlfunc t y f =>
    simp only [Eval.check_after] at h
    split at h
    · simp only [Option.some.injEq] at h
      simp [Eval.isJac, h]
    · cases h
  | jac perljac t y heap dfdt dfdy =>
    simp only [Eval.check_after] at h
    split at h
    · rename_i st s' heq
      simp only [Option.some.injEq] at h
      have := (rc_jac_ret_check _ _ _ _ _ _ _ heq).2
      rw [← h, this]
      simp [Eval.isJac]
    · cases h

/-- Along a sequence of evaluations started under a flag that is `0` or `1`,
the flag at the start of evaluation `k` is `0` if a Jacobian evaluation is
among the `k` earlier ones, and the starting value otherwise. -/
theorem check_history_spec (num_y : Nat) :
    ∀ (evals : List Eval) (c : Int) (k : Nat) (v : Int), (c = 0 ∨ c = 1) →
      (check_history num_y c evals)[k]? = some v →
      v = (if (evals.take k).any Eval.isJac then 0 else c) := by
  intro evals
  induction evals with
  | nil =>
    intro c k v _ h
    simp [check_history] at h
  | cons e es ih =>
    intro c k v hc h
    cases k with
    | zero =>
      simp only [check_history, List.getElem?_cons_zero, Option.some.injEq] at h
      simp [h]
    | succ k =>
      simp only [check_history, List.getElem?_cons_succ] at h
      cases hca : e.check_after num_y c with
      | none => simp [hca] at h
      | some c1 =>
        simp only [hca] at h
        have hc1 := Eval.check_after_spec num_y e c c1 hca
        have hc1' : c1 = 0 ∨ c1 = 1 := by
          rw [hc1]
          split
          · exact Or.inl rfl
          · exact hc
        have hv := ih c1 k v hc1' h
        rw [hv, List.take_succ_cons, List.any_cons]
        by_cases hj : e.isJac = true
        · have : c1 = 0 := by
            rw [hc1]
            rcases hc with h0 | h1
            · simp [h0]
            · simp [hj, h1]
          simp [hj, this]
        · have hj' : e.isJac = false := by simpa using hj
          have : c1 = c := by rw [hc1]; simp [hj']
          simp [hj', this]

/-! ## Lemmas on the strict test of `rc_func` -/

/-- The unloading loop under a non-zero flag, on a stack without strings that
holds an element failing the numeric test: it croaks with the element-type
error. -/
theorem rc_func_loop_bad_element (check : Int) (hc : check ≠ 0) :
    ∀ (stack : List SV) (status : Int) (f : List ℚ),
      (∀ e ∈ stack, e.pokp = false) →
      (∃ e ∈ stack, (e.nokp || e.iokp) = false) →
      ∃ f', rc_func_loop check stack.length stack status f
        = .croak .func_bad_element f' := by
  intro stack
  induction stack with
  | nil =>
    intro status f _ hbad
    obtain ⟨e, he, _⟩ := hbad
    cases he
  | cons e rest ih =>
    intro status f hnostr hbad
    have hp : e.pokp = false := hnostr e (List.mem_cons_self _ _)
    by_cases hn : (e.nokp || e.iokp) = true
    · have hrest : ∃ e' ∈ rest, (e'.nokp || e'.iokp) = false := by
        obtain ⟨e', he', hb⟩ := hbad
        rcases List.mem_cons.mp he' with rfl | hmem
        · rw [hn] at hb
          cases hb
        · exact ⟨e', hmem, hb⟩
      obtain ⟨f', hf'⟩ := ih status (f.set rest.length e.nv)
        (fun e' he' => hnostr e' (List.mem_cons_of_mem _ he')) hrest
      refine ⟨f', ?_⟩
      simp only [rc_func_loop, POPs, List.length_cons, hp, Bool.false_eq_true, if_false]
      rw [if_neg (by simp [hn])]
      exact hf'
    · have hn' : (e.nokp || e.iokp) = false := by simpa using hn
      refine ⟨f, ?_⟩
      simp only [rc_func_loop, POPs, List.length_cons, hp, Bool.false_eq_true, if_false]
      rw [if_pos ⟨hc, by simp [hn']⟩]

/-- `rc_func` on a returned list of length `num_y` without strings that holds
an element failing the numeric test: under a non-zero flag it croaks with the
element-type error, under flag `0` it returns `GSL_SUCCESS`. -/
theorem rc_func_bad_element (check : Int) (num_y : Nat) (perlfunc : List SV → List SV)
    (t : ℚ) (y : List ℚ) (f : List ℚ)
    (hlen : (perlfunc (push_args t y num_y)).length = num_y)
    (hnostr : ∀ e ∈ perlfunc (push_args t y num_y), e.isString = false)
    (hbad : ∃ e ∈ perlfunc (push_args t y num_y), e.numFlag = false) :
    (check ≠ 0 → ∃ f', rc_func check num_y perlfunc t y f = .croak .func_bad_element f') ∧
    (check = 0 → ∃ f', rc_func check num_y perlfunc t y f = .ret GSL_SUCCESS f') := by
  have hunfold : rc_func check num_y perlfunc t y f
      = rc_func_loop check (perlfunc (push_args t y num_y)).reverse.length
          (perlfunc (push_args t y num_y)).reverse GSL_SUCCESS f := by
    simp only [rc_func, hlen, ne_eq, not_true_eq_false, if_false, List.length_reverse]
  constructor
  · intro hc
    obtain ⟨f', hf'⟩ := rc_func_loop_bad_element check hc
      (perlfunc (push_args t y num_y)).reverse GSL_SUCCESS f
      (fun e he => hnostr e (List.mem_reverse.mp he))
      (by
        obtain ⟨e, he, hb⟩ := hbad
        exact ⟨e, List.mem_reverse.mpr he, hb⟩)
    exact ⟨f', by rw [hunfold]; exact hf'⟩
  · intro hc
    obtain ⟨f', h1, _⟩ := rc_func_loop_spec check
      (perlfunc (push_args t y num_y)).reverse GSL_SUCCESS f
      (fun _ _ => Or.inr (Or.inl hc))
    have hany : ((perlfunc (push_args t y num_y)).reverse.any (fun e => e.pokp)) = false := by
      rw [List.any_eq_false]
      intro e he
      have := hnostr e (List.mem_reverse.mp he)
      simp only [SV.isString] at this
      simp [this]
    rw [hany] at h1
    exact ⟨f', by rw [hunfold]; simpa using h1⟩

/-- If the stepper applications leave the flag as it was handed to them (no
Jacobian evaluation completes in them), every pass of a run of `rc_ode_solver`
starts with the flag at `1`. -/
theorem run_state_check_one {σ : Type} (gsl : Gsl σ) (t0 t1 : ℚ) (num_steps : Int)
    (num_y : Nat) (y : List SV) (step_type : String) (h_init eps_abs eps_rel : ℚ)
    (hkeep : ∀ d c t tj yt st d1 t' yt1 c1,
      gsl.gsl_odeiv2_driver_apply d c t tj yt = .returned st d1 t' yt1 c1 → c1 = c) :
    ∀ (n : Nat) (s : SolverState σ),
      run_state gsl t0 t1 num_steps num_y y step_type h_init eps_abs eps_rel n = some s →
      s.check = 1 := by
  cases hT : translate_step_type step_type with
  | none =>
    intro n s h
    simp [run_state, hT] at h
  | some T =>
    intro n
    induction n with
    | zero =>
      intro s h
      rw [run_state_eq gsl t0 t1 num_steps num_y y step_type h_init eps_abs eps_rel T hT] at h
      simp only [pass_state, Option.some.injEq] at h
      rw [← h]
      exact (rc_ode_solver_init_spec gsl t0 num_y y h_init eps_abs eps_rel T).2.2.1
    | succ n ih =>
      intro s h
      rw [run_state_eq gsl t0 t1 num_steps num_y y step_type h_init eps_abs eps_rel T hT] at h
      obtain ⟨sp, hp, hb⟩ := pass_state_pred gsl t0 _ num_y _ n s h
      obtain ⟨d, d1, t', yt1, c1, _, ha, hs⟩ := loop_body_next gsl t0 _ num_y _ sp s hb
      have hsp : sp.check = 1 := ih sp (by
        rw [run_state_eq gsl t0 t1 num_steps num_y y step_type h_init eps_abs eps_rel T hT]
        exact hp)
      rw [hs]
      simp only
      rw [hkeep _ _ _ _ _ _ _ _ _ _ ha, hsp]

/-- C21. The strict element-type test of `rc_func` is governed by the flag
`check` that `rc_ode_solver` sets to `1` and that only a returning `rc_jac`
clears. For a returned list of length `num_y` with no string-typed element and
at least one element that fails the numeric test (for instance the undefined
scalar): `rc_func` croaks with the element-type error exactly when the flag is
non-zero, and returns `GSL_SUCCESS` when it is `0`. Hence, when the call is
made at position `k` of the callback evaluations of a run, it croaks with that
error if and only if no Jacobian evaluation is among the `k` evaluations
completed before it, and it returns `GSL_SUCCESS` once one is; in a run
without Jacobian evaluations it croaks at every position, every stepper
application of such a run of `rc_ode_solver` being made under flag `1`. -/
theorem rc_func_strict_until_jacobian (num_y : Nat) (perlfunc : List SV → List SV)
    (t : ℚ) (y : List ℚ) (f : List ℚ)
    (hlen : (perlfunc (push_args t y num_y)).length = num_y)
    (hnostr : ∀ e ∈ perlfunc (push_args t y num_y), e.isString = false)
    (hbad : ∃ e ∈ perlfunc (push_args t y num_y), e.numFlag = false) :
    (∀ check : Int,
      ((∃ f', rc_func check num_y perlfunc t y f = .croak .func_bad_element f')
        ↔ check ≠ 0) ∧
      (check = 0 → ∃ f', rc_func check num_y perlfunc t y f = .ret GSL_SUCCESS f')) ∧
    (∀ (evals : List Eval) (k : Nat) (c : Int),
      (check_history num_y 1 evals)[k]? = some c →
      ((∃ f', rc_func c num_y perlfunc t y f = .croak .func_bad_element f')
        ↔ (evals.take k).any Eval.isJac = false) ∧
      ((evals.take k).any Eval.isJac = true →
        ∃ f', rc_func c num_y perlfunc t y f = .ret GSL_SUCCESS f')) ∧
    (∀ (evals : List Eval) (k : Nat) (c : Int), (∀ e ∈ evals, e.isJac = false) →
      (check_history num_y 1 evals)[k]? = some c →
      ∃ f', rc_func c num_y perlfunc t y f = .croak .func_bad_element f') ∧
    (∀ (σ : Type) (gsl : Gsl σ) (t0 t1 : ℚ) (num_steps : Int) (yc : List SV)
      (step_type : String) (h_init eps_abs eps_rel : ℚ),
      (∀ d c t tj yt st d1 t' yt1 c1,
        gsl.gsl_odeiv2_driver_apply d c t tj yt = .returned st d1 t' yt1 c1 → c1 = c) →
      ∀ (n : Nat) (s : SolverState σ),
        run_state gsl t0 t1 num_steps num_y yc step_type h_init eps_abs eps_rel n = some s →
        s.check = 1 ∧
        ∃ f', rc_func s.check num_y perlfunc t y f = .croak .func_bad_element f') := by
  have hflag : ∀ check : Int,
      ((∃ f', rc_func check num_y perlfunc t y f = .croak .func_bad_element f')
        ↔ check ≠ 0) ∧
      (check = 0 → ∃ f', rc_func check num_y perlfunc t y f = .ret GSL_SUCCESS f') := by
    intro check
    obtain ⟨h1, h2⟩ := rc_func_bad_element check num_y perlfunc t y f hlen hnostr hbad
    refine ⟨⟨?_, h1⟩, h2⟩
    rintro ⟨f', hf'⟩ hc
    obtain ⟨f2, hf2⟩ := h2 hc
    rw [hf2] at hf'
    cases hf'
  have hrun : ∀ (evals : List Eval) (k : Nat) (c : Int),
      (check_history num_y 1 evals)[k]? = some c →
      ((∃ f', rc_func c num_y perlfunc t y f = .croak .func_bad_element f')
        ↔ (evals.take k).any Eval.isJac = false) ∧
      ((evals.take k).any Eval.isJac = true →
        ∃ f', rc_func c num_y perlfunc t y f = .ret GSL_SUCCESS f') := by
    intro evals k c hk
    have hc := check_history_spec num_y evals 1 k c (Or.inr rfl) hk
    by_cases hj : (evals.take k).any Eval.isJac = true
    · have hc0 : c = 0 := by rw [hc]; simp [hj]
      refine ⟨⟨fun h => absurd hc0 ((hflag c).1.mp h), fun h => ?_⟩,
        fun _ => (hflag c).2 hc0⟩
      rw [hj] at h
      cases h
    · have hj' : (evals.take k).any Eval.isJac = false := by simpa using hj
      have hc1 : c = 1 := by rw [hc]; simp [hj']
      refine ⟨⟨fun _ => hj', fun _ => (hflag c).1.mpr (by rw [hc1]; decide)⟩, fun h => ?_⟩
      rw [hj'] at h
      cases h
  refine ⟨hflag, hrun, ?_, ?_⟩
  · intro evals k c hno hk
    refine ((hrun evals k c hk).1).mpr ?_
    rw [List.any_eq_false]
    intro e he
    simp [hno e (List.mem_of_mem_take he)]
  · intro σ gsl t0 t1 num_steps yc step_type h_init eps_abs eps_rel hkeep n s hs
    have h1 := run_state_check_one gsl t0 t1 num_steps num_y yc step_type h_init eps_abs
      eps_rel hkeep n s hs
    exact ⟨h1, (hflag s.check).1.mpr (by rw [h1]; decide)⟩

/-- C21, instance: in the example sequence a derivative callback answering
`(3, undef)` is rejected when called at position `1`, before the Jacobian
evaluation, and accepted with `GSL_SUCCESS` when called at position `2`, after
it. -/
theorem rc_func_strict_until_jacobian_witness :
    (∃ f', rc_func 1 2 func_undef 0 [1, 2] [0, 0] = .croak .func_bad_element f') ∧
    (∃ f', rc_func 0 2 func_undef 0 [1, 2] [0, 0] = .ret GSL_SUCCESS f') :=
  ⟨((rc_func_strict_until_jacobian 2 func_undef 0 [1, 2] [0, 0] rfl (by decide)
      ⟨PL_sv_undef, by decide, rfl⟩).2.1 example_evals 1 1 rfl).1.mpr rfl,
   ((rc_func_strict_until_jacobian 2 func_undef 0 [1, 2] [0, 0] rfl (by decide)
      ⟨PL_sv_undef, by decide, rfl⟩).2.1 example_evals 2 0 rfl).2 rfl⟩

/-! ## The flag `check` along a run against `rc_func` and `rc_jac` -/

/-- The flag a log leaves behind is `0` or `1`. -/
theorem flag_after_cases (log : EvalLog) : flag_after log = 0 ∨ flag_after log = 1 := by
  unfold flag_after
  split
  · exact Or.inl rfl
  · exact Or.inr rfl

/-- A derivative evaluation added to the log leaves the flag of the log as it is. -/
theorem flag_after_func (log : EvalLog) (c : Int) :
    flag_after (log ++ [(false, c)]) = flag_after log := by
  unfold flag_after
  rw [List.any_append, List.any_cons, List.any_nil, Bool.or_false, Bool.or_false]

/-- A Jacobian evaluation added to the log leaves the flag of the log at `0`. -/
theorem flag_after_jac (log : EvalLog) (c : Int) :
    flag_after (log ++ [(true, c)]) = 0 := by
  simp [flag_after, List.any_append]

/-- The empty log is in order. -/
theorem log_ok_nil : log_ok [] := by
  intro k isJac c h
  simp at h

/-- A log in order stays so when an evaluation begun under the flag of the log
is added. -/
theorem log_ok_append (log : EvalLog) (b : Bool) (h : log_ok log) :
    log_ok (log ++ [(b, flag_after log)]) := by
  intro k isJac c hk
  rcases Nat.lt_trichotomy k log.length with hlt | heq | hgt
  · rw [List.getElem?_append_left hlt] at hk
    rw [List.take_append_of_le_length (Nat.le_of_lt hlt)]
    exact h k isJac c hk
  · subst heq
    rw [List.getElem?_append_right (Nat.le_refl _)] at hk
    simp only [Nat.sub_self, List.getElem?_cons_zero, Option.some.injEq, Prod.mk.injEq] at hk
    rw [List.take_append_of_le_length (Nat.le_refl _), List.take_length, ← hk.2]
    rfl
  · rw [List.getElem?_eq_none (by simp; omega)] at hk
    cases hk

/-- The loop filling `dfdt` leaves the flag alone when it croaks. -/
theorem rc_jac_dfdt_loop_croak_check (dfdtRef : Option Nat) :
    ∀ (n i : Nat) (s : JacState) (e : Croak) (s' : JacState),
      rc_jac_dfdt_loop dfdtRef n i s = .croak e s' → s'.check = s.check := by
  intro n
  induction n with
  | zero =>
    intro i s e s' h
    simp [rc_jac_dfdt_loop] at h
  | succ n ih =>
    intro i s e s' h
    simp only [rc_jac_dfdt_loop] at h
    cases hs : av_shift_at s.heap dfdtRef with
    | none => simp [hs] at h
    | some p =>
      obtain ⟨elt, heap1⟩ := p
      simp only [hs] at h
      split at h
      · simp only [CallOutcome.croak.injEq] at h
        rw [← h.2]
      · exact (ih _ _ _ _ h).trans rfl

/-- The loop filling a row of `dfdy` leaves the flag alone when it croaks. -/
theorem rc_jac_row_loop_croak_check (num_y : Nat) (rowRef : Option Nat) (j : Nat) :
    ∀ (n i : Nat) (s : JacState) (e : Croak) (s' : JacState),
      rc_jac_row_loop num_y rowRef j n i s = .croak e s' → s'.check = s.check := by
  intro n
  induction n with
  | zero =>
    intro i s e s' h
    simp [rc_jac_row_loop] at h
  | succ n ih =>
    intro i s e s' h
    simp only [rc_jac_row_loop] at h
    cases hs : av_shift_at s.heap rowRef with
    | none => simp [hs] at h
    | some p =>
      obtain ⟨elt, heap1⟩ := p
      simp only [hs] at h
      split at h
      · simp only [CallOutcome.croak.injEq] at h
        rw [← h.2]
      · exact (ih _ _ _ _ h).trans rfl

/-- The loop over the rows of `dfdy` leaves the flag alone when it croaks. -/
theorem rc_jac_dfdy_loop_croak_check (num_y : Nat) (dfdyRef : Option Nat) :
    ∀ (n j : Nat) (s : JacState) (e : Croak) (s' : JacState),
      rc_jac_dfdy_loop num_y dfdyRef n j s = .croak e s' → s'.check = s.check := by
  intro n
  induction n with
  | zero =>
    intro j s e s' h
    simp [rc_jac_dfdy_loop] at h
  | succ n ih =>
    intro j s e s' h
    simp only [rc_jac_dfdy_loop] at h
    cases hs : av_shift_at s.heap dfdyRef with
    | none => simp [hs] at h
    | some p =>
      obtain ⟨rowShell, heap1⟩ := p
      simp only [hs] at h
      cases hr : rc_jac_row_loop num_y rowShell.rv j num_y 0 { s with heap := heap1 } with
      | ret st1 s1 =>
        simp only [hr] at h
        rw [ih _ _ _ _ h, rc_jac_row_loop_check num_y _ _ _ _ _ _ _ hr]
      | croak e1 b =>
        simp only [hr, CallOutcome.croak.injEq] at h
        rw [← h.2, rc_jac_row_loop_croak_check num_y _ _ _ _ _ _ _ hr]
      | undefined => simp [hr] at h

/-- The end of `rc_jac` passes a croak on as it is. -/
theorem rc_jac_finish_croak (o : CallOutcome JacState) (e : Croak) (s' : JacState)
    (h : rc_jac_finish o = .croak e s') : o = .croak e s' := by
  cases o with
  | ret st1 s1 => simp [rc_jac_finish] at h
  | croak e1 b => simpa [rc_jac_finish] using h
  | undefined => simp [rc_jac_finish] at h

/-- The second half of `rc_jac` leaves the flag alone when it croaks. -/
theorem rc_jac_dfdy_croak_check (num_y : Nat) (stack : List SV) (s : JacState)
    (e : Croak) (s' : JacState) (h : rc_jac_dfdy num_y stack s = .croak e s') :
    s'.check = s.check := by
  unfold rc_jac_dfdy at h
  simp only at h
  split at h
  · split at h
    · simp only [CallOutcome.croak.injEq] at h
      rw [← h.2]
    · split at h
      · simp only [CallOutcome.croak.injEq] at h
        rw [← h.2]
      · exact rc_jac_dfdy_loop_croak_check num_y _ _ _ _ _ _ (rc_jac_finish_croak _ _ _ h)
  · exact rc_jac_dfdy_loop_croak_check num_y _ _ _ _ _ _ (rc_jac_finish_croak _ _ _ h)

/-- A Jacobian evaluation that croaks leaves the flag as it found it. -/
theorem rc_jac_croak_check (num_y : Nat) (perljac : List SV → Heap → List SV × Heap)
    (t : ℚ) (y : List ℚ) (s : JacState) (e : Croak) (s' : JacState)
    (h : rc_jac num_y perljac t y s = .croak e s') : s'.check = s.check := by
  unfold rc_jac at h
  simp only at h
  split at h
  · simp only [CallOutcome.croak.injEq] at h
    rw [← h.2]
  · split at h
    · split at h
      · simp only [CallOutcome.croak.injEq] at h
        rw [← h.2]
      · split at h
        · rename_i st1 s1 heq
          have h1 := rc_jac_dfdt_loop_check _ _ _ _ _ _ heq
          have h2 := rc_jac_dfdy_croak_check _ _ _ _ _ h
          rw [h2, h1]
        · rename_i o hne
          exact (rc_jac_dfdt_loop_croak_check _ _ _ _ _ _ h).trans rfl
    · split at h
      · simp only [CallOutcome.croak.injEq] at h
        rw [← h.2]
      · split at h
        · rename_i st1 s1 heq
          have h1 := rc_jac_dfdt_loop_check _ _ _ _ _ _ heq
          have h2 := rc_jac_dfdy_croak_check _ _ _ _ _ h
          rw [h2, h1]
        · rename_i o hne
          exact (rc_jac_dfdt_loop_croak_check _ _ _ _ _ _ h).trans rfl

section BridgeFlag

variable {σ : Type} (num_y : Nat) (perlfunc : List SV → List SV)
  (perljac : List SV → Heap → List SV × Heap)

/-- An application that ends at once returns under the flag it was entered
with, the heap and the log as they were. -/
theorem Stepping.run_done (status : Int) (d : σ) (t : ℚ) (yt : List ℚ) (check : Int)
    (d0 : σ) (heap : Heap) (log : EvalLog) :
    (Stepping.done status d t yt).run num_y perlfunc perljac check d0 heap log
      = .returned status { d := d, heap := heap, log := log } t yt check := by
  rw [Stepping.run]

/-- An application that asks for a derivative evaluation runs `rc_func` under
the current flag and goes on under the same flag. -/
theorem Stepping.run_func (t : ℚ) (y f : List ℚ) (next : Int → List ℚ → Stepping σ)
    (check : Int) (d0 : σ) (heap : Heap) (log : EvalLog) :
    (Stepping.func t y f next).run num_y perlfunc perljac check d0 heap log
      = (match rc_func check num_y perlfunc t y f with
        | .ret status f1 =>
          (next status f1).run num_y perlfunc perljac check d0 heap (log ++ [(false, check)])
        | .croak e _ =>
          .croaked e { d := d0, heap := heap, log := log ++ [(false, check)] } check
        | .undefined => .undefined) := by
  rw [Stepping.run]

/-- An application that asks for a Jacobian evaluation runs `rc_jac` under the
current flag and goes on under the flag `rc_jac` leaves. -/
theorem Stepping.run_jac (t : ℚ) (y dfdt dfdy : List ℚ)
    (next : Int → List ℚ → List ℚ → Stepping σ)
    (check : Int) (d0 : σ) (heap : Heap) (log : EvalLog) :
    (Stepping.jac t y dfdt dfdy next).run num_y perlfunc perljac check d0 heap log
      = (match rc_jac num_y perljac t y
            { check := check, heap := heap, dfdt := dfdt, dfdy := dfdy } with
        | .ret status s1 =>
          (next status s1.dfdt s1.dfdy).run num_y perlfunc perljac s1.check d0 s1.heap
            (log ++ [(true, check)])
        | .croak e s1 =>
          .croaked e { d := d0, heap := s1.heap, log := log ++ [(true, check)] } s1.check
        | .undefined => .undefined) := by
  rw [Stepping.run]

/-- A stepper application entered with a log in order, under the flag of that
log, ends with a log in order: when it returns, the flag is that of the log;
when it croaks, the flag is the one under which the last evaluation of the log
began. -/
theorem Stepping.run_flag :
    ∀ (p : Stepping σ) (check : Int) (d0 : σ) (heap : Heap) (log : EvalLog),
      log_ok log → check = flag_after log →
      (∀ st b t yt c, p.run num_y perlfunc perljac check d0 heap log = .returned st b t yt c →
        log_ok b.log ∧ c = flag_after b.log) ∧
      (∀ e b c, p.run num_y perlfunc perljac check d0 heap log = .croaked e b c →
        log_ok b.log ∧ ∃ isJac, b.log.getLast? = some (isJac, c)) := by
  intro p
  induction p with
  | done status d t yt =>
    intro check d0 heap log hl hc
    constructor
    · intro st b t' yt' c h
      rw [Stepping.run_done] at h
      simp only [ApplyOutcome.returned.injEq] at h
      obtain ⟨_, hb, _, _, hcc⟩ := h
      subst hb
      exact ⟨hl, hcc ▸ hc⟩
    · intro e b c h
      rw [Stepping.run_done] at h
      cases h
  | func t y f next ih =>
    intro check d0 heap log hl hc
    have hl1 : log_ok (log ++ [(false, check)]) := hc ▸ log_ok_append log false hl
    have hc1 : check = flag_after (log ++ [(false, check)]) := by
      rw [flag_after_func]; exact hc
    cases hf : rc_func check num_y perlfunc t y f with
    | ret status f1 =>
      obtain ⟨i1, i2⟩ := ih status f1 check d0 heap _ hl1 hc1
      constructor
      · intro st b t' yt' c h
        rw [Stepping.run_func, hf] at h
        exact i1 st b t' yt' c h
      · intro e b c h
        rw [Stepping.run_func, hf] at h
        exact i2 e b c h
    | croak e f1 =>
      constructor
      · intro st b t' yt' c h
        rw [Stepping.run_func, hf] at h
        cases h
      · intro e' b c h
        rw [Stepping.run_func, hf] at h
        simp only [ApplyOutcome.croaked.injEq] at h
        obtain ⟨_, hb, hcc⟩ := h
        subst hb
        subst hcc
        exact ⟨hl1, false, by simp⟩
    | undefined =>
      constructor
      · intro st b t' yt' c h
        rw [Stepping.run_func, hf] at h
        cases h
      · intro e' b c h
        rw [Stepping.run_func, hf] at h
        cases h
  | jac t y dfdt dfdy next ih =>
    intro check d0 heap log hl hc
    have hl1 : log_ok (log ++ [(true, check)]) := hc ▸ log_ok_append log true hl
    cases hj : rc_jac num_y perljac t y
        { check := check, heap := heap, dfdt := dfdt, dfdy := dfdy } with
    | ret status s1 =>
      have hs1 := (rc_jac_ret_check num_y perljac t y _ status s1 hj).2
      have hc1 : s1.check = flag_after (log ++ [(true, check)]) := by
        rw [flag_after_jac, hs1]
        rcases flag_after_cases log with h0 | h1
        · simp [hc, h0]
        · simp [hc, h1]
      obtain ⟨i1, i2⟩ := ih status s1.dfdt s1.dfdy s1.check d0 s1.heap _ hl1 hc1
      constructor
      · intro st b t' yt' c h
        rw [Stepping.run_jac, hj] at h
        exact i1 st b t' yt' c h
      · intro e b c h
        rw [Stepping.run_jac, hj] at h
        exact i2 e b c h
    | croak e s1 =>
      constructor
      · intro st b t' yt' c h
        rw [Stepping.run_jac, hj] at h
        cases h
      · intro e' b c h
        rw [Stepping.run_jac, hj] at h
        simp only [ApplyOutcome.croaked.injEq] at h
        obtain ⟨_, hb, hcc⟩ := h
        subst hb
        have hk : s1.check = check := rc_jac_croak_check num_y perljac t y _ e s1 hj
        exact ⟨hl1, true, by simp [← hcc, hk]⟩
    | undefined =>
      constructor
      · intro st b t' yt' c h
        rw [Stepping.run_jac, hj] at h
        cases h
      · intro e' b c h
        rw [Stepping.run_jac, hj] at h
        cases h

variable (alloc : gsl_odeiv2_step_type → ℚ → ℚ → ℚ → σ) (heap0 : Heap)
  (plan : σ → ℚ → ℚ → List ℚ → Stepping σ) (t0 t_step : ℚ)

/-- The stepping loop over the library that reaches the callbacks through
`rc_func` and `rc_jac`, entered with a log in order under the flag of that
log: however it ends, the log is in order; when it returns the flag is that of
the log; when it croaks the flag is the one under which the last evaluation of
the log began. -/
theorem loop_flag :
    ∀ (n : Nat) (j : Int) (s : SolverState (Bridged σ)) (b : Bridged σ),
      s.d = some b → log_ok b.log → s.check = flag_after b.log →
      (∀ s1, rc_ode_solver_loop (bridge_gsl num_y perlfunc perljac alloc heap0 plan)
          t0 t_step num_y n j s = .returned s1 →
        ∃ b1, s1.d = some b1 ∧ log_ok b1.log ∧ s1.check = flag_after b1.log) ∧
      (∀ e s1, rc_ode_solver_loop (bridge_gsl num_y perlfunc perljac alloc heap0 plan)
          t0 t_step num_y n j s = .croaked e s1 →
        ∃ b1, s1.d = some b1 ∧ log_ok b1.log ∧
          ∃ isJac, b1.log.getLast? = some (isJac, s1.check)) := by
  intro n
  induction n with
  | zero =>
    intro j s b hd hl hc
    constructor
    · intro s1 h
      simp only [rc_ode_solver_loop, Outcome.returned.injEq] at h
      subst h
      exact ⟨b, hd, hl, hc⟩
    · intro e s1 h
      simp [rc_ode_solver_loop] at h
  | succ n ih =>
    intro j s b hd hl hc
    obtain ⟨r1, r2⟩ := Stepping.run_flag num_y perlfunc perljac
      (plan b.d s.t (target_time t0 t_step j) s.yt) s.check b.d b.heap b.log hl hc
    cases ha : (bridge_gsl num_y perlfunc perljac alloc heap0 plan).gsl_odeiv2_driver_apply
        b s.check s.t (target_time t0 t_step j) s.yt with
    | undefined =>
      have hb : loop_body (bridge_gsl num_y perlfunc perljac alloc heap0 plan)
          t0 t_step num_y j s = .stop .undefined := by
        unfold loop_body; simp [hd, ha]
      constructor
      · intro s1 h; simp [rc_ode_solver_loop, hb] at h
      · intro e s1 h; simp [rc_ode_solver_loop, hb] at h
    | croaked e d1 c1 =>
      have hb := loop_body_of_croak _ t0 t_step num_y j s b d1 e c1 hd ha
      constructor
      · intro s1 h; simp [rc_ode_solver_loop, hb] at h
      · intro e' s1 h
        simp only [rc_ode_solver_loop, hb, Outcome.croaked.injEq] at h
        obtain ⟨_, h⟩ := h
        subst h
        exact ⟨d1, rfl, (r2 e d1 c1 ha).1, (r2 e d1 c1 ha).2⟩
    | returned st d1 t' yt1 c1 =>
      obtain ⟨hl1, hc1⟩ := r1 st d1 t' yt1 c1 ha
      by_cases hst : st = GSL_SUCCESS
      · subst hst
        have hb := loop_body_of_success _ t0 t_step num_y j s b d1 t' yt1 c1 hd ha
        obtain ⟨ih1, ih2⟩ := ih (j + 1)
          { check := c1, y := s.y, d := some d1, t := t', yt := yt1,
            resultsAV := s.resultsAV ++ [make_row (target_time t0 t_step j) yt1 num_y],
            applied := s.applied ++ [target_time t0 t_step j] } d1 rfl hl1 hc1
        constructor
        · intro s1 h
          simp only [rc_ode_solver_loop, hb] at h
          exact ih1 s1 h
        · intro e s1 h
          simp only [rc_ode_solver_loop, hb] at h
          exact ih2 e s1 h
      · have hb := loop_body_of_failure _ t0 t_step num_y j s b d1 st t' yt1 c1 hd hst ha
        constructor
        · intro s1 h
          simp only [rc_ode_solver_loop, hb, Outcome.returned.injEq] at h
          subst h
          exact ⟨d1, rfl, hl1, hc1⟩
        · intro e s1 h; simp [rc_ode_solver_loop, hb] at h

end BridgeFlag

/-! ## The flag `check` over a call of `rc_ode_solver` -/

/-- C14. Take any call of `rc_ode_solver`, entered with any value `check0` of
the flag, over a library that reaches the host callbacks through `rc_func` and
`rc_jac` only, in any order and with any arguments (`plan`); the log of the
stepper lists, for every callback evaluation begun during the call, whether
it was a Jacobian evaluation and the value of the flag when it began. When
the call returns: the flag at the start of an evaluation was `0` if a Jacobian
evaluation came earlier in the call and `1` otherwise (so the first evaluation
of the call, and the first Jacobian evaluation, began under `1`, and every
evaluation after a Jacobian evaluation began under `0`), and the flag the call
leaves is `0` if the log holds a Jacobian evaluation and `1` otherwise. When
the call croaks, it does so either on the step type, before any evaluation and
with the flag at `1`, or in an evaluation, with the same account of the log
and the flag left as the croaking evaluation found it. The outcome does not
depend on `check0`. A Jacobian evaluation that returns takes the flag from `1`
to `0` and leaves any other value; one that croaks leaves the flag alone. -/
theorem check_flag_discipline {σ : Type} (num_y : Nat) (perlfunc : List SV → List SV)
    (perljac : List SV → Heap → List SV × Heap)
    (alloc : gsl_odeiv2_step_type → ℚ → ℚ → ℚ → σ) (heap0 : Heap)
    (plan : σ → ℚ → ℚ → List ℚ → Stepping σ)
    (check0 check0' : Int) (t0 t1 : ℚ) (num_steps : Int) (y : List SV) (step_type : String)
    (h_init eps_abs eps_rel : ℚ) :
    (∀ s, rc_ode_solver (bridge_gsl num_y perlfunc perljac alloc heap0 plan) check0 t0 t1
        num_steps num_y y step_type h_init eps_abs eps_rel = .returned s →
      ∃ b, s.d = some b ∧
        (∀ (k : Nat) (isJac : Bool) (c : Int), b.log[k]? = some (isJac, c) →
          c = (if (b.log.take k).any (fun p => p.1) then 0 else 1)) ∧
        s.check = (if b.log.any (fun p => p.1) then 0 else 1)) ∧
    (∀ e s, rc_ode_solver (bridge_gsl num_y perlfunc perljac alloc heap0 plan) check0 t0 t1
        num_steps num_y y step_type h_init eps_abs eps_rel = .croaked e s →
      (e = .unknown_step_type step_type ∧ s.d = none ∧ s.check = 1) ∨
      ∃ b, s.d = some b ∧
        (∀ (k : Nat) (isJac : Bool) (c : Int), b.log[k]? = some (isJac, c) →
          c = (if (b.log.take k).any (fun p => p.1) then 0 else 1)) ∧
        ∃ isJac, b.log.getLast? = some (isJac, s.check)) ∧
    rc_ode_solver (bridge_gsl num_y perlfunc perljac alloc heap0 plan) check0 t0 t1
        num_steps num_y y step_type h_init eps_abs eps_rel
      = rc_ode_solver (bridge_gsl num_y perlfunc perljac alloc heap0 plan) check0' t0 t1
        num_steps num_y y step_type h_init eps_abs eps_rel ∧
    (∀ (t : ℚ) (y' : List ℚ) (s : JacState) (st : Int) (s' : JacState),
      rc_jac num_y perljac t y' s = .ret st s' →
        s'.check = (if s.check = 1 then 0 else s.check)) ∧
    (∀ (t : ℚ) (y' : List ℚ) (s : JacState) (e : Croak) (s' : JacState),
      rc_jac num_y perljac t y' s = .croak e s' → s'.check = s.check) := by
  refine ⟨?_, ?_, rfl,
    fun t y' s st s' h => (rc_jac_ret_check num_y perljac t y' s st s' h).2,
    fun t y' s e s' h => rc_jac_croak_check num_y perljac t y' s e s' h⟩
  · intro s h
    cases hT : translate_step_type step_type with
    | none => simp [rc_ode_solver, hT] at h
    | some T =>
      rw [rc_ode_solver_eq_loop _ check0 t0 t1 num_steps num_y y step_type h_init eps_abs
        eps_rel T hT] at h
      obtain ⟨_, _, hc, _, hd⟩ := rc_ode_solver_init_spec
        (bridge_gsl num_y perlfunc perljac alloc heap0 plan) t0 num_y y h_init eps_abs eps_rel T
      obtain ⟨b, hb, hl, hf⟩ := (loop_flag num_y perlfunc perljac alloc heap0 plan t0 _ _ _ _ _
        hd log_ok_nil (hc.trans rfl)).1 s h
      exact ⟨b, hb, hl, hf⟩
  · intro e s h
    cases hT : translate_step_type step_type with
    | none =>
      simp only [rc_ode_solver, hT, Outcome.croaked.injEq] at h
      obtain ⟨he, hs⟩ := h
      subst hs
      exact Or.inl ⟨he.symm, rfl, rfl⟩
    | some T =>
      rw [rc_ode_solver_eq_loop _ check0 t0 t1 num_steps num_y y step_type h_init eps_abs
        eps_rel T hT] at h
      obtain ⟨_, _, hc, _, hd⟩ := rc_ode_solver_init_spec
        (bridge_gsl num_y perlfunc perljac alloc heap0 plan) t0 num_y y h_init eps_abs eps_rel T
      obtain ⟨b, hb, hl, hf⟩ := (loop_flag num_y perlfunc perljac alloc heap0 plan t0 _ _ _ _ _
        hd log_ok_nil (hc.trans rfl)).2 e s h
      exact Or.inr ⟨b, hb, hl, hf⟩

/-- C14, instance: a call entered with the flag at `0`, two reporting steps, in
each of which the stepper evaluates the derivative, the Jacobian and the
derivative again. The call returns; the six evaluations began under the flags
`1, 1, 0, 0, 0, 0`, and the call leaves the flag at `0`. -/
theorem check_flag_discipline_witness :
    ∃ s, rc_ode_solver (bridge_gsl 2 func_decay jac_2x2 (fun _ _ _ _ => 0) [] example_plan)
        0 0 1 2 2 [newSVnv 8, newSVnv 4] "bsimp_j" 1 1 1 = .returned s ∧
      s.d.map Bridged.log
        = some [(false, 1), (true, 1), (false, 0), (false, 0), (true, 0), (false, 0)] ∧
      s.check = 0 ∧
      ∃ b, s.d = some b ∧
        (∀ (k : Nat) (isJac : Bool) (c : Int), b.log[k]? = some (isJac, c) →
          c = (if (b.log.take k).any (fun p => p.1) then 0 else 1)) ∧
        s.check = (if b.log.any (fun p => p.1) then 0 else 1) :=
  ⟨_, rfl, rfl, rfl,
    (check_flag_discipline 2 func_decay jac_2x2 (fun _ _ _ _ => 0) [] example_plan
      0 5 0 1 2 [newSVnv 8, newSVnv 4] "bsimp_j" 1 1 1).1 _ rfl⟩

end RichGSL
